import Mathlib

/-!
# PicoVireo `Platform.cpp`: the command scanner of `PlatformIO`

A shallow embedding of `PlatformIO::checkCommand` and `PlatformIO::_fgetc`
(`src/source/core/Platform.cpp`), the two functions that look for the magic
header `F4 F5 F4 F5 F4 F5 00 00` in the console byte stream and dispatch the
opcode that follows it.

Conventions of the embedding.

* A byte is a `Nat` below 256.  `char` is the unsigned 8-bit type of the
  ARM target (the initialiser `0xF4` of `cmdHeader` needs it), so a
  conversion to `char` or `uint8_t` is `% 256`, and `(char)EOF` is `0xFF`.
* The input stream is the list of bytes not yet consumed.  `fgetc` on the
  empty list is `EOF`; the polling read on the empty list is negative.
* `stdout` is the text written so far (`fflush` has no effect on it).
* `Platform.h` is not part of the sources.  What it declares is a parameter
  (`Build`): the numeric values of the `CMD_*` enumeration and the declared
  length of the array `_cmd`.  The counters `_cmdLen` and `_unreadI` are
  natural numbers: their declared type is not known, and no theorem below
  takes them beyond 127, which every integer type holds.
* An array access outside the array is undefined behaviour in C++; the
  embedding stops with `Outcome.outOfBounds` there.  Loops carry fuel;
  `Outcome.outOfFuel` is the answer of a loop that was given too little.
-/

namespace Vireo

/-! ## Results -/

/-- Result of running a piece of the program. -/
inductive Outcome (α : Type) where
  | ok : α → Outcome α
  | outOfBounds : Outcome α
  | outOfFuel : Outcome α
deriving DecidableEq, Repr

/-- How a loop body ends: it goes on with a value, or the enclosing
function returns. -/
inductive Flow (α ρ : Type) where
  | next : α → Flow α ρ
  | ret : ρ → Flow α ρ
deriving DecidableEq, Repr

/-! ## Constants of `Platform.cpp` -/

/-- Macro `CMD_HEADER_LEN`. -/
def CMD_HEADER_LEN : Nat := 8

/-- Table `cmdHeader`. -/
def cmdHeader : List Nat := [0xF4, 0xF5, 0xF4, 0xF5, 0xF4, 0xF5, 0x00, 0x00]

/-- SDK constant `PICO_UNIQUE_BOARD_ID_SIZE_BYTES` (rp2040 builds only). -/
def PICO_UNIQUE_BOARD_ID_SIZE_BYTES : Nat := 8

/-- What the build fixes outside `Platform.cpp`. -/
structure Build where
  /-- Whether `__rp2040__` is defined. -/
  rp2040 : Bool
  /-- Declared length of the member array `_cmd` (`Platform.h`). -/
  cmdCap : Nat
  /-- Characters that `pico_get_unique_board_id_string` produces. -/
  boardId : List Nat
  /-- Values of the opcode enumeration (`Platform.h`). -/
  CMD_UNKNOWN : Nat
  CMD_VERSION : Nat
  CMD_PLATFORM : Nat
  CMD_BOARD : Nat
  CMD_SERIAL : Nat
  CMD_ALIAS : Nat
  CMD_ISEXEC : Nat
  CMD_RESET : Nat
  CMD_ABORT : Nat
  CMD_RUNMAIN : Nat
deriving DecidableEq, Repr

/-- String `picog_platform`. -/
def picog_platform (b : Build) : String :=
  if b.rp2040 then "rp2040" else "unknown"

/-- String `picog_board`. -/
def picog_board (b : Build) : String :=
  if b.rp2040 then "pico" else "none"

/-! ## State -/

/-- Data members of `class PlatformIO` used by the scanner. -/
structure PlatformIO where
  _cmd : List Nat
  _cmdLen : Nat
  _cmdMatch : Nat
  _readCmd : Bool
  _unreadI : Nat
  _unreadCmd : Bool
deriving DecidableEq, Repr

/-- The scanner together with the two streams it works on. -/
structure World where
  pio : PlatformIO
  stdin : List Nat
  stdout : String
deriving DecidableEq, Repr

/-- Constructor `PlatformIO::PlatformIO()`: it assigns four members and
leaves `_cmd` and `_unreadCmd` as they were in the storage. -/
def PlatformIO.ctor (mem : PlatformIO) : PlatformIO :=
  { mem with _cmdLen := 0, _cmdMatch := 0, _readCmd := false, _unreadI := 0 }

/-- Zero-initialised static storage for a `PlatformIO` whose `_cmd` has
`cap` elements. -/
def PlatformIO.zeroed (cap : Nat) : PlatformIO :=
  { _cmd := List.replicate cap 0, _cmdLen := 0, _cmdMatch := 0,
    _readCmd := false, _unreadI := 0, _unreadCmd := false }

/-- The scanner held by the global `gPlatform`: static storage is zeroed
and the constructor then runs on it. -/
def gPlatform (b : Build) : PlatformIO :=
  PlatformIO.ctor ( PlatformIO.zeroed b.cmdCap)

/-! ## Primitive operations -/

/-- Conversion of an `int` to `char` / `uint8_t`. -/
def toChar (c : Int) : Nat := (c % 256).toNat

/-- Library call `fgetc(file)`: the next byte, or `EOF` (-1). -/
def fgetc (file : List Nat) : Int × List Nat :=
  match file with
  | [] => (-1, [])
  | x :: rest => ((x : Int), rest)

/-- Modelled from the spec: `_getchar_timeout_us` is declared outside
`Platform.cpp`; it is the polling read with zero timeout of section 6,
taking the next byte of the same console stream that `stdin` reads, and
answering a negative value when no byte is ready. -/
def _getchar_timeout_us (file : List Nat) : Int × List Nat :=
  match file with
  | [] => (-1, [])
  | x :: rest => ((x : Int), rest)

/-- Array read `cmdHeader[i]`. -/
def cmdHeaderAt (i : Nat) : Outcome Nat :=
  match cmdHeader[i]? with
  | some h => .ok h
  | none => .outOfBounds

/-- Array read `_cmd[i]`. -/
def PlatformIO.load (s : PlatformIO) (i : Nat) : Outcome Nat :=
  match s._cmd[i]? with
  | some c => .ok c
  | none => .outOfBounds

/-- Array write `_cmd[i] = c`. -/
def PlatformIO.store (s : PlatformIO) (i c : Nat) : Outcome PlatformIO :=
  if i < s._cmd.length then .ok { s with _cmd := s._cmd.set i c }
  else .outOfBounds

/-- Consecutive writes `_cmd[i] = c₀; _cmd[i+1] = c₁; ...`. -/
def PlatformIO.storeAll (s : PlatformIO) (i : Nat) : List Nat → Outcome PlatformIO
  | [] => .ok s
  | c :: cs =>
    match s.store i c with
    | .ok s1 => s1.storeAll (i + 1) cs
    | .outOfBounds => .outOfBounds
    | .outOfFuel => .outOfFuel

/-- Bytes of a C string literal. -/
def cstr (t : String) : List Nat := t.toList.map Char.toNat

/-- Text printed by `%s` for a byte string. -/
def bytesToString (cs : List Nat) : String := String.mk (cs.map Char.ofNat)

/-! ## The blocking scanner `PlatformIO::_fgetc` -/

/-- The `switch (cmd)` of `_fgetc` (lines 509-571).  The case labels of a
C++ `switch` are pairwise different, so the order in which they are tried
here has no meaning. -/
def fgetcSwitch (b : Build) (cmd : Nat) (s : PlatformIO) (out : String) :
    Outcome ( PlatformIO × String) :=
  if cmd = b.CMD_VERSION then .ok (s, out ++ "0.0.0\n")
  else if cmd = b.CMD_PLATFORM then .ok (s, out ++ picog_platform b ++ "\n")
  else if cmd = b.CMD_BOARD then .ok (s, out ++ picog_board b ++ "\n")
  else if cmd = b.CMD_SERIAL then
    if b.rp2040 then
      let s1 := { s with _cmdLen := PICO_UNIQUE_BOARD_ID_SIZE_BYTES * 2 + 1 }
      match s1.storeAll 0 (b.boardId ++ [0]) with
      | .ok s2 => .ok (s2, out ++ bytesToString (s2._cmd.takeWhile (fun c => c ≠ 0)) ++ "\n")
      | .outOfBounds => .outOfBounds
      | .outOfFuel => .outOfFuel
    else .ok (s, out)
  else if cmd = b.CMD_ALIAS then .ok (s, out ++ "MyPico\n")
  else if cmd = b.CMD_ISEXEC then .ok (s, out ++ "F\n")
  else if cmd = b.CMD_RESET then
    match s.storeAll 0 (cstr "reset()\n") with
    | .ok s1 => .ok ({ s1 with _cmdLen := 8 }, out ++ "OK\n")
    | .outOfBounds => .outOfBounds
    | .outOfFuel => .outOfFuel
  else if cmd = b.CMD_ABORT then .ok (s, out ++ "FAIL\n")
  else if cmd = b.CMD_RUNMAIN then
    match s.storeAll 0 (cstr "run()\n") with
    | .ok s1 => .ok ({ s1 with _cmdLen := 6 }, out ++ "OK\n")
    | .outOfBounds => .outOfBounds
    | .outOfFuel => .outOfFuel
  else .ok (s, out)

/-- The inner loop `while (c == cmdHeader[_cmdLen])` of `_fgetc`
(lines 489-502), entered with the byte `c` just read.  It answers the last
byte read, the scanner and the rest of the file. -/
def fgetcMatch : Nat → Nat → PlatformIO → List Nat → Outcome (Nat × PlatformIO × List Nat)
  | 0, _, _, _ => .outOfFuel
  | fuel + 1, c, s, file =>
    match cmdHeaderAt s._cmdLen with
    | .ok h =>
      if c = h then
        match s.store s._cmdLen c with
        | .ok s1 =>
          let s2 := { s1 with _cmdLen := s1._cmdLen + 1 }
          if s2._cmdLen ≥ CMD_HEADER_LEN then
            .ok (c, { s2 with _readCmd := true, _cmdLen := 0 }, file)
          else
            let r := fgetc file
            fgetcMatch fuel (toChar r.1) s2 r.2
        | .outOfBounds => .outOfBounds
        | .outOfFuel => .outOfFuel
      else .ok (c, s, file)
    | .outOfBounds => .outOfBounds
    | .outOfFuel => .outOfFuel

/-- One turn of the loop `while (readByte)` of `_fgetc` (lines 472-591):
either the loop goes on (`readByte` is true, after a command), or `_fgetc`
returns a byte (the `return c` of line 478, or `readByte = false` followed
by the `return c` of line 594). -/
def fgetcBody (b : Build) (w : World) : Outcome (Flow World (Nat × World)) :=
  let r := fgetc w.stdin
  let c := toChar r.1
  if c ≠ cmdHeader.headD 0 then .ok (.ret (c, { w with stdin := r.2 }))
  else
    match fgetcMatch CMD_HEADER_LEN c { w.pio with _cmdLen := 0 } r.2 with
    | .ok (c1, s1, file1) =>
      if s1._readCmd then
        let r2 := fgetc file1
        match fgetcSwitch b (toChar r2.1) s1 w.stdout with
        | .ok (s2, out2) => .ok (.next { pio := s2, stdin := r2.2, stdout := out2 })
        | .outOfBounds => .outOfBounds
        | .outOfFuel => .outOfFuel
      else
        match s1.store s1._cmdLen c1 with
        | .ok s2 =>
          let s3 := { s2 with _cmdLen := s2._cmdLen + 1 }
          match s3.load 0 with
          | .ok c0 =>
            .ok (.ret (c0, { pio := { s3 with _unreadI := 1 }, stdin := file1, stdout := w.stdout }))
          | .outOfBounds => .outOfBounds
          | .outOfFuel => .outOfFuel
        | .outOfBounds => .outOfBounds
        | .outOfFuel => .outOfFuel
    | .outOfBounds => .outOfBounds
    | .outOfFuel => .outOfFuel

/-- The loop `while (readByte)` of `_fgetc`, with fuel for its turns. -/
def fgetcLoop (b : Build) : Nat → World → Outcome (Nat × World)
  | 0, _ => .outOfFuel
  | fuel + 1, w =>
    match fgetcBody b w with
    | .ok (.next w1) => fgetcLoop b fuel w1
    | .ok (.ret x) => .ok x
    | .outOfBounds => .outOfBounds
    | .outOfFuel => .outOfFuel

/-- Function `PlatformIO::_fgetc(FILE *file)`, the file being the console
input of the world.  Every turn of `while (readByte)` that goes on has
consumed a byte, so one turn more than there are bytes is enough fuel
(`fgetc_fuel_enough`). -/
def _fgetc (b : Build) (w : World) : Outcome (Nat × World) :=
  if w.pio._unreadCmd then
    match w.pio.load w.pio._unreadI with
    | .ok c =>
      let s1 := { w.pio with _unreadI := w.pio._unreadI + 1 }
      let s2 := if s1._unreadI = s1._cmdLen then { s1 with _unreadCmd := false } else s1
      .ok (c, { w with pio := s2 })
    | .outOfBounds => .outOfBounds
    | .outOfFuel => .outOfFuel
  else fgetcLoop b (w.stdin.length + 1) w

/-! ## The polling scanner `PlatformIO::checkCommand` -/

/-- The `switch (cmd)` of `checkCommand` (lines 374-436); `CMD_ABORT`
returns from the function. -/
def checkCommandSwitch (b : Build) (cmd : Nat) (s : PlatformIO) (out : String) :
    Outcome (Flow ( PlatformIO × String) Nat) :=
  if cmd = b.CMD_VERSION then .ok (.next (s, out ++ "0.0.0\n"))
  else if cmd = b.CMD_PLATFORM then .ok (.next (s, out ++ picog_platform b ++ "\n"))
  else if cmd = b.CMD_BOARD then .ok (.next (s, out ++ picog_board b ++ "\n"))
  else if cmd = b.CMD_SERIAL then
    if b.rp2040 then
      let s1 := { s with _cmdLen := PICO_UNIQUE_BOARD_ID_SIZE_BYTES * 2 + 1 }
      match s1.storeAll 0 (b.boardId ++ [0]) with
      | .ok s2 =>
        .ok (.next (s2, out ++ bytesToString (s2._cmd.takeWhile (fun c => c ≠ 0)) ++ "\n"))
      | .outOfBounds => .outOfBounds
      | .outOfFuel => .outOfFuel
    else .ok (.next (s, out))
  else if cmd = b.CMD_ALIAS then .ok (.next (s, out ++ "MyPico\n"))
  else if cmd = b.CMD_ISEXEC then .ok (.next (s, out ++ "F\n"))
  else if cmd = b.CMD_RESET then
    match s.storeAll 0 (cstr "reset()\n") with
    | .ok s1 => .ok (.next ({ s1 with _cmdLen := 8 }, out ++ "OK\n"))
    | .outOfBounds => .outOfBounds
    | .outOfFuel => .outOfFuel
  else if cmd = b.CMD_ABORT then .ok (.ret b.CMD_ABORT)
  else if cmd = b.CMD_RUNMAIN then
    match s.storeAll 0 (cstr "run()\n") with
    | .ok s1 => .ok (.next ({ s1 with _cmdLen := 6 }, out ++ "OK\n"))
    | .outOfBounds => .outOfBounds
    | .outOfFuel => .outOfFuel
  else .ok (.next (s, out))

/-- The inner loop `while (c == cmdHeader[_cmdLen])` of `checkCommand`
(lines 351-367), entered with the value `c` just polled.  It leaves the
loop with the last value polled, or returns `CMD_UNKNOWN` from the function
when the poll finds nothing. -/
def checkCommandMatch (b : Build) :
    Nat → Int → PlatformIO → List Nat →
      Outcome (Flow (Int × PlatformIO × List Nat) (Nat × PlatformIO × List Nat))
  | 0, _, _, _ => .outOfFuel
  | fuel + 1, c, s, file =>
    match cmdHeaderAt s._cmdLen with
    | .ok h =>
      if c = (h : Int) then
        match s.store s._cmdLen (toChar c) with
        | .ok s1 =>
          let s2 := { s1 with _cmdLen := s1._cmdLen + 1 }
          if s2._cmdLen ≥ CMD_HEADER_LEN then
            .ok (.next (c, { s2 with _readCmd := true, _cmdLen := 0 }, file))
          else
            let r := _getchar_timeout_us file
            if r.1 < 0 then .ok (.ret (b.CMD_UNKNOWN, s2, r.2))
            else checkCommandMatch b fuel r.1 s2 r.2
        | .outOfBounds => .outOfBounds
        | .outOfFuel => .outOfFuel
      else .ok (.next (c, s, file))
    | .outOfBounds => .outOfBounds
    | .outOfFuel => .outOfFuel

/-- One turn of the loop `while (readByte)` of `checkCommand`
(lines 328-456): either the loop goes on (`readByte` is true, after a
command), or `checkCommand` returns a code (one of the `return`s inside the
loop, or `readByte = false` followed by the `return CMD_UNKNOWN` of
line 458). -/
def checkCommandBody (b : Build) (w : World) : Outcome (Flow World (Nat × World)) :=
  let r := _getchar_timeout_us w.stdin
  let c := r.1
  if c < 0 then .ok (.ret (b.CMD_UNKNOWN, { w with stdin := r.2 }))
  else if c = 0x03 then .ok (.ret (b.CMD_ABORT, { w with stdin := r.2 }))
  else if c ≠ ((cmdHeader.headD 0 : Nat) : Int) then
    match w.pio.store w.pio._cmdLen (toChar c) with
    | .ok s1 =>
      .ok (.ret (b.CMD_UNKNOWN,
        { w with pio := { s1 with _cmdLen := s1._cmdLen + 1 }, stdin := r.2 }))
    | .outOfBounds => .outOfBounds
    | .outOfFuel => .outOfFuel
  else
    match checkCommandMatch b CMD_HEADER_LEN c w.pio r.2 with
    | .ok (.ret (code, s1, file1)) =>
      .ok (.ret (code, { pio := s1, stdin := file1, stdout := w.stdout }))
    | .ok (.next (c1, s1, file1)) =>
      if s1._readCmd then
        let r2 := fgetc file1
        match checkCommandSwitch b (toChar r2.1) s1 w.stdout with
        | .ok (.next (s2, out2)) => .ok (.next { pio := s2, stdin := r2.2, stdout := out2 })
        | .ok (.ret code) => .ok (.ret (code, { pio := s1, stdin := r2.2, stdout := w.stdout }))
        | .outOfBounds => .outOfBounds
        | .outOfFuel => .outOfFuel
      else
        match s1.store s1._cmdLen (toChar c1) with
        | .ok s2 =>
          let s3 := { s2 with _cmdLen := s2._cmdLen + 1 }
          match s3.load 0 with
          | .ok _ =>
            .ok (.ret (b.CMD_UNKNOWN,
              { pio := { s3 with _unreadI := 1 }, stdin := file1, stdout := w.stdout }))
          | .outOfBounds => .outOfBounds
          | .outOfFuel => .outOfFuel
        | .outOfBounds => .outOfBounds
        | .outOfFuel => .outOfFuel
    | .outOfBounds => .outOfBounds
    | .outOfFuel => .outOfFuel

/-- The loop `while (readByte)` of `checkCommand`, with fuel for its
turns. -/
def checkCommandLoop (b : Build) : Nat → World → Outcome (Nat × World)
  | 0, _ => .outOfFuel
  | fuel + 1, w =>
    match checkCommandBody b w with
    | .ok (.next w1) => checkCommandLoop b fuel w1
    | .ok (.ret x) => .ok x
    | .outOfBounds => .outOfBounds
    | .outOfFuel => .outOfFuel

/-- Function `PlatformIO::checkCommand()`.  Every turn of `while (readByte)`
that goes on has consumed a byte, so one turn more than there are bytes is
enough fuel (`checkCommand_fuel_enough`). -/
def checkCommand (b : Build) (w : World) : Outcome (Nat × World) :=
  checkCommandLoop b (w.stdin.length + 1) w

/-! ## Successive calls -/

/-- The bytes returned by `n` successive calls of `_fgetc`, in order, and
the world after the last call. -/
def fgetcN (b : Build) : Nat → World → Outcome (List Nat × World)
  | 0, w => .ok ([], w)
  | n + 1, w =>
    match _fgetc b w with
    | .ok (c, w1) =>
      match fgetcN b n w1 with
      | .ok (cs, w2) => .ok (c :: cs, w2)
      | .outOfBounds => .outOfBounds
      | .outOfFuel => .outOfFuel
    | .outOfBounds => .outOfBounds
    | .outOfFuel => .outOfFuel

/-- The codes returned by `n` successive calls of `checkCommand`, in order,
and the world after the last call. -/
def checkCommandN (b : Build) : Nat → World → Outcome (List Nat × World)
  | 0, w => .ok ([], w)
  | n + 1, w =>
    match checkCommand b w with
    | .ok (code, w1) =>
      match checkCommandN b n w1 with
      | .ok (codes, w2) => .ok (code :: codes, w2)
      | .outOfBounds => .outOfBounds
      | .outOfFuel => .outOfFuel
    | .outOfBounds => .outOfBounds
    | .outOfFuel => .outOfFuel

/-! ## Line input `PlatformIO::ReadStdin` -/

/-- Array `sampleProgram` (lines 315-318). -/
def sampleProgram : String :=
  "start( VI<( clump(     Println('Hello, M4. I can fly to the store.') ) ) > ) "

/-- Library call `fputc(c, stdout)`. -/
def fputc (c : Nat) (out : String) : String := out ++ bytesToString [c]

/-- The echo of lines 610-614 and 624-628: `\r` is echoed as `\n`, any other
character as itself. -/
def echoChar (c : Nat) (out : String) : String :=
  if c = 0x0D then fputc 0x0A out else fputc c out

/-- Modelled from the spec: the string type `StringRef` is declared outside
`Platform.cpp` and the text does not describe it; a string is taken to be
the list of its bytes, and `Resize1D(n)` to cut it to `n` bytes (filling
with zero bytes when it was shorter). -/
def StringRef.Resize1D (buffer : List Nat) (n : Nat) : List Nat :=
  buffer.take n ++ List.replicate (n - buffer.length) 0

/-- Modelled from the spec: `Reserve` of `StringRef` (declared outside
`Platform.cpp`) is taken to leave the content of the string as it is. -/
def StringRef.Reserve (buffer : List Nat) (_n : Nat) : List Nat := buffer

/-- Modelled from the spec: `Append(c)` of `StringRef` (declared outside
`Platform.cpp`) is taken to add the byte at the end of the string. -/
def StringRef.Append (buffer : List Nat) (c : Nat) : List Nat := buffer ++ [c]

/-- Modelled from the spec: `AppendCStr` of `StringRef` (declared outside
`Platform.cpp`) is taken to add the bytes of the C string at the end. -/
def StringRef.AppendCStr (buffer : List Nat) (t : String) : List Nat := buffer ++ cstr t

/-- The loop `while (true)` of `ReadStdin` (lines 618-630), entered with the
character `c` just read and echoed. -/
def ReadStdinLoop : Nat → List Nat → Nat → World → Outcome (List Nat × World)
  | 0, _, _, _ => .outOfFuel
  | fuel + 1, buffer, c, w =>
    if c = toChar (-1) ∨ (c = 0x0A ∨ c = 0x0D) then .ok (buffer, w)
    else
      let buffer1 := StringRef.Append buffer c
      let r := fgetc w.stdin
      let c1 := toChar r.1
      ReadStdinLoop fuel buffer1 c1 { w with stdin := r.2, stdout := echoChar c1 w.stdout }

/-- Function `PlatformIO::ReadStdin(StringRef buffer)`; `embedded` says
whether `VIREO_EMBEDDED_EXPERIMENT` is defined.  The loop reads a byte in
every turn but the last, and after `EOF` the next turn is the last, so one
turn more than there are bytes is enough fuel. -/
def ReadStdin (embedded : Bool) (buffer : List Nat) (w : World) :
    Outcome (List Nat × World) :=
  let buffer0 := StringRef.Resize1D buffer 0
  if embedded then .ok (StringRef.AppendCStr buffer0 sampleProgram, w)
  else
    let buffer1 := StringRef.Reserve buffer0 300
    let r := fgetc w.stdin
    let c := toChar r.1
    ReadStdinLoop (w.stdin.length + 1) buffer1 c
      { w with stdin := r.2, stdout := echoChar c w.stdout }

/-! ## Conversions of `PlatformTimer` -/

/-- The macros that select a branch of the conversions, and the time base
that `mach_timebase_info` reports on macOS. -/
structure TimerBuild where
  /-- Whether `_WIN32` or `_WIN64` is defined. -/
  win : Bool
  kVireoOS_macosxU : Bool
  kVireoOS_wiring : Bool
  kVireoOS_linuxU : Bool
  kVireoOS_emscripten : Bool
  kVireoOS_ZynqARM : Bool
  VIREO_EMBEDDED_EXPERIMENT : Bool
  rp2040 : Bool
  numer : Nat
  denom : Nat
deriving DecidableEq, Repr

/-- A value of type `Int64` (`PlatformTickType`, declared outside
`Platform.cpp`, is taken to be `Int64`): `none` when the mathematical result does not fit, which is
undefined behaviour for signed arithmetic. -/
def int64 (x : Int) : Option Int :=
  if -(2 ^ 63) ≤ x ∧ x < 2 ^ 63 then some x else none

/-- Multiplication in `Int64`. -/
def mul64 (x y : Int) : Option Int := int64 (x * y)

/-- Division in `Int64`: it truncates toward zero; `none` for a zero
divisor. -/
def div64 (x y : Int) : Option Int :=
  if y = 0 then none else int64 (Int.tdiv x y)

/-- Function `PlatformTimer::MicrosecondsToTickCount`.  The branch for
`kVireoOS_wiring` returns an identifier that is not declared, so that build
has no result. -/
def MicrosecondsToTickCount (t : TimerBuild) (microseconds : Int) : Option Int :=
  if t.win then mul64 microseconds 10
  else if t.kVireoOS_macosxU then
    (mul64 microseconds 1000).bind fun x =>
      (mul64 x t.denom).bind fun y => div64 y t.numer
  else if t.kVireoOS_wiring then none
  else if t.kVireoOS_linuxU then mul64 microseconds 1000
  else if t.kVireoOS_emscripten then some microseconds
  else if t.kVireoOS_ZynqARM then (mul64 microseconds 333333).bind fun x => div64 x 10000
  else if t.VIREO_EMBEDDED_EXPERIMENT then div64 microseconds 1000
  else if t.rp2040 then some microseconds
  else some 0

/-- Function `PlatformTimer::TickCountToMicroseconds`. -/
def TickCountToMicroseconds (t : TimerBuild) (ticks : Int) : Option Int :=
  if t.win then div64 ticks 10
  else if t.kVireoOS_macosxU then
    (mul64 ticks t.numer).bind fun x =>
      (div64 x t.denom).bind fun y => div64 y 1000
  else if t.kVireoOS_wiring then some ticks
  else if t.kVireoOS_linuxU then div64 ticks 1000
  else if t.kVireoOS_emscripten then some ticks
  else if t.kVireoOS_ZynqARM then (mul64 ticks 10000).bind fun x => div64 x 333333
  else if t.VIREO_EMBEDDED_EXPERIMENT then mul64 ticks 1000
  else if t.rp2040 then some ticks
  else some 0

/-- Function `PlatformTimer::TickCountToMilliseconds`. -/
def TickCountToMilliseconds (t : TimerBuild) (ticks : Int) : Option Int :=
  (TickCountToMicroseconds t ticks).bind fun us => div64 us 1000

/-! ## Auxiliary definitions for the statements -/

/-- The array `_cmd` after the eight bytes of the header were written to its
first eight elements. -/
def headerStored (l : List Nat) : List Nat :=
  (((((((l.set 0 0xF4).set 1 0xF5).set 2 0xF4).set 3 0xF5).set 4 0xF4).set 5 0xF5).set 6 0x00).set 7 0x00

/-- The scanner right after the header was matched (lines 493-498). -/
def headerMatched (s : PlatformIO) : PlatformIO :=
  { s with _cmd := headerStored s._cmd, _cmdLen := 0, _readCmd := true }

/-- The scanner right after the Reset case of the `switch` (lines 542-551):
`reset()\n` in the first eight elements of `_cmd`, and `_cmdLen = 8`. -/
def resetInjected (s : PlatformIO) : PlatformIO :=
  { s with _cmd := cstr "reset()\n" ++ s._cmd.drop 8, _cmdLen := 8 }

/-- The scanner right after the RunMain case of the `switch`
(lines 560-567): `run()\n` in the first six elements of `_cmd`, and
`_cmdLen = 6`. -/
def runInjected (s : PlatformIO) : PlatformIO :=
  { s with _cmd := cstr "run()\n" ++ s._cmd.drop 6, _cmdLen := 6 }

/-- The case labels of the two `switch` statements, in the order of the
source. -/
def Build.caseLabels (b : Build) : List Nat :=
  [b.CMD_VERSION, b.CMD_PLATFORM, b.CMD_BOARD, b.CMD_SERIAL, b.CMD_ALIAS, b.CMD_ISEXEC,
   b.CMD_RESET, b.CMD_ABORT, b.CMD_RUNMAIN]

/-- What the compiler and the wire format require of the opcode
enumeration: the case labels are pairwise different, and each is the value
of one byte. -/
def Build.WellFormed (b : Build) : Prop :=
  b.caseLabels.Nodup ∧ ∀ l ∈ b.caseLabels, l < 256

instance (b : Build) : Decidable b.WellFormed := by
  unfold Build.WellFormed
  infer_instance

/-- The five query opcodes, each with the text its handler prints before
the newline (lines 376-405 and 511-540). -/
def queryReplies (b : Build) : List (Nat × String) :=
  [(b.CMD_VERSION, "0.0.0"), (b.CMD_PLATFORM, picog_platform b), (b.CMD_BOARD, picog_board b),
   (b.CMD_ALIAS, "MyPico"), (b.CMD_ISEXEC, "F")]

/-- The worlds at the end of a history of calls in which no call left an
array: `gPlatform` has been constructed, and then `_fgetc` and
`checkCommand` were called any number of times in any order, the console
input holding anything at each call, and every call returned without an
access outside `cmdHeader` or `_cmd`.  A call that makes such an access has
undefined behaviour: the history ends there, and this set has no world for
what the program is in afterwards (`checkCommand` makes such calls from
worlds of this set, see `checkCommand_header_read_outOfBounds`). -/
inductive ReachableInBounds (b : Build) : World → Prop where
  | start (input : List Nat) (out : String) :
      ReachableInBounds b { pio := gPlatform b, stdin := input, stdout := out }
  | input (w : World) (more : List Nat) :
      ReachableInBounds b w → ReachableInBounds b { w with stdin := more }
  | fgetcCall (w w1 : World) (c : Nat) :
      ReachableInBounds b w → _fgetc b w = .ok (c, w1) → ReachableInBounds b w1
  | checkCommandCall (w w1 : World) (code : Nat) :
      ReachableInBounds b w → checkCommand b w = .ok (code, w1) → ReachableInBounds b w1

/-- The text on `stdout` after one poll of `checkCommand` on the first `k`
header bytes from the freshly constructed scanner, followed by `n` polls on
the rest of the header and the Version opcode. -/
def resumedStdout (b : Build) (k n : Nat) : Outcome String :=
  match checkCommand b { pio := gPlatform b, stdin := cmdHeader.take k, stdout := "" } with
  | .ok (_, w) =>
    match checkCommandN b n { w with stdin := cmdHeader.drop k ++ [b.CMD_VERSION] } with
    | .ok (_, w2) => .ok w2.stdout
    | .outOfBounds => .outOfBounds
    | .outOfFuel => .outOfFuel
  | .outOfBounds => .outOfBounds
  | .outOfFuel => .outOfFuel

/-- A build used to evaluate the scanner on concrete input: no rp2040
handler, a 32-byte `_cmd`, and the opcodes numbered in the order of the
`switch`. -/
def sampleBuild : Build :=
  { rp2040 := false, cmdCap := 32, boardId := [],
    CMD_UNKNOWN := 0, CMD_VERSION := 1, CMD_PLATFORM := 2, CMD_BOARD := 3,
    CMD_SERIAL := 4, CMD_ALIAS := 5, CMD_ISEXEC := 6, CMD_RESET := 7,
    CMD_ABORT := 8, CMD_RUNMAIN := 9 }

/-- The world in which `gPlatform` has just been constructed, with the
given console input and nothing printed yet. -/
def freshWorld (b : Build) (input : List Nat) : World :=
  { pio := gPlatform b, stdin := input, stdout := "" }

/-- The worlds the program can be in when only `_fgetc` is ever called:
`gPlatform` has been constructed, and then `_fgetc` was called any number of
times, the console input holding anything at each call. -/
inductive FgetcReachable (b : Build) : World → Prop where
  | start (input : List Nat) (out : String) :
      FgetcReachable b { pio := gPlatform b, stdin := input, stdout := out }
  | input (w : World) (more : List Nat) :
      FgetcReachable b w → FgetcReachable b { w with stdin := more }
  | fgetcCall (w w1 : World) (c : Nat) :
      FgetcReachable b w → _fgetc b w = .ok (c, w1) → FgetcReachable b w1

/-- What a step of the blocking scanner keeps of the scanner `s` in `s1`:
the length of `_cmd`, its elements from index 8 on, and `_unreadCmd`. -/
def Frame (s s1 : PlatformIO) : Prop :=
  s1._cmd.length = s._cmd.length ∧ s1._cmd.drop 8 = s._cmd.drop 8
    ∧ s1._unreadCmd = s._unreadCmd

/-- The sample build with a `_cmd` of exactly eight elements. -/
def smallBuild : Build := { sampleBuild with cmdCap := 8 }

/-- The world after `_fgetc` has served a Reset command on `sampleBuild`
(input: the header, the Reset opcode and `A`, which the call returns):
`reset()\n` in `_cmd`, `_cmdLen = 8`, and `OK\n` printed. -/
def afterReset : World :=
  { pio := { _cmd := cstr "reset()\n" ++ List.replicate 24 0, _cmdLen := 8, _cmdMatch := 0,
             _readCmd := true, _unreadI := 0, _unreadCmd := false },
    stdin := [], stdout := "OK\n" }

/-- The world after one poll of `checkCommand` on `sampleBuild` with the
input `A`: the byte is in `_cmd[0]` and `_cmdLen = 1`. -/
def afterPoll : World :=
  { pio := { _cmd := 0x41 :: List.replicate 31 0, _cmdLen := 1, _cmdMatch := 0,
             _readCmd := false, _unreadI := 0, _unreadCmd := false },
    stdin := [], stdout := "" }

/-- The world after that poll and then a call of `_fgetc` with the input
`F4 A` (a false start): both bytes are in `_cmd`, `_cmdLen = 2` and
`_unreadI = 1`. -/
def afterFalseStart : World :=
  { pio := { _cmd := 0xF4 :: 0x41 :: List.replicate 30 0, _cmdLen := 2, _cmdMatch := 0,
             _readCmd := false, _unreadI := 1, _unreadCmd := false },
    stdin := [], stdout := "" }

/-- The terminators of `ReadStdin`: `\n`, `\r` and the character value of
`EOF`. -/
def isLineEnd (c : Nat) : Bool := c = 0x0A || c = 0x0D || c = 0xFF

/-- The echo of a byte: `\r` becomes `\n`. -/
def crToLf (c : Nat) : Nat := if c = 0x0D then 0x0A else c

/-- The platforms on which a tick is a whole number of parts of a
microsecond, with that number: Windows 10, Linux 1000, emscripten and rp2040
1 (each has the macros tested before its own undefined). -/
def exactScale (t : TimerBuild) : Option Int :=
  if t.win then some 10
  else if t.kVireoOS_macosxU then none
  else if t.kVireoOS_wiring then none
  else if t.kVireoOS_linuxU then some 1000
  else if t.kVireoOS_emscripten then some 1
  else if t.kVireoOS_ZynqARM then none
  else if t.VIREO_EMBEDDED_EXPERIMENT then none
  else if t.rp2040 then some 1
  else none

/-- A Linux build of the timer. -/
def linuxTimer : TimerBuild :=
  { win := false, kVireoOS_macosxU := false, kVireoOS_wiring := false,
    kVireoOS_linuxU := true, kVireoOS_emscripten := false, kVireoOS_ZynqARM := false,
    VIREO_EMBEDDED_EXPERIMENT := false, rp2040 := false, numer := 0, denom := 0 }

/-! ## Fuel: the loops end -/

theorem fgetc_length (file : List Nat) : (fgetc file).2.length ≤ file.length := by
  cases file <;> simp [fgetc]

theorem getchar_length (file : List Nat) :
    (_getchar_timeout_us file).2.length ≤ file.length := by
  cases file <;> simp [_getchar_timeout_us]

theorem store_cmdLen {s s1 : PlatformIO} {i c : Nat} (h : s.store i c = .ok s1) :
    s1._cmdLen = s._cmdLen := by
  unfold PlatformIO.store at h
  split at h
  · cases h; rfl
  · cases h

/-- The inner loop of `_fgetc` stops within `CMD_HEADER_LEN - _cmdLen`
turns. -/
theorem fgetcMatch_fuel (n c : Nat) (s : PlatformIO) (file : List Nat)
    (hn : 0 < n) (h : CMD_HEADER_LEN ≤ n + s._cmdLen) :
    fgetcMatch n c s file ≠ .outOfFuel := by
  induction n generalizing c s file with
  | zero => omega
  | succ n ih =>
    unfold fgetcMatch
    split
    · split
      · split
        · rename_i s1 hs1
          have hl := store_cmdLen hs1
          simp only []
          split
          · simp
          · rename_i hlt
            simp only [ge_iff_le, not_le] at hlt
            apply ih
            · simp only [CMD_HEADER_LEN] at h hlt ⊢; omega
            · simp only [CMD_HEADER_LEN] at h hlt ⊢; omega
        · simp
        · rename_i hs1
          unfold PlatformIO.store at hs1
          split at hs1 <;> cases hs1
      · simp
    · simp
    · rename_i hh
      unfold cmdHeaderAt at hh
      split at hh <;> cases hh

/-- The inner loop of `_fgetc` only consumes input. -/
theorem fgetcMatch_length (n c : Nat) (s : PlatformIO) (file : List Nat)
    (c1 : Nat) (s1 : PlatformIO) (file1 : List Nat)
    (h : fgetcMatch n c s file = .ok (c1, s1, file1)) :
    file1.length ≤ file.length := by
  induction n generalizing c s file with
  | zero => simp [fgetcMatch] at h
  | succ n ih =>
    unfold fgetcMatch at h
    split at h
    · split at h
      · split at h
        · simp only [] at h
          split at h
          · simp only [Outcome.ok.injEq, Prod.mk.injEq] at h
            rw [← h.2.2]
          · exact le_trans (ih _ _ _ h) (fgetc_length file)
        · cases h
        · cases h
      · simp only [Outcome.ok.injEq, Prod.mk.injEq] at h
        rw [← h.2.2]
    · cases h
    · cases h

theorem store_ne_fuel (s : PlatformIO) (i c : Nat) : s.store i c ≠ .outOfFuel := by
  unfold PlatformIO.store
  split <;> simp

theorem load_ne_fuel (s : PlatformIO) (i : Nat) : s.load i ≠ .outOfFuel := by
  unfold PlatformIO.load
  split <;> simp

theorem storeAll_ne_fuel (s : PlatformIO) (i : Nat) (cs : List Nat) :
    s.storeAll i cs ≠ .outOfFuel := by
  induction cs generalizing s i with
  | nil => simp [ PlatformIO.storeAll]
  | cons c cs ih =>
    unfold PlatformIO.storeAll
    split
    · exact ih _ _
    · simp
    · rename_i h
      exact absurd h (store_ne_fuel _ _ _)

theorem fgetcSwitch_ne_fuel (b : Build) (cmd : Nat) (s : PlatformIO) (out : String) :
    fgetcSwitch b cmd s out ≠ .outOfFuel := by
  unfold fgetcSwitch
  split_ifs
  all_goals first
    | (intro h; cases h)
    | (try dsimp only
       split
       · simp
       · simp
       · rename_i h
         exact absurd h (storeAll_ne_fuel _ _ _))

/-- A turn of the loop of `_fgetc` never lacks fuel: its inner loop gets
`CMD_HEADER_LEN` turns and starts at `_cmdLen = 0`. -/
theorem fgetcBody_ne_fuel (b : Build) (w : World) : fgetcBody b w ≠ .outOfFuel := by
  unfold fgetcBody
  simp only []
  split
  · simp
  · split
    · split
      · split
        · simp
        · simp
        · rename_i h
          exact absurd h (fgetcSwitch_ne_fuel _ _ _ _)
      · split
        · split
          · simp
          · simp
          · rename_i h
            exact absurd h (load_ne_fuel _ _)
        · simp
        · rename_i h
          exact absurd h (store_ne_fuel _ _ _)
    · simp
    · rename_i h
      exact absurd h (fgetcMatch_fuel _ _ _ _ (by decide) (by simp [CMD_HEADER_LEN]))

/-- A turn of the loop of `_fgetc` that goes on has consumed a byte. -/
theorem fgetcBody_next_length (b : Build) (w w1 : World)
    (h : fgetcBody b w = .ok (.next w1)) : w1.stdin.length < w.stdin.length := by
  unfold fgetcBody at h
  simp only [] at h
  split at h
  · simp at h
  · rename_i hc
    have hne : w.stdin ≠ [] := by
      intro he
      apply hc
      rw [he]
      decide
    obtain ⟨x, rest, hx⟩ := List.exists_cons_of_ne_nil hne
    split at h
    · rename_i c1 s1 file1 hm
      have hl := fgetcMatch_length _ _ _ _ _ _ _ hm
      split at h
      · split at h
        · simp only [Outcome.ok.injEq, Flow.next.injEq] at h
          rw [← h]
          simp only []
          have h2 := fgetc_length file1
          rw [hx] at hl ⊢
          simp only [List.length_cons] at hl ⊢
          have h3 : (fgetc (x :: rest)).2 = rest := rfl
          rw [h3] at hl
          omega
        · cases h
        · cases h
      · split at h
        · split at h
          · simp at h
          · cases h
          · cases h
        · cases h
        · cases h
    · cases h
    · cases h

/-- More fuel does not change a result of the loop of `_fgetc`. -/
theorem fgetcLoop_mono (b : Build) (n m : Nat) (w : World) (hnm : n ≤ m)
    (h : fgetcLoop b n w ≠ .outOfFuel) : fgetcLoop b m w = fgetcLoop b n w := by
  induction n generalizing m w with
  | zero => simp [fgetcLoop] at h
  | succ n ih =>
    obtain ⟨m, rfl⟩ : ∃ k, m = k + 1 := ⟨m - 1, by omega⟩
    unfold fgetcLoop at h ⊢
    split
    · rename_i w1 hb
      rw [hb] at h
      exact ih m w1 (by omega) h
    · rfl
    · rfl
    · rfl

/-- The loop of `_fgetc` ends within one turn more than there are bytes of
input. -/
theorem fgetcLoop_fuel_enough (b : Build) (n : Nat) (w : World)
    (h : w.stdin.length < n) : fgetcLoop b n w ≠ .outOfFuel := by
  induction n generalizing w with
  | zero => omega
  | succ n ih =>
    unfold fgetcLoop
    split
    · rename_i w1 hb
      have := fgetcBody_next_length b w w1 hb
      exact ih w1 (by omega)
    · simp
    · simp
    · rename_i hb
      exact absurd hb (fgetcBody_ne_fuel b w)

/-- The function `_fgetc` always has a result with the fuel it is given: a
byte and a new world, or an access outside an array. -/
theorem fgetc_fuel_enough (b : Build) (w : World) : _fgetc b w ≠ .outOfFuel := by
  unfold _fgetc
  split
  · split
    · simp
    · simp
    · rename_i h
      exact absurd h (load_ne_fuel _ _)
  · exact fgetcLoop_fuel_enough b _ w (by omega)

/-- With any fuel at which the loop has a result, `_fgetc` has that
result. -/
theorem fgetc_of_loop (b : Build) (n : Nat) (w : World) (r : Nat × World)
    (hu : w.pio._unreadCmd = false) (h : fgetcLoop b n w = .ok r) :
    _fgetc b w = .ok r := by
  unfold _fgetc
  simp only [hu, Bool.false_eq_true, if_false]
  have hne : fgetcLoop b n w ≠ .outOfFuel := by rw [h]; simp
  rcases Nat.le_total n (w.stdin.length + 1) with hle | hle
  · rw [fgetcLoop_mono b n _ w hle hne, h]
  · have h2 := fgetcLoop_mono b _ n w hle (fgetcLoop_fuel_enough b _ w (by omega))
    rw [← h2, h]

/-- The inner loop of `checkCommand` stops within
`CMD_HEADER_LEN - _cmdLen` turns. -/
theorem checkCommandMatch_fuel (b : Build) (n : Nat) (c : Int) (s : PlatformIO)
    (file : List Nat) (hn : 0 < n) (h : CMD_HEADER_LEN ≤ n + s._cmdLen) :
    checkCommandMatch b n c s file ≠ .outOfFuel := by
  induction n generalizing c s file with
  | zero => omega
  | succ n ih =>
    unfold checkCommandMatch
    split
    · split
      · split
        · rename_i s1 hs1
          have hl := store_cmdLen hs1
          simp only []
          split
          · simp
          · rename_i hlt
            simp only [ge_iff_le, not_le] at hlt
            split
            · simp
            · apply ih
              · simp only [CMD_HEADER_LEN] at h hlt ⊢; omega
              · simp only [CMD_HEADER_LEN] at h hlt ⊢; omega
        · simp
        · rename_i hs1
          exact absurd hs1 (store_ne_fuel _ _ _)
      · simp
    · simp
    · rename_i hh
      unfold cmdHeaderAt at hh
      split at hh <;> cases hh

/-- The inner loop of `checkCommand` only consumes input, when it is left
normally. -/
theorem checkCommandMatch_next_length (b : Build) (n : Nat) (c : Int) (s : PlatformIO)
    (file : List Nat) (c1 : Int) (s1 : PlatformIO) (file1 : List Nat)
    (h : checkCommandMatch b n c s file = .ok (.next (c1, s1, file1))) :
    file1.length ≤ file.length := by
  induction n generalizing c s file with
  | zero => simp [checkCommandMatch] at h
  | succ n ih =>
    unfold checkCommandMatch at h
    split at h
    · split at h
      · split at h
        · simp only [] at h
          split at h
          · simp only [Outcome.ok.injEq, Flow.next.injEq, Prod.mk.injEq] at h
            rw [← h.2.2]
          · split at h
            · simp at h
            · exact le_trans (ih _ _ _ h) (getchar_length file)
        · cases h
        · cases h
      · simp only [Outcome.ok.injEq, Flow.next.injEq, Prod.mk.injEq] at h
        rw [← h.2.2]
    · cases h
    · cases h

theorem checkCommandSwitch_ne_fuel (b : Build) (cmd : Nat) (s : PlatformIO)
    (out : String) : checkCommandSwitch b cmd s out ≠ .outOfFuel := by
  unfold checkCommandSwitch
  split_ifs
  all_goals first
    | (intro h; cases h)
    | (try dsimp only
       split
       · simp
       · simp
       · rename_i h
         exact absurd h (storeAll_ne_fuel _ _ _))

/-- A turn of the loop of `checkCommand` never lacks fuel. -/
theorem checkCommandBody_ne_fuel (b : Build) (w : World) :
    checkCommandBody b w ≠ .outOfFuel := by
  unfold checkCommandBody
  simp only []
  split_ifs
  · simp
  · simp
  · split
    · simp
    · simp
    · rename_i h
      exact absurd h (store_ne_fuel _ _ _)
  · split
    · simp
    · split
      · split
        · simp
        · simp
        · simp
        · rename_i h
          exact absurd h (checkCommandSwitch_ne_fuel _ _ _ _)
      · split
        · split
          · simp
          · simp
          · rename_i h
            exact absurd h (load_ne_fuel _ _)
        · simp
        · rename_i h
          exact absurd h (store_ne_fuel _ _ _)
    · simp
    · rename_i h
      exact absurd h (checkCommandMatch_fuel _ _ _ _ _ (by decide) (by omega))

/-- A turn of the loop of `checkCommand` that goes on has consumed a
byte. -/
theorem checkCommandBody_next_length (b : Build) (w w1 : World)
    (h : checkCommandBody b w = .ok (.next w1)) : w1.stdin.length < w.stdin.length := by
  unfold checkCommandBody at h
  simp only [] at h
  split_ifs at h with h1 h2 h3
  · simp at h
  · simp at h
  · split at h
    · simp at h
    · cases h
    · cases h
  · have hne : w.stdin ≠ [] := by
      intro he
      apply h1
      rw [he]
      decide
    obtain ⟨x, rest, hx⟩ := List.exists_cons_of_ne_nil hne
    split at h
    · simp at h
    · rename_i c1 s1 file1 hm
      have hl := checkCommandMatch_next_length _ _ _ _ _ _ _ _ hm
      split at h
      · split at h
        · simp only [Outcome.ok.injEq, Flow.next.injEq] at h
          rw [← h]
          simp only []
          have h4 := fgetc_length file1
          rw [hx] at hl ⊢
          simp only [List.length_cons] at hl ⊢
          have h5 : (_getchar_timeout_us (x :: rest)).2 = rest := rfl
          rw [h5] at hl
          omega
        · simp at h
        · cases h
        · cases h
      · split at h
        · split at h
          · simp at h
          · cases h
          · cases h
        · cases h
        · cases h
    · cases h
    · cases h

/-- More fuel does not change a result of the loop of `checkCommand`. -/
theorem checkCommandLoop_mono (b : Build) (n m : Nat) (w : World) (hnm : n ≤ m)
    (h : checkCommandLoop b n w ≠ .outOfFuel) :
    checkCommandLoop b m w = checkCommandLoop b n w := by
  induction n generalizing m w with
  | zero => simp [checkCommandLoop] at h
  | succ n ih =>
    obtain ⟨m, rfl⟩ : ∃ k, m = k + 1 := ⟨m - 1, by omega⟩
    unfold checkCommandLoop at h ⊢
    split
    · rename_i w1 hb
      rw [hb] at h
      exact ih m w1 (by omega) h
    · rfl
    · rfl
    · rfl

/-- The loop of `checkCommand` ends within one turn more than there are
bytes of input. -/
theorem checkCommandLoop_fuel_enough (b : Build) (n : Nat) (w : World)
    (h : w.stdin.length < n) : checkCommandLoop b n w ≠ .outOfFuel := by
  induction n generalizing w with
  | zero => omega
  | succ n ih =>
    unfold checkCommandLoop
    split
    · rename_i w1 hb
      have := checkCommandBody_next_length b w w1 hb
      exact ih w1 (by omega)
    · simp
    · simp
    · rename_i hb
      exact absurd hb (checkCommandBody_ne_fuel b w)

/-- The function `checkCommand` always has a result with the fuel it is
given: a code and a new world, or an access outside an array. -/
theorem checkCommand_fuel_enough (b : Build) (w : World) :
    checkCommand b w ≠ .outOfFuel :=
  checkCommandLoop_fuel_enough b _ w (by omega)

/-- With any fuel at which the loop has a result, `checkCommand` has that
result. -/
theorem checkCommand_of_loop (b : Build) (n : Nat) (w : World) (r : Nat × World)
    (h : checkCommandLoop b n w = .ok r) : checkCommand b w = .ok r := by
  unfold checkCommand
  have hne : checkCommandLoop b n w ≠ .outOfFuel := by rw [h]; simp
  rcases Nat.le_total n (w.stdin.length + 1) with hle | hle
  · rw [checkCommandLoop_mono b n _ w hle hne, h]
  · have h2 := checkCommandLoop_mono b _ n w hle
      (checkCommandLoop_fuel_enough b _ w (by omega))
    rw [← h2, h]

/-! ## Stepping the scanner on given input -/

theorem toChar_byte (x : Nat) (h : x < 256) : toChar (x : Int) = x := by
  unfold toChar
  omega

theorem toChar_eof : toChar (-1) = 255 := by decide

theorem fgetc_cons (x : Nat) (rest : List Nat) : fgetc (x :: rest) = ((x : Int), rest) := rfl

theorem fgetc_nil : fgetc [] = (-1, []) := rfl

theorem headerStored_length (l : List Nat) : (headerStored l).length = l.length := by
  simp [headerStored]

/-- The inner loop of `_fgetc` on the whole header. -/
theorem fgetcMatch_header (s : PlatformIO) (file : List Nat) (hcap : 8 ≤ s._cmd.length) :
    fgetcMatch CMD_HEADER_LEN 0xF4 { s with _cmdLen := 0 }
        (0xF5 :: 0xF4 :: 0xF5 :: 0xF4 :: 0xF5 :: 0x00 :: 0x00 :: file)
      = .ok (0x00, headerMatched s, file) := by
  have h0 : 0 < s._cmd.length := by omega
  have h1 : 1 < s._cmd.length := by omega
  have h2 : 2 < s._cmd.length := by omega
  have h3 : 3 < s._cmd.length := by omega
  have h4 : 4 < s._cmd.length := by omega
  have h5 : 5 < s._cmd.length := by omega
  have h6 : 6 < s._cmd.length := by omega
  have h7 : 7 < s._cmd.length := by omega
  simp [fgetcMatch, CMD_HEADER_LEN, cmdHeaderAt, cmdHeader, PlatformIO.store, fgetc, toChar,
    headerMatched, headerStored, h0, h1, h2, h3, h4, h5, h6, h7]

/-- A turn of the loop of `_fgetc` on the header and an opcode byte: the
`switch` runs on the opcode and the loop goes on. -/
theorem fgetcBody_header (b : Build) (s : PlatformIO) (op : Nat) (rest : List Nat)
    (out : String) (hcap : 8 ≤ s._cmd.length) (hop : op < 256) :
    fgetcBody b { pio := s, stdin := cmdHeader ++ op :: rest, stdout := out }
      = match fgetcSwitch b op (headerMatched s) out with
        | .ok (s2, out2) => .ok (.next { pio := s2, stdin := rest, stdout := out2 })
        | .outOfBounds => .outOfBounds
        | .outOfFuel => .outOfFuel := by
  have hm := fgetcMatch_header s (op :: rest) hcap
  have hx := toChar_byte op hop
  have h244 : toChar ((244 : Nat) : Int) = 244 := by decide
  have hr : (headerMatched s)._readCmd = true := rfl
  simp only [fgetcBody, cmdHeader, List.cons_append, List.nil_append, fgetc_cons, h244,
    List.headD_cons, ne_eq, not_true_eq_false, if_false, hm, hr, if_true, hx]

/-- A turn of the loop of `_fgetc` on a byte that does not start the
header: the byte is returned (line 478). -/
theorem fgetcBody_plain (b : Build) (w : World) (x : Nat) (rest : List Nat)
    (hin : w.stdin = x :: rest) (hx : x < 256) (hne : x ≠ 0xF4) :
    fgetcBody b w = .ok (.ret (x, { w with stdin := rest })) := by
  have hc := toChar_byte x hx
  simp [fgetcBody, hin, fgetc, hc, cmdHeader, hne]

/-- A turn of the loop of `_fgetc` at the end of the input: `(char)EOF` is
returned. -/
theorem fgetcBody_eof (b : Build) (w : World) (hin : w.stdin = []) :
    fgetcBody b w = .ok (.ret (0xFF, w)) := by
  have h : ({ w with stdin := [] } : World) = w := by rw [← hin]
  simp [fgetcBody, hin, fgetc, toChar_eof, cmdHeader, h]

theorem gPlatform_cmd_length (b : Build) : (gPlatform b)._cmd.length = b.cmdCap := by
  simp [gPlatform, PlatformIO.ctor, PlatformIO.zeroed]

theorem gPlatform_unreadCmd (b : Build) : (gPlatform b)._unreadCmd = false := rfl

/-- Consecutive writes inside the array replace that stretch of it. -/
theorem storeAll_ok (s : PlatformIO) (i : Nat) (cs : List Nat)
    (h : i + cs.length ≤ s._cmd.length) :
    s.storeAll i cs
      = .ok { s with _cmd := s._cmd.take i ++ cs ++ s._cmd.drop (i + cs.length) } := by
  induction cs generalizing s i with
  | nil => simp [ PlatformIO.storeAll]
  | cons c cs ih =>
    simp only [List.length_cons] at h
    have hi : i < s._cmd.length := by omega
    simp only [ PlatformIO.storeAll, PlatformIO.store, hi, if_true]
    rw [ih]
    · simp only [Outcome.ok.injEq, PlatformIO.mk.injEq, and_true, true_and, List.length_cons]
      have hlen : (List.take i s._cmd).length = i := by
        rw [List.length_take]; omega
      rw [List.set_eq_take_append_cons_drop, if_pos hi]
      have e1 : List.take (i + 1) (List.take i s._cmd ++ c :: List.drop (i + 1) s._cmd)
          = List.take i s._cmd ++ [c] := by
        rw [List.take_append_eq_append_take, hlen]
        simp [List.take_take]
      have e2 : List.drop (i + 1 + cs.length) (List.take i s._cmd ++ c :: List.drop (i + 1) s._cmd)
          = List.drop (i + (cs.length + 1)) s._cmd := by
        rw [List.drop_append_eq_append_drop, hlen]
        have h3 : i + 1 + cs.length - i = cs.length + 1 := by omega
        have h4 : List.drop (i + 1 + cs.length) (List.take i s._cmd) = [] := by
          apply List.drop_eq_nil_of_le
          rw [hlen]; omega
        rw [h3, h4]
        simp only [List.drop_succ_cons, List.nil_append, List.drop_drop]
        congr 1
        omega
      rw [e1, e2]
      simp
    · simp only [List.length_set]
      omega

theorem fgetcSwitch_version (b : Build) (s : PlatformIO) (out : String) :
    fgetcSwitch b b.CMD_VERSION s out = .ok (s, out ++ "0.0.0\n") := by
  simp [fgetcSwitch]

/-- An opcode that is no case label falls through the `switch`. -/
theorem fgetcSwitch_unknown (b : Build) (op : Nat) (s : PlatformIO) (out : String)
    (h1 : op ≠ b.CMD_VERSION) (h2 : op ≠ b.CMD_PLATFORM) (h3 : op ≠ b.CMD_BOARD)
    (h4 : op ≠ b.CMD_SERIAL) (h5 : op ≠ b.CMD_ALIAS) (h6 : op ≠ b.CMD_ISEXEC)
    (h7 : op ≠ b.CMD_RESET) (h8 : op ≠ b.CMD_ABORT) (h9 : op ≠ b.CMD_RUNMAIN) :
    fgetcSwitch b op s out = .ok (s, out) := by
  simp [fgetcSwitch, h1, h2, h3, h4, h5, h6, h7, h8, h9]

/-- The Reset case of the `switch` of `_fgetc`: the text `reset()\n` is put
in the first eight elements of `_cmd`, `_cmdLen` becomes 8, `OK\n` is
written; `_unreadCmd` and `_unreadI` are not touched. -/
theorem fgetcSwitch_reset (b : Build) (s : PlatformIO) (out : String)
    (hcap : 8 ≤ s._cmd.length)
    (h1 : b.CMD_RESET ≠ b.CMD_VERSION) (h2 : b.CMD_RESET ≠ b.CMD_PLATFORM)
    (h3 : b.CMD_RESET ≠ b.CMD_BOARD) (h4 : b.CMD_RESET ≠ b.CMD_SERIAL)
    (h5 : b.CMD_RESET ≠ b.CMD_ALIAS) (h6 : b.CMD_RESET ≠ b.CMD_ISEXEC) :
    fgetcSwitch b b.CMD_RESET s out
      = .ok (resetInjected s, out ++ "OK\n") := by
  have hl : (cstr "reset()\n").length = 8 := by decide
  have hs := storeAll_ok s 0 (cstr "reset()\n") (by rw [hl]; omega)
  rw [hl] at hs
  simp only [List.take_zero, List.nil_append, Nat.zero_add] at hs
  simp only [fgetcSwitch, h1, h2, h3, h4, h5, h6, if_false, if_true, hs, resetInjected]

/-- A turn of the loop of `_fgetc` when `_readCmd` is still set from an
earlier command: after `0xF4` and a byte that does not continue the header,
the `switch` runs on the byte after them. -/
theorem fgetcBody_stale_readCmd (b : Build) (s : PlatformIO) (x op : Nat)
    (rest : List Nat) (out : String) (hcap : 1 ≤ s._cmd.length) (hr : s._readCmd = true)
    (hx : x < 256) (hne : x ≠ 0xF5) (hop : op < 256) :
    fgetcBody b { pio := s, stdin := 0xF4 :: x :: op :: rest, stdout := out }
      = match fgetcSwitch b op { s with _cmd := s._cmd.set 0 0xF4, _cmdLen := 1 } out with
        | .ok (s2, out2) => .ok (.next { pio := s2, stdin := rest, stdout := out2 })
        | .outOfBounds => .outOfBounds
        | .outOfFuel => .outOfFuel := by
  have h0 : 0 < s._cmd.length := by omega
  have hcx := toChar_byte x hx
  have hcop := toChar_byte op hop
  have h244 : toChar ((244 : Nat) : Int) = 244 := by decide
  simp only [fgetcBody, fgetc_cons, h244, cmdHeader, List.headD_cons, ne_eq,
    not_true_eq_false, if_false, fgetcMatch, CMD_HEADER_LEN, cmdHeaderAt,
    List.getElem?_cons_zero, if_true, PlatformIO.store, h0, hcx, Nat.zero_add,
    ge_iff_le, Nat.reduceLeDiff, List.getElem?_cons_succ, hne, hr, hcop]

/-- At the end of the input, with nothing to replay, `_fgetc` returns
`(char)EOF` and changes nothing. -/
theorem fgetc_eof (b : Build) (w : World) (hu : w.pio._unreadCmd = false)
    (hin : w.stdin = []) : _fgetc b w = .ok (0xFF, w) := by
  apply fgetc_of_loop b 1 _ _ hu
  rw [fgetcLoop, fgetcBody_eof b _ hin]

theorem fgetcN_eof (b : Build) (n : Nat) (w : World) (hu : w.pio._unreadCmd = false)
    (hin : w.stdin = []) : fgetcN b n w = .ok (List.replicate n 0xFF, w) := by
  induction n with
  | zero => rfl
  | succ n ih => simp only [fgetcN, fgetc_eof b w hu hin, ih, List.replicate_succ]

/-- With nothing to replay, `_fgetc` returns a byte that does not start the
header at once and changes nothing else. -/
theorem fgetc_plain (b : Build) (s : PlatformIO) (x : Nat) (rest : List Nat) (out : String)
    (hu : s._unreadCmd = false) (hx : x < 256) (hne : x ≠ 0xF4) :
    _fgetc b { pio := s, stdin := x :: rest, stdout := out }
      = .ok (x, { pio := s, stdin := rest, stdout := out }) := by
  apply fgetc_of_loop b 1 _ _ hu
  rw [fgetcLoop, fgetcBody_plain b _ x rest rfl hx hne]

/-- The first call of `_fgetc` on a false start: a proper prefix of the
header of length `k` and a byte that does not continue it.  All `k + 1`
bytes are consumed and stored in `_cmd`, `_cmd[0]` is returned, `_unreadI`
becomes 1, and `_unreadCmd` stays false. -/
theorem fgetc_false_start (b : Build) (s : PlatformIO) (k x : Nat) (rest : List Nat)
    (out : String) (hu : s._unreadCmd = false) (hr : s._readCmd = false)
    (hk0 : 0 < k) (hk : k < 8) (hx : x < 256) (hne : cmdHeader[k]? ≠ some x)
    (hcap : k < s._cmd.length) :
    ∃ s1, _fgetc b { pio := s, stdin := cmdHeader.take k ++ x :: rest, stdout := out }
        = .ok (0xF4, { pio := s1, stdin := rest, stdout := out })
      ∧ s1._unreadCmd = false ∧ s1._cmdLen = k + 1 ∧ s1._unreadI = 1
      ∧ s1._cmd[k]? = some x := by
  have hcx : ((x : Int) % 256).toNat = x := by omega
  have h0 : 0 < s._cmd.length := by omega
  interval_cases k <;>
  · simp only [cmdHeader, List.getElem?_cons_succ, List.getElem?_cons_zero, ne_eq,
      Option.some.injEq] at hne
    have hne' := Ne.symm hne
    try have h1 : 1 < s._cmd.length := by omega
    try have h2 : 2 < s._cmd.length := by omega
    try have h3 : 3 < s._cmd.length := by omega
    try have h4 : 4 < s._cmd.length := by omega
    try have h5 : 5 < s._cmd.length := by omega
    try have h6 : 6 < s._cmd.length := by omega
    try have h7 : 7 < s._cmd.length := by omega
    apply Exists.intro
    refine ⟨?_, ?_⟩
    · apply fgetc_of_loop b 1 _ _ hu
      simp [fgetcLoop, fgetcBody, fgetcMatch, fgetc, cmdHeader, cmdHeaderAt, PlatformIO.store,
        PlatformIO.load, CMD_HEADER_LEN, toChar, *]
      rfl
    · simp [*]

/-- A poll of `checkCommand` on a false start: a proper prefix of the
header of length `k` and a byte `x` that does not continue it, whatever `x`
is.  The code is `CMD_UNKNOWN` and `x` is stored in `_cmd[k]`. -/
theorem checkCommand_false_start (b : Build) (s : PlatformIO) (k x : Nat)
    (rest : List Nat) (out : String) (hl : s._cmdLen = 0) (hr : s._readCmd = false)
    (hk0 : 0 < k) (hk : k < 8) (hx : x < 256) (hne : cmdHeader[k]? ≠ some x)
    (hcap : k < s._cmd.length) :
    ∃ s1, checkCommand b { pio := s, stdin := cmdHeader.take k ++ x :: rest, stdout := out }
        = .ok (b.CMD_UNKNOWN, { pio := s1, stdin := rest, stdout := out })
      ∧ s1._unreadCmd = s._unreadCmd ∧ s1._cmdLen = k + 1 ∧ s1._unreadI = 1
      ∧ s1._cmd[k]? = some x := by
  have hcx : ((x : Int) % 256).toNat = x := by omega
  have h0 : 0 < s._cmd.length := by omega
  interval_cases k <;>
  · simp only [cmdHeader, List.getElem?_cons_succ, List.getElem?_cons_zero, ne_eq,
      Option.some.injEq] at hne
    have hne' := Ne.symm hne
    try have h1 : 1 < s._cmd.length := by omega
    try have h2 : 2 < s._cmd.length := by omega
    try have h3 : 3 < s._cmd.length := by omega
    try have h4 : 4 < s._cmd.length := by omega
    try have h5 : 5 < s._cmd.length := by omega
    try have h6 : 6 < s._cmd.length := by omega
    try have h7 : 7 < s._cmd.length := by omega
    have hnn : ¬ ((x : Int) < 0) := by omega
    try have e245 : ¬ ((x : Int) = 245) := by omega
    try have e244 : ¬ ((x : Int) = 244) := by omega
    try have e0 : ¬ ((x : Int) = 0) := by omega
    apply Exists.intro
    refine ⟨?_, ?_⟩
    · apply checkCommand_of_loop b 1
      simp [checkCommandLoop, checkCommandBody, checkCommandMatch, _getchar_timeout_us,
        cmdHeader, cmdHeaderAt, PlatformIO.store, PlatformIO.load, CMD_HEADER_LEN, toChar, *]
      rfl
    · simp [*]

/-- A poll of `checkCommand` on a byte that is neither the abort byte nor
the first header byte: the byte is appended to `_cmd` at `_cmdLen`
(lines 339-344), wherever `_cmdLen` stands. -/
theorem checkCommand_plain (b : Build) (s : PlatformIO) (x : Nat) (rest : List Nat)
    (out : String) (hx : x < 256) (h3 : x ≠ 0x03) (hne : x ≠ 0xF4)
    (hcap : s._cmdLen < s._cmd.length) :
    checkCommand b { pio := s, stdin := x :: rest, stdout := out }
      = .ok (b.CMD_UNKNOWN,
          { pio := { s with _cmd := s._cmd.set s._cmdLen x, _cmdLen := s._cmdLen + 1 },
            stdin := rest, stdout := out }) := by
  have hcx : ((x : Int) % 256).toNat = x := by omega
  have hnn : ¬ ((x : Int) < 0) := by omega
  have e3 : ¬ ((x : Int) = 3) := by omega
  have e244 : ¬ ((x : Int) = 244) := by omega
  apply checkCommand_of_loop b 1
  simp [checkCommandLoop, checkCommandBody, _getchar_timeout_us, cmdHeader,
    PlatformIO.store, toChar, hcx, hnn, e3, e244, hcap]

/-- Successive polls of `checkCommand` on bytes `'A'`: each one is appended
to `_cmd` and `_cmdLen` goes up by one, as long as the array has room. -/
theorem checkCommandN_plain (b : Build) (n : Nat) (s : PlatformIO) (rest : List Nat)
    (out : String) (hcap : s._cmdLen + n ≤ s._cmd.length) :
    ∃ s1, checkCommandN b n { pio := s, stdin := List.replicate n 0x41 ++ rest, stdout := out }
        = .ok (List.replicate n b.CMD_UNKNOWN, { pio := s1, stdin := rest, stdout := out })
      ∧ s1._cmdLen = s._cmdLen + n := by
  induction n generalizing s with
  | zero => exact ⟨s, rfl, rfl⟩
  | succ n ih =>
    have hstep := checkCommand_plain b s 0x41 (List.replicate n 0x41 ++ rest) out
      (by decide) (by decide) (by decide) (by omega)
    obtain ⟨s1, h1, h2⟩ := ih { s with _cmd := s._cmd.set s._cmdLen 0x41,
                                        _cmdLen := s._cmdLen + 1 }
      (by simp only [List.length_set]; omega)
    refine ⟨s1, ?_, ?_⟩
    · simp only [List.replicate_succ, List.cons_append, checkCommandN, hstep, h1]
    · rw [h2]; simp only []; omega

/-- Once `_cmdLen` has passed the end of `cmdHeader`, a poll that finds the
first header byte reads `cmdHeader[_cmdLen]` outside the table. -/
theorem checkCommand_header_read_outOfBounds (b : Build) (s : PlatformIO)
    (rest : List Nat) (out : String) (hl : 8 ≤ s._cmdLen) :
    checkCommand b { pio := s, stdin := 0xF4 :: rest, stdout := out } = .outOfBounds := by
  have hnone : cmdHeader[s._cmdLen]? = none := by
    apply List.getElem?_eq_none
    simp only [cmdHeader, List.length_cons, List.length_nil]
    omega
  have hh : cmdHeaderAt s._cmdLen = .outOfBounds := by
    unfold cmdHeaderAt
    rw [hnone]
  have hmatch : ∀ c, checkCommandMatch b CMD_HEADER_LEN c s rest = .outOfBounds := by
    intro c
    simp only [CMD_HEADER_LEN, checkCommandMatch, hh]
  have hloop : ∀ n, checkCommandLoop b (n + 1)
      { pio := s, stdin := 0xF4 :: rest, stdout := out } = .outOfBounds := by
    intro n
    simp [checkCommandLoop, checkCommandBody, _getchar_timeout_us, hmatch, cmdHeader]
  exact hloop _

/-! ## The two `switch` statements, label by label -/

/-- In a well-formed enumeration every case label differs from the labels
tried before it, and is a byte. -/
theorem wellFormed_facts (b : Build) (h : b.WellFormed) :
    (b.CMD_PLATFORM ≠ b.CMD_VERSION)
    ∧ (b.CMD_BOARD ≠ b.CMD_VERSION ∧ b.CMD_BOARD ≠ b.CMD_PLATFORM)
    ∧ (b.CMD_SERIAL ≠ b.CMD_VERSION ∧ b.CMD_SERIAL ≠ b.CMD_PLATFORM
        ∧ b.CMD_SERIAL ≠ b.CMD_BOARD)
    ∧ (b.CMD_ALIAS ≠ b.CMD_VERSION ∧ b.CMD_ALIAS ≠ b.CMD_PLATFORM ∧ b.CMD_ALIAS ≠ b.CMD_BOARD
        ∧ b.CMD_ALIAS ≠ b.CMD_SERIAL)
    ∧ (b.CMD_ISEXEC ≠ b.CMD_VERSION ∧ b.CMD_ISEXEC ≠ b.CMD_PLATFORM
        ∧ b.CMD_ISEXEC ≠ b.CMD_BOARD ∧ b.CMD_ISEXEC ≠ b.CMD_SERIAL
        ∧ b.CMD_ISEXEC ≠ b.CMD_ALIAS)
    ∧ (b.CMD_RESET ≠ b.CMD_VERSION ∧ b.CMD_RESET ≠ b.CMD_PLATFORM ∧ b.CMD_RESET ≠ b.CMD_BOARD
        ∧ b.CMD_RESET ≠ b.CMD_SERIAL ∧ b.CMD_RESET ≠ b.CMD_ALIAS ∧ b.CMD_RESET ≠ b.CMD_ISEXEC)
    ∧ (b.CMD_ABORT ≠ b.CMD_VERSION ∧ b.CMD_ABORT ≠ b.CMD_PLATFORM ∧ b.CMD_ABORT ≠ b.CMD_BOARD
        ∧ b.CMD_ABORT ≠ b.CMD_SERIAL ∧ b.CMD_ABORT ≠ b.CMD_ALIAS ∧ b.CMD_ABORT ≠ b.CMD_ISEXEC
        ∧ b.CMD_ABORT ≠ b.CMD_RESET)
    ∧ (b.CMD_RUNMAIN ≠ b.CMD_VERSION ∧ b.CMD_RUNMAIN ≠ b.CMD_PLATFORM
        ∧ b.CMD_RUNMAIN ≠ b.CMD_BOARD ∧ b.CMD_RUNMAIN ≠ b.CMD_SERIAL
        ∧ b.CMD_RUNMAIN ≠ b.CMD_ALIAS ∧ b.CMD_RUNMAIN ≠ b.CMD_ISEXEC
        ∧ b.CMD_RUNMAIN ≠ b.CMD_RESET ∧ b.CMD_RUNMAIN ≠ b.CMD_ABORT)
    ∧ (b.CMD_VERSION < 256 ∧ b.CMD_PLATFORM < 256 ∧ b.CMD_BOARD < 256 ∧ b.CMD_SERIAL < 256
        ∧ b.CMD_ALIAS < 256 ∧ b.CMD_ISEXEC < 256 ∧ b.CMD_RESET < 256 ∧ b.CMD_ABORT < 256
        ∧ b.CMD_RUNMAIN < 256) := by
  simp only [Build.WellFormed, Build.caseLabels, List.nodup_cons, List.mem_cons,
    List.mem_singleton, not_or, List.not_mem_nil, not_false_eq_true, List.nodup_nil, and_true,
    forall_eq_or_imp, forall_eq, or_false, implies_true] at h
  obtain ⟨⟨⟨v1, v2, v3, v4, v5, v6, v7, v8⟩, ⟨p1, p2, p3, p4, p5, p6, p7⟩,
    ⟨b1, b2, b3, b4, b5, b6⟩, ⟨s1, s2, s3, s4, s5⟩, ⟨a1, a2, a3, a4⟩, ⟨i1, i2, i3⟩,
    ⟨r1, r2⟩, ab⟩, lt⟩ := h
  exact ⟨Ne.symm v1, ⟨Ne.symm v2, Ne.symm p1⟩, ⟨Ne.symm v3, Ne.symm p2, Ne.symm b1⟩,
    ⟨Ne.symm v4, Ne.symm p3, Ne.symm b2, Ne.symm s1⟩,
    ⟨Ne.symm v5, Ne.symm p4, Ne.symm b3, Ne.symm s2, Ne.symm a1⟩,
    ⟨Ne.symm v6, Ne.symm p5, Ne.symm b4, Ne.symm s3, Ne.symm a2, Ne.symm i1⟩,
    ⟨Ne.symm v7, Ne.symm p6, Ne.symm b5, Ne.symm s4, Ne.symm a3, Ne.symm i2, Ne.symm r1⟩,
    ⟨Ne.symm v8, Ne.symm p7, Ne.symm b6, Ne.symm s5, Ne.symm a4, Ne.symm i3, Ne.symm r2,
      Ne.symm ab⟩, lt⟩

/-- The query cases of the `switch` of `_fgetc`: the text and a newline are
written, the scanner is not touched. -/
theorem fgetcSwitch_query (b : Build) (hwf : b.WellFormed) (s : PlatformIO) (out : String)
    (op : Nat) (txt : String) (hq : (op, txt) ∈ queryReplies b) :
    fgetcSwitch b op s out = .ok (s, out ++ txt ++ "\n") := by
  have hne := wellFormed_facts b hwf
  simp only [queryReplies, List.mem_cons, Prod.mk.injEq, List.mem_singleton,
    List.not_mem_nil, or_false] at hq
  rcases hq with ⟨rfl, rfl⟩ | ⟨rfl, rfl⟩ | ⟨rfl, rfl⟩ | ⟨rfl, rfl⟩ | ⟨rfl, rfl⟩ <;>
    simp [fgetcSwitch, hne, String.append_assoc]

/-- The query cases of the `switch` of `checkCommand`. -/
theorem checkCommandSwitch_query (b : Build) (hwf : b.WellFormed) (s : PlatformIO)
    (out : String) (op : Nat) (txt : String) (hq : (op, txt) ∈ queryReplies b) :
    checkCommandSwitch b op s out = .ok (.next (s, out ++ txt ++ "\n")) := by
  have hne := wellFormed_facts b hwf
  simp only [queryReplies, List.mem_cons, Prod.mk.injEq, List.mem_singleton,
    List.not_mem_nil, or_false] at hq
  rcases hq with ⟨rfl, rfl⟩ | ⟨rfl, rfl⟩ | ⟨rfl, rfl⟩ | ⟨rfl, rfl⟩ | ⟨rfl, rfl⟩ <;>
    simp [checkCommandSwitch, hne, String.append_assoc]

/-- The Abort case of the `switch` of `_fgetc`: `FAIL\n` is written and the
loop goes on. -/
theorem fgetcSwitch_abort (b : Build) (hwf : b.WellFormed) (s : PlatformIO) (out : String) :
    fgetcSwitch b b.CMD_ABORT s out = .ok (s, out ++ "FAIL\n") := by
  have hne := wellFormed_facts b hwf
  simp [fgetcSwitch, hne]

/-- The Abort case of the `switch` of `checkCommand`: the function returns
`CMD_ABORT`. -/
theorem checkCommandSwitch_abort (b : Build) (hwf : b.WellFormed) (s : PlatformIO)
    (out : String) : checkCommandSwitch b b.CMD_ABORT s out = .ok (.ret b.CMD_ABORT) := by
  have hne := wellFormed_facts b hwf
  simp [checkCommandSwitch, hne]

theorem cstr_reset_length : (cstr "reset()\n").length = 8 := by decide

theorem cstr_run_length : (cstr "run()\n").length = 6 := by decide

/-- The Reset and RunMain cases of the `switch` of `_fgetc`. -/
theorem fgetcSwitch_inject (b : Build) (hwf : b.WellFormed) (s : PlatformIO) (out : String)
    (hcap : 8 ≤ s._cmd.length) :
    fgetcSwitch b b.CMD_RESET s out = .ok (resetInjected s, out ++ "OK\n")
    ∧ fgetcSwitch b b.CMD_RUNMAIN s out = .ok (runInjected s, out ++ "OK\n") := by
  have hne := wellFormed_facts b hwf
  have h1 := storeAll_ok s 0 (cstr "reset()\n") (by rw [cstr_reset_length]; omega)
  have h2 := storeAll_ok s 0 (cstr "run()\n") (by rw [cstr_run_length]; omega)
  rw [cstr_reset_length] at h1
  rw [cstr_run_length] at h2
  simp only [List.take_zero, List.nil_append, Nat.zero_add] at h1 h2
  constructor
  · simp [fgetcSwitch, hne, h1, resetInjected]
  · simp [fgetcSwitch, hne, h2, runInjected]

/-- The Reset and RunMain cases of the `switch` of `checkCommand`. -/
theorem checkCommandSwitch_inject (b : Build) (hwf : b.WellFormed) (s : PlatformIO)
    (out : String) (hcap : 8 ≤ s._cmd.length) :
    checkCommandSwitch b b.CMD_RESET s out = .ok (.next (resetInjected s, out ++ "OK\n"))
    ∧ checkCommandSwitch b b.CMD_RUNMAIN s out
        = .ok (.next (runInjected s, out ++ "OK\n")) := by
  have hne := wellFormed_facts b hwf
  have h1 := storeAll_ok s 0 (cstr "reset()\n") (by rw [cstr_reset_length]; omega)
  have h2 := storeAll_ok s 0 (cstr "run()\n") (by rw [cstr_run_length]; omega)
  rw [cstr_reset_length] at h1
  rw [cstr_run_length] at h2
  simp only [List.take_zero, List.nil_append, Nat.zero_add] at h1 h2
  constructor
  · simp [checkCommandSwitch, hne, h1, resetInjected]
  · simp [checkCommandSwitch, hne, h2, runInjected]

/-! ## Stepping the polling scanner -/

/-- The inner loop of `checkCommand` on the whole header, entered with
`_cmdLen = 0`. -/
theorem checkCommandMatch_header (b : Build) (s : PlatformIO) (file : List Nat)
    (hcap : 8 ≤ s._cmd.length) :
    checkCommandMatch b CMD_HEADER_LEN 0xF4 { s with _cmdLen := 0 }
        (0xF5 :: 0xF4 :: 0xF5 :: 0xF4 :: 0xF5 :: 0x00 :: 0x00 :: file)
      = .ok (.next (0x00, headerMatched s, file)) := by
  have h0 : 0 < s._cmd.length := by omega
  have h1 : 1 < s._cmd.length := by omega
  have h2 : 2 < s._cmd.length := by omega
  have h3 : 3 < s._cmd.length := by omega
  have h4 : 4 < s._cmd.length := by omega
  have h5 : 5 < s._cmd.length := by omega
  have h6 : 6 < s._cmd.length := by omega
  have h7 : 7 < s._cmd.length := by omega
  simp [checkCommandMatch, CMD_HEADER_LEN, cmdHeaderAt, cmdHeader, PlatformIO.store,
    _getchar_timeout_us, toChar, headerMatched, headerStored, h0, h1, h2, h3, h4, h5, h6, h7]

/-- A turn of the loop of `checkCommand` on the header and an opcode byte,
entered with `_cmdLen = 0`: the `switch` runs on the opcode. -/
theorem checkCommandBody_header (b : Build) (s : PlatformIO) (op : Nat) (rest : List Nat)
    (out : String) (hcap : 8 ≤ s._cmd.length) (hl : s._cmdLen = 0) (hop : op < 256) :
    checkCommandBody b { pio := s, stdin := cmdHeader ++ op :: rest, stdout := out }
      = match checkCommandSwitch b op (headerMatched s) out with
        | .ok (.next (s2, out2)) => .ok (.next { pio := s2, stdin := rest, stdout := out2 })
        | .ok (.ret code) =>
          .ok (.ret (code, { pio := headerMatched s, stdin := rest, stdout := out }))
        | .outOfBounds => .outOfBounds
        | .outOfFuel => .outOfFuel := by
  have hs : s = { s with _cmdLen := 0 } := by rw [← hl]
  have hm := checkCommandMatch_header b s (op :: rest) hcap
  rw [← hs] at hm
  have hx := toChar_byte op hop
  have hr : (headerMatched s)._readCmd = true := rfl
  simp [checkCommandBody, cmdHeader, _getchar_timeout_us, fgetc, hm, hr, hx]

/-- A poll of `checkCommand` that finds nothing returns `CMD_UNKNOWN` and
changes nothing. -/
theorem checkCommand_empty (b : Build) (s : PlatformIO) (out : String) :
    checkCommand b { pio := s, stdin := [], stdout := out }
      = .ok (b.CMD_UNKNOWN, { pio := s, stdin := [], stdout := out }) := by
  apply checkCommand_of_loop b 1
  simp [checkCommandLoop, checkCommandBody, _getchar_timeout_us]

/-! ## The fast path and the replay branch of `_fgetc` -/

/-- On input without the byte `0xF4`, with nothing to replay, successive
calls of `_fgetc` return the input byte by byte and change nothing else. -/
theorem fgetcN_plain (b : Build) (s : PlatformIO) (input rest : List Nat) (out : String)
    (hu : s._unreadCmd = false) (hin : ∀ y ∈ input, y < 256 ∧ y ≠ 0xF4) :
    fgetcN b input.length { pio := s, stdin := input ++ rest, stdout := out }
      = .ok (input, { pio := s, stdin := rest, stdout := out }) := by
  induction input with
  | nil => rfl
  | cons y ys ih =>
    have hy := hin y (List.mem_cons_self y ys)
    have hstep := fgetc_plain b s y (ys ++ rest) out hu hy.1 hy.2
    have hrest := ih (fun z hz => hin z (List.mem_cons_of_mem y hz))
    simp only [List.length_cons, List.cons_append, fgetcN, hstep, hrest]

/-- One call of `_fgetc` in the replay branch (lines 464-470). -/
theorem fgetc_replay_step (b : Build) (s : PlatformIO) (src : List Nat) (out : String)
    (c : Nat) (hu : s._unreadCmd = true) (hc : s._cmd[s._unreadI]? = some c) :
    _fgetc b { pio := s, stdin := src, stdout := out }
      = .ok (c, { pio := { s with _unreadI := s._unreadI + 1,
                                  _unreadCmd := decide (s._unreadI + 1 ≠ s._cmdLen) },
                  stdin := src, stdout := out }) := by
  by_cases h : s._unreadI + 1 = s._cmdLen
  · simp [_fgetc, hu, PlatformIO.load, hc, h]
  · simp [_fgetc, hu, PlatformIO.load, hc, h]

/-- The first `m` calls of `_fgetc` in the replay branch. -/
theorem fgetcN_replay (b : Build) (m : Nat) (s : PlatformIO) (src : List Nat) (out : String)
    (hu : s._unreadCmd = true) (hm : s._unreadI + m ≤ s._cmdLen)
    (hcap : s._cmdLen ≤ s._cmd.length) :
    fgetcN b m { pio := s, stdin := src, stdout := out }
      = .ok ((s._cmd.drop s._unreadI).take m,
          { pio := { s with _unreadI := s._unreadI + m,
                            _unreadCmd := decide (m = 0 ∨ s._unreadI + m ≠ s._cmdLen) },
            stdin := src, stdout := out }) := by
  induction m generalizing s with
  | zero =>
    simp only [fgetcN, List.take_zero, Nat.add_zero, true_or, decide_True]
    rw [← hu]
  | succ m ih =>
    have hlt : s._unreadI < s._cmd.length := by omega
    have hc : s._cmd[s._unreadI]? = some (s._cmd[s._unreadI]) := List.getElem?_eq_getElem hlt
    have hstep := fgetc_replay_step b s src out _ hu hc
    have hdrop : List.drop s._unreadI s._cmd
        = s._cmd[s._unreadI] :: List.drop (s._unreadI + 1) s._cmd :=
      List.drop_eq_getElem_cons hlt
    rcases Nat.eq_zero_or_pos m with h0 | hpos
    · subst h0
      simp only [fgetcN, hstep, hdrop, List.take_succ_cons, List.take_zero, Nat.zero_add,
        Nat.add_eq_zero, and_false, false_or, one_ne_zero]
    · have hu1 : decide (s._unreadI + 1 ≠ s._cmdLen) = true := by
        simp only [ne_eq, decide_not, Bool.not_eq_true', decide_eq_false_iff_not]
        omega
      have hrest := ih { s with _unreadI := s._unreadI + 1,
                                _unreadCmd := decide (s._unreadI + 1 ≠ s._cmdLen) }
        hu1 (by simp only []; omega) hcap
      have e1 : decide (m = 0 ∨ s._unreadI + 1 + m ≠ s._cmdLen)
          = decide (m + 1 = 0 ∨ s._unreadI + (m + 1) ≠ s._cmdLen) := by
        have : s._unreadI + 1 + m = s._unreadI + (m + 1) := by omega
        rw [this]
        have hm0 : m ≠ 0 := by omega
        simp [hm0]
      simp only [fgetcN, hstep, hrest, hdrop, List.take_succ_cons]
      simp only [Outcome.ok.injEq, Prod.mk.injEq, true_and, World.mk.injEq, and_true,
        PlatformIO.mk.injEq]
      exact ⟨by omega, e1⟩

/-! ## A header right after a false start -/

/-- The first call of `_fgetc` on a false start, with what it leaves in the
scanner: `_readCmd` and `_unreadCmd` stay false and `_cmd` keeps its
length. -/
theorem fgetc_false_start_state (b : Build) (s : PlatformIO) (k x : Nat) (rest : List Nat)
    (out : String) (hu : s._unreadCmd = false) (hr : s._readCmd = false)
    (hk0 : 0 < k) (hk : k < 8) (hx : x < 256) (hne : cmdHeader[k]? ≠ some x)
    (hcap : k < s._cmd.length) :
    ∃ s1, _fgetc b { pio := s, stdin := cmdHeader.take k ++ x :: rest, stdout := out }
        = .ok (0xF4, { pio := s1, stdin := rest, stdout := out })
      ∧ s1._unreadCmd = false ∧ s1._readCmd = false ∧ s1._cmdLen = k + 1
      ∧ s1._cmd.length = s._cmd.length := by
  have hcx : ((x : Int) % 256).toNat = x := by omega
  have h0 : 0 < s._cmd.length := by omega
  interval_cases k <;>
  · simp only [cmdHeader, List.getElem?_cons_succ, List.getElem?_cons_zero, ne_eq,
      Option.some.injEq] at hne
    have hne' := Ne.symm hne
    try have h1 : 1 < s._cmd.length := by omega
    try have h2 : 2 < s._cmd.length := by omega
    try have h3 : 3 < s._cmd.length := by omega
    try have h4 : 4 < s._cmd.length := by omega
    try have h5 : 5 < s._cmd.length := by omega
    try have h6 : 6 < s._cmd.length := by omega
    try have h7 : 7 < s._cmd.length := by omega
    apply Exists.intro
    refine ⟨?_, ?_⟩
    · apply fgetc_of_loop b 1 _ _ hu
      simp [fgetcLoop, fgetcBody, fgetcMatch, fgetc, cmdHeader, cmdHeaderAt, PlatformIO.store,
        PlatformIO.load, CMD_HEADER_LEN, toChar, *]
      rfl
    · simp [*]

/-! ## Polls across an exhausted input -/

/-- A poll of `checkCommand`, entered with `_cmdLen = 0`, on a proper prefix
of the header after which nothing is ready: the prefix is stored, `_cmdLen`
is its length, and `CMD_UNKNOWN` is returned from inside the matching loop
(line 365). -/
theorem checkCommand_partial (b : Build) (s : PlatformIO) (k : Nat) (out : String)
    (hl : s._cmdLen = 0) (hk0 : 0 < k) (hk : k < 8) (hcap : k ≤ s._cmd.length) :
    ∃ s1, checkCommand b { pio := s, stdin := cmdHeader.take k, stdout := out }
        = .ok (b.CMD_UNKNOWN, { pio := s1, stdin := [], stdout := out })
      ∧ s1._cmdLen = k ∧ s1._cmd.length = s._cmd.length ∧ s1._readCmd = s._readCmd
      ∧ s1._unreadCmd = s._unreadCmd := by
  have h0 : 0 < s._cmd.length := by omega
  interval_cases k <;>
  · try have h1 : 1 < s._cmd.length := by omega
    try have h2 : 2 < s._cmd.length := by omega
    try have h3 : 3 < s._cmd.length := by omega
    try have h4 : 4 < s._cmd.length := by omega
    try have h5 : 5 < s._cmd.length := by omega
    try have h6 : 6 < s._cmd.length := by omega
    apply Exists.intro
    refine ⟨?_, ?_⟩
    · apply checkCommand_of_loop b 1
      simp [checkCommandLoop, checkCommandBody, checkCommandMatch, _getchar_timeout_us,
        cmdHeader, cmdHeaderAt, PlatformIO.store, CMD_HEADER_LEN, toChar, *]
      rfl
    · simp [*]

/-- Successive polls of `checkCommand` on bytes that are neither the abort
byte nor the first header byte: each byte is appended to `_cmd` and
`_cmdLen` goes up by one, wherever it stands. -/
theorem checkCommandN_plain_list (b : Build) (ys : List Nat) (s : PlatformIO)
    (rest : List Nat) (out : String)
    (hys : ∀ y ∈ ys, y < 256 ∧ y ≠ 0x03 ∧ y ≠ 0xF4)
    (hcap : s._cmdLen + ys.length ≤ s._cmd.length) :
    ∃ s1, checkCommandN b ys.length { pio := s, stdin := ys ++ rest, stdout := out }
        = .ok (List.replicate ys.length b.CMD_UNKNOWN,
            { pio := s1, stdin := rest, stdout := out })
      ∧ s1._cmdLen = s._cmdLen + ys.length ∧ s1._readCmd = s._readCmd := by
  induction ys generalizing s with
  | nil => exact ⟨s, rfl, rfl, rfl⟩
  | cons y ys ih =>
    have hy := hys y (List.mem_cons_self y ys)
    simp only [List.length_cons] at hcap
    have hstep := checkCommand_plain b s y (ys ++ rest) out hy.1 hy.2.1 hy.2.2 (by omega)
    obtain ⟨s1, h1, h2, h3⟩ := ih { s with _cmd := s._cmd.set s._cmdLen y,
                                            _cmdLen := s._cmdLen + 1 }
      (fun z hz => hys z (List.mem_cons_of_mem y hz))
      (by simp only [List.length_set]; omega)
    refine ⟨s1, ?_, ?_, h3⟩
    · simp only [List.length_cons, List.replicate_succ, List.cons_append, checkCommandN,
        hstep, h1]
    · rw [h2]; simp only [List.length_cons]; omega

/-- Polls of `checkCommand` that find nothing change nothing. -/
theorem checkCommandN_empty (b : Build) (n : Nat) (s : PlatformIO) (out : String) :
    checkCommandN b n { pio := s, stdin := [], stdout := out }
      = .ok (List.replicate n b.CMD_UNKNOWN, { pio := s, stdin := [], stdout := out }) := by
  induction n with
  | zero => rfl
  | succ n ih => simp only [checkCommandN, checkCommand_empty, ih, List.replicate_succ]

/-! ## What every call preserves -/

theorem store_unreadCmd {s s1 : PlatformIO} {i c : Nat} (h : s.store i c = .ok s1) :
    s1._unreadCmd = s._unreadCmd := by
  unfold PlatformIO.store at h
  split at h
  · cases h; rfl
  · cases h

theorem storeAll_unreadCmd (cs : List Nat) (s s1 : PlatformIO) (i : Nat)
    (h : s.storeAll i cs = .ok s1) : s1._unreadCmd = s._unreadCmd := by
  induction cs generalizing s i with
  | nil =>
    simp only [ PlatformIO.storeAll, Outcome.ok.injEq] at h
    rw [h]
  | cons c cs ih =>
    unfold PlatformIO.storeAll at h
    split at h
    · rename_i s2 hs2
      rw [ih _ _ h, store_unreadCmd hs2]
    · cases h
    · cases h

/-- No case of the `switch` of `_fgetc` touches `_unreadCmd`. -/
theorem fgetcSwitch_unreadCmd (b : Build) (cmd : Nat) (s s2 : PlatformIO) (out out2 : String)
    (h : fgetcSwitch b cmd s out = .ok (s2, out2)) : s2._unreadCmd = s._unreadCmd := by
  unfold fgetcSwitch at h
  split_ifs at h
  all_goals first
    | (simp only [Outcome.ok.injEq, Prod.mk.injEq] at h
       rw [← h.1])
    | (try dsimp only at h
       split at h
       · rename_i s1 hs1
         have hu := storeAll_unreadCmd _ _ _ _ hs1
         simp only [Outcome.ok.injEq, Prod.mk.injEq] at h
         rw [← h.1]
         exact hu
       · cases h
       · cases h)

/-- No case of the `switch` of `checkCommand` touches `_unreadCmd`. -/
theorem checkCommandSwitch_unreadCmd (b : Build) (cmd : Nat) (s s2 : PlatformIO)
    (out out2 : String) (h : checkCommandSwitch b cmd s out = .ok (.next (s2, out2))) :
    s2._unreadCmd = s._unreadCmd := by
  unfold checkCommandSwitch at h
  split_ifs at h
  all_goals first
    | (simp only [Outcome.ok.injEq, Flow.next.injEq, Prod.mk.injEq] at h
       rw [← h.1])
    | (simp only [Outcome.ok.injEq] at h
       cases h)
    | (try dsimp only at h
       split at h
       · rename_i s1 hs1
         have hu := storeAll_unreadCmd _ _ _ _ hs1
         simp only [Outcome.ok.injEq, Flow.next.injEq, Prod.mk.injEq] at h
         rw [← h.1]
         exact hu
       · cases h
       · cases h)

/-- The only case of the `switch` of `checkCommand` that returns from the
function returns `CMD_ABORT`. -/
theorem checkCommandSwitch_ret (b : Build) (cmd : Nat) (s : PlatformIO) (out : String)
    (code : Nat) (h : checkCommandSwitch b cmd s out = .ok (.ret code)) :
    code = b.CMD_ABORT := by
  unfold checkCommandSwitch at h
  split_ifs at h
  all_goals first
    | (simp only [Outcome.ok.injEq, Flow.ret.injEq] at h
       exact h.symm)
    | (simp only [Outcome.ok.injEq] at h
       cases h)
    | (try dsimp only at h
       split at h
       · simp only [Outcome.ok.injEq] at h
         cases h
       · cases h
       · cases h)

/-- The inner loop of `_fgetc` does not touch `_unreadCmd`. -/
theorem fgetcMatch_unreadCmd (n c : Nat) (s : PlatformIO) (file : List Nat)
    (c1 : Nat) (s1 : PlatformIO) (file1 : List Nat)
    (h : fgetcMatch n c s file = .ok (c1, s1, file1)) : s1._unreadCmd = s._unreadCmd := by
  induction n generalizing c s file with
  | zero => simp [fgetcMatch] at h
  | succ n ih =>
    unfold fgetcMatch at h
    split at h
    · split at h
      · split at h
        · rename_i s2 hs2
          have hu := store_unreadCmd hs2
          simp only [] at h
          split at h
          · simp only [Outcome.ok.injEq, Prod.mk.injEq] at h
            rw [← h.2.1]
            exact hu
          · rw [ih _ _ _ h]
            exact hu
        · cases h
        · cases h
      · simp only [Outcome.ok.injEq, Prod.mk.injEq] at h
        rw [← h.2.1]
    · cases h
    · cases h

/-- The inner loop of `checkCommand` does not touch `_unreadCmd`, and the
code it returns from the function with is `CMD_UNKNOWN`. -/
theorem checkCommandMatch_unreadCmd (b : Build) (n : Nat) (c : Int) (s : PlatformIO)
    (file : List Nat) :
    (∀ c1 s1 file1, checkCommandMatch b n c s file = .ok (.next (c1, s1, file1))
        → s1._unreadCmd = s._unreadCmd)
    ∧ (∀ code s1 file1, checkCommandMatch b n c s file = .ok (.ret (code, s1, file1))
        → code = b.CMD_UNKNOWN ∧ s1._unreadCmd = s._unreadCmd
          ∧ file1.length ≤ file.length) := by
  induction n generalizing c s file with
  | zero => simp [checkCommandMatch]
  | succ n ih =>
    unfold checkCommandMatch
    split
    · split
      · split
        · rename_i s2 hs2
          have hu := store_unreadCmd hs2
          simp only []
          split
          · refine ⟨fun c1 s1 file1 h => ?_, fun code s1 file1 h => ?_⟩
            · simp only [Outcome.ok.injEq, Flow.next.injEq, Prod.mk.injEq] at h
              rw [← h.2.1]
              exact hu
            · simp only [Outcome.ok.injEq] at h
              cases h
          · split
            · refine ⟨fun c1 s1 file1 h => ?_, fun code s1 file1 h => ?_⟩
              · simp only [Outcome.ok.injEq] at h
                cases h
              · simp only [Outcome.ok.injEq, Flow.ret.injEq, Prod.mk.injEq] at h
                refine ⟨h.1.symm, ?_, ?_⟩
                · rw [← h.2.1]
                  exact hu
                · rw [← h.2.2]
                  exact getchar_length file
            · obtain ⟨ih1, ih2⟩ := ih (_getchar_timeout_us file).1
                { s2 with _cmdLen := s2._cmdLen + 1 } (_getchar_timeout_us file).2
              refine ⟨fun c1 s1 file1 h => ?_, fun code s1 file1 h => ?_⟩
              · rw [ih1 _ _ _ h]
                exact hu
              · obtain ⟨e1, e2, e3⟩ := ih2 _ _ _ h
                exact ⟨e1, by rw [e2]; exact hu, le_trans e3 (getchar_length file)⟩
        · simp
        · simp
      · refine ⟨fun c1 s1 file1 h => ?_, fun code s1 file1 h => ?_⟩
        · simp only [Outcome.ok.injEq, Flow.next.injEq, Prod.mk.injEq] at h
          rw [← h.2.1]
        · simp only [Outcome.ok.injEq] at h
          cases h
    · simp
    · simp

/-- A turn of the loop of `_fgetc` that goes on leaves `_unreadCmd` as it
was. -/
theorem fgetcBody_next_unreadCmd (b : Build) (w w1 : World)
    (h : fgetcBody b w = .ok (.next w1)) : w1.pio._unreadCmd = w.pio._unreadCmd := by
  unfold fgetcBody at h
  simp only [] at h
  split at h
  · simp at h
  · split at h
    · rename_i c1 s1 file1 hm
      have hu := fgetcMatch_unreadCmd _ _ _ _ _ _ _ hm
      split at h
      · split at h
        · rename_i s2 out2 hsw
          have hu2 := fgetcSwitch_unreadCmd _ _ _ _ _ _ hsw
          simp only [Outcome.ok.injEq, Flow.next.injEq] at h
          rw [← h]
          simp only []
          rw [hu2, hu]
        · cases h
        · cases h
      · split at h
        · split at h
          · simp at h
          · cases h
          · cases h
        · cases h
        · cases h
    · cases h
    · cases h

/-- A turn of the loop of `_fgetc` that returns a byte leaves `_unreadCmd`
and `stdout` as they were and has consumed a byte if there was one. -/
theorem fgetcBody_ret (b : Build) (w w1 : World) (c : Nat)
    (h : fgetcBody b w = .ok (.ret (c, w1))) :
    w1.pio._unreadCmd = w.pio._unreadCmd ∧ w1.stdin.length ≤ w.stdin.length
      ∧ (w.stdin ≠ [] → w1.stdin.length < w.stdin.length) := by
  have hcons : w.stdin ≠ [] → (fgetc w.stdin).2.length < w.stdin.length := by
    intro hne
    obtain ⟨x, rest, hx⟩ := List.exists_cons_of_ne_nil hne
    rw [hx]
    simp [fgetc]
  unfold fgetcBody at h
  simp only [] at h
  split at h
  · simp only [Outcome.ok.injEq, Flow.ret.injEq, Prod.mk.injEq] at h
    rw [← h.2]
    exact ⟨rfl, fgetc_length _, hcons⟩
  · split at h
    · rename_i c1 s1 file1 hm
      have hu := fgetcMatch_unreadCmd _ _ _ _ _ _ _ hm
      have hl := fgetcMatch_length _ _ _ _ _ _ _ hm
      split at h
      · split at h
        · simp at h
        · cases h
        · cases h
      · split at h
        · rename_i s2 hs2
          have hu2 := store_unreadCmd hs2
          split at h
          · simp only [Outcome.ok.injEq, Flow.ret.injEq, Prod.mk.injEq] at h
            rw [← h.2]
            simp only []
            refine ⟨by rw [hu2, hu], le_trans hl (fgetc_length _), fun hne => ?_⟩
            exact lt_of_le_of_lt hl (hcons hne)
          · cases h
          · cases h
        · cases h
        · cases h
    · cases h
    · cases h

/-- A call through the loop of `_fgetc` leaves `_unreadCmd` as it was and
has consumed a byte if there was one. -/
theorem fgetcLoop_result (b : Build) (n : Nat) (w w1 : World) (c : Nat)
    (h : fgetcLoop b n w = .ok (c, w1)) :
    w1.pio._unreadCmd = w.pio._unreadCmd ∧ w1.stdin.length ≤ w.stdin.length
      ∧ (w.stdin ≠ [] → w1.stdin.length < w.stdin.length) := by
  induction n generalizing w with
  | zero => simp [fgetcLoop] at h
  | succ n ih =>
    unfold fgetcLoop at h
    split at h
    · rename_i w2 hb
      have hu := fgetcBody_next_unreadCmd b w w2 hb
      have hl := fgetcBody_next_length b w w2 hb
      obtain ⟨e1, e2, _⟩ := ih w2 h
      exact ⟨by rw [e1, hu], by omega, fun _ => by omega⟩
    · rename_i x hb
      simp only [Outcome.ok.injEq] at h
      rw [h] at hb
      exact fgetcBody_ret b w w1 c hb
    · cases h
    · cases h

/-- A turn of the loop of `checkCommand` that goes on leaves `_unreadCmd`
as it was. -/
theorem checkCommandBody_next_unreadCmd (b : Build) (w w1 : World)
    (h : checkCommandBody b w = .ok (.next w1)) : w1.pio._unreadCmd = w.pio._unreadCmd := by
  unfold checkCommandBody at h
  simp only [] at h
  split_ifs at h
  · simp at h
  · simp at h
  · split at h
    · simp at h
    · cases h
    · cases h
  · split at h
    · simp at h
    · rename_i c1 s1 file1 hm
      have hu := (checkCommandMatch_unreadCmd b _ _ _ _).1 _ _ _ hm
      split at h
      · split at h
        · rename_i s2 out2 hsw
          have hu2 := checkCommandSwitch_unreadCmd _ _ _ _ _ _ hsw
          simp only [Outcome.ok.injEq, Flow.next.injEq] at h
          rw [← h]
          simp only []
          rw [hu2, hu]
        · simp at h
        · cases h
        · cases h
      · split at h
        · split at h
          · simp at h
          · cases h
          · cases h
        · cases h
        · cases h
    · cases h
    · cases h

/-- A turn of the loop of `checkCommand` that returns: the code is
`CMD_UNKNOWN` or `CMD_ABORT`, `_unreadCmd` is as it was, and input was only
consumed. -/
theorem checkCommandBody_ret (b : Build) (w w1 : World) (code : Nat)
    (h : checkCommandBody b w = .ok (.ret (code, w1))) :
    (code = b.CMD_UNKNOWN ∨ code = b.CMD_ABORT)
      ∧ w1.pio._unreadCmd = w.pio._unreadCmd ∧ w1.stdin.length ≤ w.stdin.length := by
  unfold checkCommandBody at h
  simp only [] at h
  split_ifs at h
  · simp only [Outcome.ok.injEq, Flow.ret.injEq, Prod.mk.injEq] at h
    rw [← h.2]
    exact ⟨Or.inl h.1.symm, rfl, getchar_length _⟩
  · simp only [Outcome.ok.injEq, Flow.ret.injEq, Prod.mk.injEq] at h
    rw [← h.2]
    exact ⟨Or.inr h.1.symm, rfl, getchar_length _⟩
  · split at h
    · rename_i s1 hs1
      have hu := store_unreadCmd hs1
      simp only [Outcome.ok.injEq, Flow.ret.injEq, Prod.mk.injEq] at h
      rw [← h.2]
      exact ⟨Or.inl h.1.symm, hu, getchar_length _⟩
    · cases h
    · cases h
  · split at h
    · rename_i code1 s1 file1 hm
      obtain ⟨e1, e2, e3⟩ := (checkCommandMatch_unreadCmd b _ _ _ _).2 _ _ _ hm
      simp only [Outcome.ok.injEq, Flow.ret.injEq, Prod.mk.injEq] at h
      rw [← h.2, ← h.1]
      exact ⟨Or.inl e1, e2, le_trans e3 (getchar_length _)⟩
    · rename_i c1 s1 file1 hm
      have hu := (checkCommandMatch_unreadCmd b _ _ _ _).1 _ _ _ hm
      have hl := checkCommandMatch_next_length _ _ _ _ _ _ _ _ hm
      split at h
      · split at h
        · simp at h
        · rename_i code1 hsw
          have hc := checkCommandSwitch_ret _ _ _ _ _ hsw
          simp only [Outcome.ok.injEq, Flow.ret.injEq, Prod.mk.injEq] at h
          rw [← h.2, ← h.1]
          exact ⟨Or.inr hc, hu,
            le_trans (fgetc_length _) (le_trans hl (getchar_length _))⟩
        · cases h
        · cases h
      · split at h
        · rename_i s2 hs2
          have hu2 := store_unreadCmd hs2
          split at h
          · simp only [Outcome.ok.injEq, Flow.ret.injEq, Prod.mk.injEq] at h
            rw [← h.2]
            simp only []
            exact ⟨Or.inl h.1.symm, by rw [hu2, hu], le_trans hl (getchar_length _)⟩
          · cases h
          · cases h
        · cases h
        · cases h
    · cases h
    · cases h

/-- A call through the loop of `checkCommand`: the code is `CMD_UNKNOWN` or
`CMD_ABORT`, `_unreadCmd` is as it was, and input was only consumed. -/
theorem checkCommandLoop_result (b : Build) (n : Nat) (w w1 : World) (code : Nat)
    (h : checkCommandLoop b n w = .ok (code, w1)) :
    (code = b.CMD_UNKNOWN ∨ code = b.CMD_ABORT)
      ∧ w1.pio._unreadCmd = w.pio._unreadCmd ∧ w1.stdin.length ≤ w.stdin.length := by
  induction n generalizing w with
  | zero => simp [checkCommandLoop] at h
  | succ n ih =>
    unfold checkCommandLoop at h
    split at h
    · rename_i w2 hb
      have hu := checkCommandBody_next_unreadCmd b w w2 hb
      have hl := checkCommandBody_next_length b w w2 hb
      obtain ⟨e1, e2, e3⟩ := ih w2 h
      exact ⟨e1, by rw [e2, hu], by omega⟩
    · rename_i x hb
      simp only [Outcome.ok.injEq] at h
      rw [h] at hb
      exact checkCommandBody_ret b w w1 code hb
    · cases h
    · cases h

/-! ## Totality up to array bounds -/

/-- With any fuel at which the loop does not lack fuel, `checkCommand` has
the result of the loop. -/
theorem checkCommand_eq_loop (b : Build) (n : Nat) (w : World)
    (h : checkCommandLoop b n w ≠ .outOfFuel) :
    checkCommand b w = checkCommandLoop b n w := by
  unfold checkCommand
  rcases Nat.le_total n (w.stdin.length + 1) with hle | hle
  · exact checkCommandLoop_mono b n _ w hle h
  · exact (checkCommandLoop_mono b _ n w hle
      (checkCommandLoop_fuel_enough b _ w (by omega))).symm

/-- A turn of the loop of `checkCommand` that finds the first header byte
while `_cmdLen` is 8 or more reads `cmdHeader[_cmdLen]` outside the table. -/
theorem checkCommandBody_header_read_outOfBounds (b : Build) (s : PlatformIO)
    (rest : List Nat) (out : String) (hl : 8 ≤ s._cmdLen) :
    checkCommandBody b { pio := s, stdin := 0xF4 :: rest, stdout := out } = .outOfBounds := by
  have hnone : cmdHeader[s._cmdLen]? = none := by
    apply List.getElem?_eq_none
    simp only [cmdHeader, List.length_cons, List.length_nil]
    omega
  have hh : cmdHeaderAt s._cmdLen = .outOfBounds := by
    unfold cmdHeaderAt
    rw [hnone]
  have hmatch : ∀ c, checkCommandMatch b CMD_HEADER_LEN c s rest = .outOfBounds := by
    intro c
    simp only [CMD_HEADER_LEN, checkCommandMatch, hh]
  simp [checkCommandBody, _getchar_timeout_us, hmatch, cmdHeader]

/-- A call of `checkCommand` ends, for every scanner and every input: it
returns `CMD_UNKNOWN` or `CMD_ABORT` having only consumed input, unless it
makes an access outside an array. -/
theorem checkCommand_total (b : Build) (w : World) :
    checkCommand b w = .outOfBounds
    ∨ ∃ code w1, checkCommand b w = .ok (code, w1)
        ∧ (code = b.CMD_UNKNOWN ∨ code = b.CMD_ABORT)
        ∧ w1.stdin.length ≤ w.stdin.length := by
  cases hres : checkCommand b w with
  | ok r =>
    obtain ⟨code, w1⟩ := r
    right
    obtain ⟨e1, _, e3⟩ := checkCommandLoop_result b _ w w1 code hres
    exact ⟨code, w1, rfl, e1, e3⟩
  | outOfBounds => left; rfl
  | outOfFuel => exact absurd hres (checkCommand_fuel_enough b w)

/-- A call of `_fgetc` ends, for every scanner and every input: it returns
a byte having only consumed input, unless it makes an access outside an
array. -/
theorem fgetc_total (b : Build) (w : World) :
    _fgetc b w = .outOfBounds
    ∨ ∃ c w1, _fgetc b w = .ok (c, w1) ∧ w1.stdin.length ≤ w.stdin.length := by
  cases hres : _fgetc b w with
  | ok r =>
    obtain ⟨c, w1⟩ := r
    right
    refine ⟨c, w1, rfl, ?_⟩
    unfold _fgetc at hres
    split at hres
    · split at hres
      · simp only [Outcome.ok.injEq, Prod.mk.injEq] at hres
        rw [← hres.2]
      · cases hres
      · cases hres
    · exact (fgetcLoop_result b _ w w1 c hres).2.1
  | outOfBounds => left; rfl
  | outOfFuel => exact absurd hres (fgetc_fuel_enough b w)

/-- On the sample build, a header split after 1, 2, 3 or 4 bytes is still
matched by the later polls, and a header split after 5, 6 or 7 bytes is
not. -/
theorem resumedStdout_sample :
    [1, 2, 3, 4].map (fun k => resumedStdout sampleBuild k 6)
        = List.replicate 4 (.ok "0.0.0\n")
    ∧ [5, 6, 7].map (fun k => resumedStdout sampleBuild k 6) = List.replicate 3 (.ok "") := by
  decide

/-! ## Arithmetic of the timer conversions -/

theorem int64_some (x : Int) (h : -(2 ^ 63) ≤ x ∧ x < 2 ^ 63) : int64 x = some x := by
  simp only [int64, h, and_self, if_true]

/-- Truncating division by a positive number stays inside `Int64`. -/
theorem tdiv_range (x k : Int) (hk : 0 < k) (h : -(2 ^ 63) ≤ x ∧ x < 2 ^ 63) :
    -(2 ^ 63) ≤ Int.tdiv x k ∧ Int.tdiv x k < 2 ^ 63 := by
  rcases Int.le_total 0 x with hx | hx
  · rw [Int.tdiv_eq_ediv hx (Int.le_of_lt hk)]
    have h1 : 0 ≤ x / k := Int.ediv_nonneg hx (Int.le_of_lt hk)
    have h2 : x / k ≤ x := Int.ediv_le_self k hx
    omega
  · obtain ⟨y, rfl⟩ : ∃ y, x = -y := ⟨-x, by omega⟩
    have hy : 0 ≤ y := by omega
    rw [Int.neg_tdiv, Int.tdiv_eq_ediv hy (Int.le_of_lt hk)]
    have h1 : 0 ≤ y / k := Int.ediv_nonneg hy (Int.le_of_lt hk)
    have h2 : y / k ≤ y := Int.ediv_le_self k hy
    omega

theorem div64_some (x k : Int) (hk : 0 < k) (h : -(2 ^ 63) ≤ x ∧ x < 2 ^ 63) :
    div64 x k = some (Int.tdiv x k) := by
  have hne : k ≠ 0 := by omega
  simp only [div64, hne, if_false, int64_some _ (tdiv_range x k hk h)]

/-! ## Reading a line -/

theorem bytesToString_nil (out : String) : out ++ bytesToString [] = out := by
  simp [bytesToString]

theorem bytesToString_cons (out : String) (a : Nat) (l : List Nat) :
    out ++ bytesToString [a] ++ bytesToString l = out ++ bytesToString (a :: l) := by
  rw [String.append_assoc]
  rfl

theorem echoChar_eq (c : Nat) (out : String) :
    echoChar c out = out ++ bytesToString [crToLf c] := by
  unfold echoChar fputc crToLf
  split <;> rfl

/-- The condition that ends the loop of `ReadStdin` is `isLineEnd`. -/
theorem lineEnd_iff (c : Nat) :
    (c = toChar (-1) ∨ (c = 0x0A ∨ c = 0x0D)) ↔ isLineEnd c = true := by
  rw [toChar_eof]
  simp only [isLineEnd, Bool.or_eq_true, decide_eq_true_eq]
  omega

/-- The loop of `ReadStdin`, entered with the character `c` already read and
echoed and `rest` still to read: it appends to the string the bytes of
`c :: rest` before the first line end, consumes that line end too, and has
echoed all it read after `c` (the character value of `EOF` when the input
ended first). -/
theorem ReadStdinLoop_spec (rest : List Nat) (fuel : Nat) (buffer : List Nat) (c : Nat)
    (pio : PlatformIO) (out : String) (hr : ∀ x ∈ rest, x < 256)
    (hf : rest.length + 2 ≤ fuel) :
    ReadStdinLoop fuel buffer c { pio := pio, stdin := rest, stdout := out }
      = .ok (buffer ++ (c :: rest).takeWhile (fun x => !isLineEnd x),
          { pio := pio,
            stdin := (c :: rest).drop (((c :: rest).takeWhile (fun x => !isLineEnd x)).length + 1),
            stdout := out ++ bytesToString
              ((((c :: rest ++ [0xFF]).take
                (((c :: rest).takeWhile (fun x => !isLineEnd x)).length + 1)).drop 1).map
                  crToLf) }) := by
  induction rest generalizing fuel buffer c out with
  | nil =>
    obtain ⟨fuel, rfl⟩ : ∃ k, fuel = k + 2 := ⟨fuel - 2, by simp at hf; omega⟩
    by_cases hc : isLineEnd c = true
    · have hcond := (lineEnd_iff c).mpr hc
      simp [ReadStdinLoop, hcond, hc, bytesToString_nil]
    · have hcond : ¬ (c = toChar (-1) ∨ (c = 0x0A ∨ c = 0x0D)) :=
        fun h => hc ((lineEnd_iff c).mp h)
      have hc' : isLineEnd c = false := by simpa using hc
      have hend : (toChar (-1) = toChar (-1) ∨ (toChar (-1) = 0x0A ∨ toChar (-1) = 0x0D)) :=
        Or.inl rfl
      simp only [ReadStdinLoop, hcond, if_false, fgetc_nil, hend, if_true, StringRef.Append,
        echoChar_eq]
      simp [hc', crToLf, toChar_eof]
  | cons x rest ih =>
    obtain ⟨fuel, rfl⟩ : ∃ k, fuel = k + 1 := ⟨fuel - 1, by simp at hf; omega⟩
    have hx : x < 256 := hr x (List.mem_cons_self x rest)
    by_cases hc : isLineEnd c = true
    · have hcond := (lineEnd_iff c).mpr hc
      simp [ReadStdinLoop, hcond, hc, bytesToString_nil]
    · have hcond : ¬ (c = toChar (-1) ∨ (c = 0x0A ∨ c = 0x0D)) :=
        fun h => hc ((lineEnd_iff c).mp h)
      have hc' : isLineEnd c = false := by simpa using hc
      have hrec := ih fuel (StringRef.Append buffer c) x (out ++ bytesToString [crToLf x])
        (fun y hy => hr y (List.mem_cons_of_mem x hy))
        (by simp only [List.length_cons] at hf; omega)
      simp only [ReadStdinLoop, hcond, if_false, fgetc_cons, toChar_byte x hx, echoChar_eq,
        hrec]
      simp [hc', StringRef.Append, List.takeWhile_cons, bytesToString_cons]

/-! ## Index safety of the blocking scanner -/

theorem frame_refl (s : PlatformIO) : Frame s s := ⟨rfl, rfl, rfl⟩

theorem frame_trans {s s1 s2 : PlatformIO} (h1 : Frame s s1) (h2 : Frame s1 s2) :
    Frame s s2 :=
  ⟨h2.1.trans h1.1, h2.2.1.trans h1.2.1, h2.2.2.trans h1.2.2⟩

/-- A write below index 8 into a `_cmd` of at least eight elements is inside
the array and changes nothing from index 8 on. -/
theorem store_safe (s : PlatformIO) (i c : Nat) (hi : i < 8) (hcap : 8 ≤ s._cmd.length) :
    s.store i c = .ok { s with _cmd := s._cmd.set i c }
    ∧ Frame s { s with _cmd := s._cmd.set i c } := by
  have hlt : i < s._cmd.length := by omega
  refine ⟨by simp only [ PlatformIO.store, hlt, if_true], ?_, ?_, rfl⟩
  · simp only [List.length_set]
  · exact List.drop_set_of_lt c s._cmd hi

/-- The inner loop of `_fgetc`, entered with `_cmdLen` below 8 and enough
fuel, makes no access outside an array and leaves `_cmdLen` below 8. -/
theorem fgetcMatch_safe (n c : Nat) (s : PlatformIO) (file : List Nat)
    (hl : s._cmdLen < 8) (hn : 8 ≤ n + s._cmdLen) (hcap : 8 ≤ s._cmd.length) :
    ∃ c1 s1 file1, fgetcMatch n c s file = .ok (c1, s1, file1)
      ∧ s1._cmdLen < 8 ∧ Frame s s1 := by
  induction n generalizing c s file with
  | zero => omega
  | succ n ih =>
    have hh : ∃ h, cmdHeaderAt s._cmdLen = .ok h := by
      unfold cmdHeaderAt
      have hlen : s._cmdLen < cmdHeader.length := by
        simp only [cmdHeader, List.length_cons, List.length_nil]; omega
      rw [List.getElem?_eq_getElem hlen]
      exact ⟨_, rfl⟩
    obtain ⟨h, hh⟩ := hh
    obtain ⟨hst, hfr⟩ := store_safe s s._cmdLen c hl hcap
    unfold fgetcMatch
    simp only [hh]
    by_cases hc : c = h
    · simp only [hc, if_true]
      rw [← hc, hst]
      simp only []
      by_cases hfull : s._cmdLen + 1 ≥ CMD_HEADER_LEN
      · simp only [hfull, if_true]
        exact ⟨_, _, _, rfl, by simp only []; omega, hfr⟩
      · simp only [hfull, if_false]
        have hlt : s._cmdLen + 1 < 8 := by
          simp only [CMD_HEADER_LEN, ge_iff_le, not_le] at hfull; exact hfull
        obtain ⟨c1, s1, file1, e1, e2, e3⟩ := ih (toChar (fgetc file).1)
          { s with _cmd := s._cmd.set s._cmdLen c, _cmdLen := s._cmdLen + 1 } (fgetc file).2
          hlt (by simp only []; omega) (by simp only [List.length_set]; exact hcap)
        exact ⟨c1, s1, file1, e1, e2, frame_trans hfr e3⟩
    · simp only [hc, if_false]
      exact ⟨_, _, _, rfl, hl, frame_refl s⟩

/-- Without the rp2040 handler, on a `_cmd` of at least eight elements, the
`switch` of `_fgetc` makes no access outside the array, writes only below
index 8, and leaves `_cmdLen` at most 8. -/
theorem fgetcSwitch_safe (b : Build) (cmd : Nat) (s : PlatformIO) (out : String)
    (hrp : b.rp2040 = false) (hl : s._cmdLen ≤ 8) (hcap : 8 ≤ s._cmd.length) :
    ∃ s2 out2, fgetcSwitch b cmd s out = .ok (s2, out2) ∧ s2._cmdLen ≤ 8 ∧ Frame s s2 := by
  have h1 := storeAll_ok s 0 (cstr "reset()\n") (by rw [cstr_reset_length]; omega)
  have h2 := storeAll_ok s 0 (cstr "run()\n") (by rw [cstr_run_length]; omega)
  rw [cstr_reset_length] at h1
  rw [cstr_run_length] at h2
  simp only [List.take_zero, List.nil_append, Nat.zero_add] at h1 h2
  have f1 : Frame s { s with _cmd := cstr "reset()\n" ++ s._cmd.drop 8, _cmdLen := 8 } := by
    refine ⟨?_, ?_, rfl⟩
    · simp only [List.length_append, cstr_reset_length, List.length_drop]; omega
    · simp only []
      rw [List.drop_append_of_le_length (by rw [cstr_reset_length]),
        List.drop_of_length_le (by rw [cstr_reset_length]), List.nil_append]
  have f2 : Frame s { s with _cmd := cstr "run()\n" ++ s._cmd.drop 6, _cmdLen := 6 } := by
    refine ⟨?_, ?_, rfl⟩
    · simp only [List.length_append, cstr_run_length, List.length_drop]; omega
    · simp only []
      rw [List.drop_append_eq_append_drop, cstr_run_length,
        List.drop_of_length_le (by rw [cstr_run_length]; omega), List.nil_append,
        List.drop_drop]
  obtain ⟨r, hr⟩ : ∃ r, fgetcSwitch b cmd s out = r := ⟨_, rfl⟩
  rw [hr]
  unfold fgetcSwitch at hr
  split_ifs at hr with c1 c2 c3 c4 c5 c6 c7 c8 c9 c10
  · subst hr; exact ⟨s, _, rfl, hl, frame_refl s⟩
  · subst hr; exact ⟨s, _, rfl, hl, frame_refl s⟩
  · subst hr; exact ⟨s, _, rfl, hl, frame_refl s⟩
  · rw [hrp] at c5
    cases c5
  · subst hr; exact ⟨s, _, rfl, hl, frame_refl s⟩
  · subst hr; exact ⟨s, _, rfl, hl, frame_refl s⟩
  · subst hr; exact ⟨s, _, rfl, hl, frame_refl s⟩
  · rw [h1] at hr
    subst hr
    exact ⟨_, _, rfl, Nat.le_refl 8, f1⟩
  · subst hr; exact ⟨s, _, rfl, hl, frame_refl s⟩
  · rw [h2] at hr
    subst hr
    exact ⟨_, _, rfl, Nat.le_of_lt_succ (by decide : 6 < 9), f2⟩
  · subst hr; exact ⟨s, _, rfl, hl, frame_refl s⟩

/-- Without the rp2040 handler, on a `_cmd` of at least eight elements, a
turn of the loop of `_fgetc` makes no access outside an array and writes
only below index 8. -/
theorem fgetcBody_safe (b : Build) (w : World) (hrp : b.rp2040 = false)
    (hcap : 8 ≤ w.pio._cmd.length) :
    (∃ w1, fgetcBody b w = .ok (.next w1) ∧ Frame w.pio w1.pio ∧ w1.pio._cmdLen ≤ 8)
    ∨ (∃ c w1, fgetcBody b w = .ok (.ret (c, w1)) ∧ Frame w.pio w1.pio
        ∧ (w1.pio._cmdLen ≤ 8 ∨ w1.pio._cmdLen = w.pio._cmdLen)) := by
  obtain ⟨r, hr⟩ : ∃ r, fgetcBody b w = r := ⟨_, rfl⟩
  rw [hr]
  unfold fgetcBody at hr
  simp only [] at hr
  split_ifs at hr with hc
  · subst hr
    exact Or.inr ⟨_, _, rfl, frame_refl _, Or.inr rfl⟩
  · have hf0 : Frame w.pio { w.pio with _cmdLen := 0 } := ⟨rfl, rfl, rfl⟩
    obtain ⟨c1, s1, file1, hm, hlt, hfr⟩ := fgetcMatch_safe CMD_HEADER_LEN
      (toChar (fgetc w.stdin).1) { w.pio with _cmdLen := 0 } (fgetc w.stdin).2
      (Nat.lt_of_lt_of_le Nat.zero_lt_one (by decide : 1 ≤ 8)) (by simp [CMD_HEADER_LEN]) hcap
    have hfr1 := frame_trans hf0 hfr
    have hcap1 : 8 ≤ s1._cmd.length := by rw [hfr1.1]; exact hcap
    rw [hm] at hr
    simp only [] at hr
    by_cases hrd : s1._readCmd = true
    · simp only [hrd, if_true] at hr
      obtain ⟨s2, out2, hsw, hl2, hfr2⟩ := fgetcSwitch_safe b (toChar (fgetc file1).1) s1
        w.stdout hrp (Nat.le_of_lt hlt) hcap1
      rw [hsw] at hr
      subst hr
      exact Or.inl ⟨_, rfl, frame_trans hfr1 hfr2, hl2⟩
    · simp only [hrd, if_false, Bool.false_eq_true] at hr
      obtain ⟨hst, hfr2⟩ := store_safe s1 s1._cmdLen c1 hlt hcap1
      rw [hst] at hr
      have hpos : 0 < (s1._cmd.set s1._cmdLen c1).length := by
        simp only [List.length_set]; omega
      have hload : ({ s1 with _cmd := s1._cmd.set s1._cmdLen c1,
                              _cmdLen := s1._cmdLen + 1 } : PlatformIO).load 0
          = .ok ((s1._cmd.set s1._cmdLen c1).get ⟨0, hpos⟩) := by
        unfold PlatformIO.load
        simp only []
        rw [List.getElem?_eq_getElem hpos]
        rfl
      simp only [hload] at hr
      subst hr
      refine Or.inr ⟨_, _, rfl, frame_trans hfr1 hfr2, Or.inl ?_⟩
      simp only []
      omega

/-- Without the rp2040 handler, on a `_cmd` of at least eight elements, the
loop of `_fgetc` returns a byte without any access outside an array. -/
theorem fgetcLoop_safe (b : Build) (n : Nat) (w : World) (hrp : b.rp2040 = false)
    (hcap : 8 ≤ w.pio._cmd.length) (hn : w.stdin.length < n) :
    ∃ c w1, fgetcLoop b n w = .ok (c, w1) ∧ Frame w.pio w1.pio
      ∧ (w1.pio._cmdLen ≤ 8 ∨ w1.pio._cmdLen = w.pio._cmdLen) := by
  induction n generalizing w with
  | zero => omega
  | succ n ih =>
    unfold fgetcLoop
    rcases fgetcBody_safe b w hrp hcap with ⟨w1, hb, hfr, hl⟩ | ⟨c, w1, hb, hfr, hl⟩
    · have hlen := fgetcBody_next_length b w w1 hb
      obtain ⟨c, w2, e1, e2, e3⟩ := ih w1 (by rw [hfr.1]; exact hcap) (by omega)
      rw [hb]
      refine ⟨c, w2, e1, frame_trans hfr e2, Or.inl ?_⟩
      rcases e3 with e3 | e3
      · exact e3
      · rw [e3]; exact hl
    · rw [hb]
      exact ⟨c, w1, rfl, hfr, hl⟩

/-! ## The size of `_cmd` -/

theorem store_cmdSize {s s1 : PlatformIO} {i c : Nat} (h : s.store i c = .ok s1) :
    s1._cmd.length = s._cmd.length := by
  unfold PlatformIO.store at h
  split at h
  · cases h; simp
  · cases h

theorem storeAll_cmdSize (cs : List Nat) (s s1 : PlatformIO) (i : Nat)
    (h : s.storeAll i cs = .ok s1) : s1._cmd.length = s._cmd.length := by
  induction cs generalizing s i with
  | nil =>
    simp only [ PlatformIO.storeAll, Outcome.ok.injEq] at h
    rw [h]
  | cons c cs ih =>
    unfold PlatformIO.storeAll at h
    split at h
    · rename_i s2 hs2
      rw [ih _ _ h, store_cmdSize hs2]
    · cases h
    · cases h

/-- No case of the `switch` of `checkCommand` changes the size of `_cmd`. -/
theorem checkCommandSwitch_cmdSize (b : Build) (cmd : Nat) (s s2 : PlatformIO)
    (out out2 : String) (h : checkCommandSwitch b cmd s out = .ok (.next (s2, out2))) :
    s2._cmd.length = s._cmd.length := by
  unfold checkCommandSwitch at h
  split_ifs at h
  all_goals first
    | (simp only [Outcome.ok.injEq, Flow.next.injEq, Prod.mk.injEq] at h
       rw [← h.1])
    | (simp only [Outcome.ok.injEq] at h
       cases h)
    | (try dsimp only at h
       split at h
       · rename_i s1 hs1
         have hu := storeAll_cmdSize _ _ _ _ hs1
         simp only [Outcome.ok.injEq, Flow.next.injEq, Prod.mk.injEq] at h
         rw [← h.1]
         exact hu
       · cases h
       · cases h)

/-- The inner loop of `checkCommand` does not change the size of `_cmd`. -/
theorem checkCommandMatch_cmdSize (b : Build) (n : Nat) (c : Int) (s : PlatformIO)
    (file : List Nat) :
    (∀ c1 s1 file1, checkCommandMatch b n c s file = .ok (.next (c1, s1, file1))
        → s1._cmd.length = s._cmd.length)
    ∧ (∀ code s1 file1, checkCommandMatch b n c s file = .ok (.ret (code, s1, file1))
        → s1._cmd.length = s._cmd.length) := by
  induction n generalizing c s file with
  | zero => simp [checkCommandMatch]
  | succ n ih =>
    unfold checkCommandMatch
    split
    · split
      · split
        · rename_i s2 hs2
          have hu := store_cmdSize hs2
          simp only []
          split
          · refine ⟨fun c1 s1 file1 h => ?_, fun code s1 file1 h => ?_⟩
            · simp only [Outcome.ok.injEq, Flow.next.injEq, Prod.mk.injEq] at h
              rw [← h.2.1]
              exact hu
            · simp only [Outcome.ok.injEq] at h
              cases h
          · split
            · refine ⟨fun c1 s1 file1 h => ?_, fun code s1 file1 h => ?_⟩
              · simp only [Outcome.ok.injEq] at h
                cases h
              · simp only [Outcome.ok.injEq, Flow.ret.injEq, Prod.mk.injEq] at h
                rw [← h.2.1]
                exact hu
            · obtain ⟨ih1, ih2⟩ := ih (_getchar_timeout_us file).1
                { s2 with _cmdLen := s2._cmdLen + 1 } (_getchar_timeout_us file).2
              refine ⟨fun c1 s1 file1 h => ?_, fun code s1 file1 h => ?_⟩
              · rw [ih1 _ _ _ h]
                exact hu
              · rw [ih2 _ _ _ h]
                exact hu
        · simp
        · simp
      · refine ⟨fun c1 s1 file1 h => ?_, fun code s1 file1 h => ?_⟩
        · simp only [Outcome.ok.injEq, Flow.next.injEq, Prod.mk.injEq] at h
          rw [← h.2.1]
        · simp only [Outcome.ok.injEq] at h
          cases h
    · simp
    · simp

/-- A turn of the loop of `checkCommand` does not change the size of
`_cmd`, whether the loop goes on or the function returns. -/
theorem checkCommandBody_cmdSize (b : Build) (w : World) :
    (∀ w1, checkCommandBody b w = .ok (.next w1) → w1.pio._cmd.length = w.pio._cmd.length)
    ∧ (∀ code w1, checkCommandBody b w = .ok (.ret (code, w1))
        → w1.pio._cmd.length = w.pio._cmd.length) := by
  refine ⟨fun w1 h => ?_, fun code w1 h => ?_⟩
  · unfold checkCommandBody at h
    simp only [] at h
    split_ifs at h
    · simp at h
    · simp at h
    · split at h
      · simp at h
      · cases h
      · cases h
    · split at h
      · simp at h
      · rename_i c1 s1 file1 hm
        have hu := (checkCommandMatch_cmdSize b _ _ _ _).1 _ _ _ hm
        split at h
        · split at h
          · rename_i s2 out2 hsw
            have hu2 := checkCommandSwitch_cmdSize _ _ _ _ _ _ hsw
            simp only [Outcome.ok.injEq, Flow.next.injEq] at h
            rw [← h]
            simp only []
            rw [hu2, hu]
          · simp at h
          · cases h
          · cases h
        · split at h
          · split at h
            · simp at h
            · cases h
            · cases h
          · cases h
          · cases h
      · cases h
      · cases h
  · unfold checkCommandBody at h
    simp only [] at h
    split_ifs at h
    · simp only [Outcome.ok.injEq, Flow.ret.injEq, Prod.mk.injEq] at h
      rw [← h.2]
    · simp only [Outcome.ok.injEq, Flow.ret.injEq, Prod.mk.injEq] at h
      rw [← h.2]
    · split at h
      · rename_i s1 hs1
        have hu := store_cmdSize hs1
        simp only [Outcome.ok.injEq, Flow.ret.injEq, Prod.mk.injEq] at h
        rw [← h.2]
        exact hu
      · cases h
      · cases h
    · split at h
      · rename_i code1 s1 file1 hm
        have hu := (checkCommandMatch_cmdSize b _ _ _ _).2 _ _ _ hm
        simp only [Outcome.ok.injEq, Flow.ret.injEq, Prod.mk.injEq] at h
        rw [← h.2]
        exact hu
      · rename_i c1 s1 file1 hm
        have hu := (checkCommandMatch_cmdSize b _ _ _ _).1 _ _ _ hm
        split at h
        · split at h
          · simp at h
          · simp only [Outcome.ok.injEq, Flow.ret.injEq, Prod.mk.injEq] at h
            rw [← h.2]
            exact hu
          · cases h
          · cases h
        · split at h
          · rename_i s2 hs2
            have hu2 := store_cmdSize hs2
            split at h
            · simp only [Outcome.ok.injEq, Flow.ret.injEq, Prod.mk.injEq] at h
              rw [← h.2]
              simp only []
              rw [hu2, hu]
            · cases h
            · cases h
          · cases h
          · cases h
      · cases h
      · cases h

/-- A call through the loop of `checkCommand` does not change the size of
`_cmd`. -/
theorem checkCommandLoop_cmdSize (b : Build) (n : Nat) (w w1 : World) (code : Nat)
    (h : checkCommandLoop b n w = .ok (code, w1)) :
    w1.pio._cmd.length = w.pio._cmd.length := by
  induction n generalizing w with
  | zero => simp [checkCommandLoop] at h
  | succ n ih =>
    unfold checkCommandLoop at h
    split at h
    · rename_i w2 hb
      rw [ih w2 h, (checkCommandBody_cmdSize b w).1 w2 hb]
    · rename_i x hb
      simp only [Outcome.ok.injEq] at h
      rw [h] at hb
      exact (checkCommandBody_cmdSize b w).2 code w1 hb
    · cases h
    · cases h

/-! ## Claims -/

/-- C1 (false-start replay), evaluated where it fails.  From the freshly
constructed scanner, with the input holding the first `k` header bytes
(`0 < k < 8`) and a byte `x` that does not continue the header, `k + 1`
calls of `_fgetc` return `0xF4` and then `k` times `(char)EOF`, not the
`k + 1` bytes of the input: the first call consumes all of them and stores
them in `_cmd` (`x` in `_cmd[k]`, `_cmdLen = k + 1`) but leaves `_unreadCmd`
false, so the bytes after the first are never returned. -/
theorem C1_false_start_bytes_dropped (b : Build) (k x : Nat) (hk0 : 0 < k) (hk : k < 8)
    (hx : x < 256) (hne : cmdHeader[k]? ≠ some x) (hcap : k < b.cmdCap) :
    ∃ w, fgetcN b (k + 1) (freshWorld b (cmdHeader.take k ++ [x]))
        = .ok (0xF4 :: List.replicate k 0xFF, w)
      ∧ w.stdin = [] ∧ w.pio._unreadCmd = false ∧ w.pio._cmdLen = k + 1
      ∧ w.pio._cmd[k]? = some x := by
  obtain ⟨s1, h1, hu, hl, _, hxk⟩ := fgetc_false_start b (gPlatform b) k x [] "" rfl rfl
    hk0 hk hx hne (by rw [gPlatform_cmd_length]; exact hcap)
  refine ⟨{ pio := s1, stdin := [], stdout := "" }, ?_, rfl, hu, hl, hxk⟩
  have hrest := fgetcN_eof b k { pio := s1, stdin := [], stdout := "" } hu rfl
  simp only [fgetcN, freshWorld, h1, hrest]

theorem C1_false_start_bytes_dropped_witness :
    (0 < 3 ∧ 3 < 8 ∧ 0x41 < 256 ∧ cmdHeader[3]? ≠ some 0x41 ∧ 3 < sampleBuild.cmdCap) ∧
    ∃ w, fgetcN sampleBuild (3 + 1) (freshWorld sampleBuild (cmdHeader.take 3 ++ [0x41]))
        = .ok (0xF4 :: List.replicate 3 0xFF, w)
      ∧ w.stdin = [] ∧ w.pio._unreadCmd = false ∧ w.pio._cmdLen = 3 + 1
      ∧ w.pio._cmd[3]? = some 0x41 :=
  ⟨by decide, C1_false_start_bytes_dropped sampleBuild 3 0x41 (by decide) (by decide)
    (by decide) (by decide) (by decide)⟩

/-- C2 (no-header pass-through), evaluated where it fails.  The input
`'A', 0xF4, 'B', 'C'` holds neither the abort byte nor the magic header (it
is shorter than the header).  From the freshly constructed scanner, four
calls of `_fgetc` return `'A', 0xF4, 'C', (char)EOF`: the byte `'B'`, read
while the header was being matched, is lost. -/
theorem C2_pass_through_loses_byte (b : Build) (hcap : 1 < b.cmdCap) :
    (0x03 ∉ [0x41, 0xF4, 0x42, 0x43] ∧ [0x41, 0xF4, 0x42, 0x43].length < cmdHeader.length) ∧
    ∃ w, fgetcN b 4 (freshWorld b [0x41, 0xF4, 0x42, 0x43])
        = .ok ([0x41, 0xF4, 0x43, 0xFF], w) := by
  refine ⟨by decide, ?_⟩
  have hA := fgetc_plain b (gPlatform b) 0x41 [0xF4, 0x42, 0x43] "" rfl (by decide) (by decide)
  obtain ⟨s1, h1, hu, _, _, _⟩ := fgetc_false_start b (gPlatform b) 1 0x42 [0x43] "" rfl rfl
    (by decide) (by decide) (by decide) (by decide)
    (by rw [gPlatform_cmd_length]; exact hcap)
  have hC := fgetc_plain b s1 0x43 [] "" hu (by decide) (by decide)
  have hE := fgetc_eof b { pio := s1, stdin := [], stdout := "" } hu rfl
  have h1' : _fgetc b { pio := gPlatform b, stdin := [0xF4, 0x42, 0x43], stdout := "" }
      = .ok (0xF4, { pio := s1, stdin := [0x43], stdout := "" }) := h1
  refine ⟨{ pio := s1, stdin := [], stdout := "" }, ?_⟩
  simp only [fgetcN, freshWorld, hA, h1', hC, hE]

theorem C2_pass_through_loses_byte_witness :
    (1 < sampleBuild.cmdCap) ∧
    (0x03 ∉ [0x41, 0xF4, 0x42, 0x43] ∧ [0x41, 0xF4, 0x42, 0x43].length < cmdHeader.length) ∧
    ∃ w, fgetcN sampleBuild 4 (freshWorld sampleBuild [0x41, 0xF4, 0x42, 0x43])
        = .ok ([0x41, 0xF4, 0x43, 0xFF], w) :=
  ⟨by decide, C2_pass_through_loses_byte sampleBuild (by decide)⟩

/-- C3 (confirmed header dispatch).  From the freshly constructed scanner,
with the input holding the magic header, the Version opcode, a byte `x`
other than `0xF4` and then anything, one call of `_fgetc` returns `x`,
leaves exactly what followed `x` in the input (ten bytes were consumed) and
has appended exactly `"0.0.0\n"` to `stdout`; the scanner is then the one
reached by matching the header, with `_cmdLen = 0`. -/
theorem C3_confirmed_header_dispatch (b : Build) (x : Nat) (rest : List Nat) (out : String)
    (hcap : 8 ≤ b.cmdCap) (hv : b.CMD_VERSION < 256) (hx : x < 256) (hne : x ≠ 0xF4) :
    _fgetc b { pio := gPlatform b, stdin := cmdHeader ++ b.CMD_VERSION :: x :: rest,
               stdout := out }
      = .ok (x, { pio := headerMatched (gPlatform b), stdin := rest,
                  stdout := out ++ "0.0.0\n" })
    ∧ (headerMatched (gPlatform b))._cmdLen = 0 := by
  refine ⟨?_, rfl⟩
  apply fgetc_of_loop b 2 _ _ (gPlatform_unreadCmd b)
  have hc : 8 ≤ (gPlatform b)._cmd.length := by rw [gPlatform_cmd_length]; exact hcap
  rw [fgetcLoop, fgetcBody_header b _ _ _ _ hc hv, fgetcSwitch_version]
  simp only []
  rw [fgetcLoop, fgetcBody_plain b _ x rest rfl hx hne]

theorem C3_confirmed_header_dispatch_witness :
    (8 ≤ sampleBuild.cmdCap ∧ sampleBuild.CMD_VERSION < 256 ∧ 0x41 < 256 ∧ 0x41 ≠ 0xF4) ∧
    _fgetc sampleBuild { pio := gPlatform sampleBuild,
                         stdin := cmdHeader ++ sampleBuild.CMD_VERSION :: 0x41 :: [0x42],
                         stdout := "" }
      = .ok (0x41, { pio := headerMatched (gPlatform sampleBuild), stdin := [0x42],
                     stdout := "" ++ "0.0.0\n" })
    ∧ (headerMatched (gPlatform sampleBuild))._cmdLen = 0 :=
  ⟨by decide, C3_confirmed_header_dispatch sampleBuild 0x41 [0x42] "" (by decide) (by decide)
    (by decide) (by decide)⟩

/-- C4 (abort priority at every match position), evaluated where it fails.
From the freshly constructed scanner, with the input holding the first `k`
header bytes (`0 < k < 8`) and then the abort byte `0x03`, `checkCommand`
returns `CMD_UNKNOWN` and has stored `0x03` in `_cmd[k]`: the bytes polled
inside the matching loop are not compared with the abort byte. -/
theorem C4_abort_inside_prefix_not_seen (b : Build) (k : Nat) (hk0 : 0 < k) (hk : k < 8)
    (hcap : k < b.cmdCap) :
    ∃ w, checkCommand b (freshWorld b (cmdHeader.take k ++ [0x03])) = .ok (b.CMD_UNKNOWN, w)
      ∧ w.stdin = [] ∧ w.pio._cmd[k]? = some 0x03 ∧ w.pio._cmdLen = k + 1 := by
  have hne : cmdHeader[k]? ≠ some 0x03 := by
    interval_cases k <;> decide
  obtain ⟨s1, h1, _, hl, _, hxk⟩ := checkCommand_false_start b (gPlatform b) k 0x03 [] ""
    rfl rfl hk0 hk (by decide) hne (by rw [gPlatform_cmd_length]; exact hcap)
  exact ⟨{ pio := s1, stdin := [], stdout := "" }, h1, rfl, hxk, hl⟩

theorem C4_abort_inside_prefix_not_seen_witness :
    (0 < 3 ∧ 3 < 8 ∧ 3 < sampleBuild.cmdCap) ∧
    ∃ w, checkCommand sampleBuild (freshWorld sampleBuild (cmdHeader.take 3 ++ [0x03]))
        = .ok (sampleBuild.CMD_UNKNOWN, w)
      ∧ w.stdin = [] ∧ w.pio._cmd[3]? = some 0x03 ∧ w.pio._cmdLen = 3 + 1 :=
  ⟨by decide, C4_abort_inside_prefix_not_seen sampleBuild 3 (by decide) (by decide)
    (by decide)⟩

/-- C5 (raw abort byte at the start of a poll).  In every state of the
scanner, with any text already written, if the next byte of the input is
`0x03` then `checkCommand` returns `CMD_ABORT`, the input is left without
exactly that byte, `stdout` is unchanged and no member of the scanner is
changed. -/
theorem C5_raw_abort_at_poll_start (b : Build) (s : PlatformIO) (rest : List Nat)
    (out : String) :
    checkCommand b { pio := s, stdin := 0x03 :: rest, stdout := out }
      = .ok (b.CMD_ABORT, { pio := s, stdin := rest, stdout := out }) := by
  apply checkCommand_of_loop b 1
  simp [checkCommandLoop, checkCommandBody, _getchar_timeout_us]

/-- C6 (the abort byte is never delivered as data by `_fgetc`), evaluated
where it fails.  In every state of the scanner with `_unreadCmd` false, if
the next byte of the input is `0x03` then `_fgetc` returns `0x03` as a data
byte: the input is left without exactly that byte, `stdout` is unchanged and
no member of the scanner is changed, so nothing tells the caller of an
abort.  (`checkCommand` returns `CMD_ABORT` on the same byte, line 334.) -/
theorem C6_fgetc_passes_abort_byte (b : Build) (s : PlatformIO) (rest : List Nat)
    (out : String) (hu : s._unreadCmd = false) :
    _fgetc b { pio := s, stdin := 0x03 :: rest, stdout := out }
      = .ok (0x03, { pio := s, stdin := rest, stdout := out }) :=
  fgetc_plain b s 0x03 rest out hu (by decide) (by decide)

theorem C6_fgetc_passes_abort_byte_witness :
    (gPlatform sampleBuild)._unreadCmd = false ∧
    _fgetc sampleBuild { pio := gPlatform sampleBuild, stdin := 0x03 :: [0x41], stdout := "" }
      = .ok (0x03, { pio := gPlatform sampleBuild, stdin := [0x41], stdout := "" }) :=
  ⟨rfl, C6_fgetc_passes_abort_byte sampleBuild (gPlatform sampleBuild) [0x41] "" rfl⟩

/-- From the freshly constructed scanner, with the input holding the single
byte `0x03`, `_fgetc` consumes that byte and returns it as data, while
`checkCommand` on the same input returns `CMD_ABORT`. -/
theorem abort_byte_in_both_scanners :
    _fgetc sampleBuild (freshWorld sampleBuild [0x03])
      = .ok (0x03, freshWorld sampleBuild [])
    ∧ checkCommand sampleBuild (freshWorld sampleBuild [0x03])
      = .ok (sampleBuild.CMD_ABORT, freshWorld sampleBuild []) := by
  decide

/-- C7 (Reset round-trip), evaluated where it fails.  From the freshly
constructed scanner, with the input holding the magic header, the Reset
opcode and the byte `'A'`, two calls of `_fgetc` return `'A'` and then
`(char)EOF`, not `'r'` and `'e'`: `"OK\n"` was written and `_cmd` holds
`reset()\n` with `_cmdLen = 8`, but `_unreadCmd` is still false, so the
injected text is never returned. -/
theorem C7_reset_text_not_returned (b : Build) (hcap : 8 ≤ b.cmdCap)
    (hr : b.CMD_RESET < 256)
    (h1 : b.CMD_RESET ≠ b.CMD_VERSION) (h2 : b.CMD_RESET ≠ b.CMD_PLATFORM)
    (h3 : b.CMD_RESET ≠ b.CMD_BOARD) (h4 : b.CMD_RESET ≠ b.CMD_SERIAL)
    (h5 : b.CMD_RESET ≠ b.CMD_ALIAS) (h6 : b.CMD_RESET ≠ b.CMD_ISEXEC) :
    ∃ w, fgetcN b 2 { pio := gPlatform b, stdin := cmdHeader ++ [b.CMD_RESET, 0x41],
                      stdout := "" } = .ok ([0x41, 0xFF], w)
      ∧ w.stdout = "OK\n" ∧ w.stdin = []
      ∧ w.pio._cmd.take 8 = cstr "reset()\n" ∧ w.pio._cmdLen = 8
      ∧ w.pio._unreadCmd = false := by
  have hc : 8 ≤ (gPlatform b)._cmd.length := by rw [gPlatform_cmd_length]; exact hcap
  have hc2 : 8 ≤ (headerMatched (gPlatform b))._cmd.length := by
    simp only [headerMatched, headerStored_length]; exact hc
  have hfirst : _fgetc b { pio := gPlatform b, stdin := cmdHeader ++ [b.CMD_RESET, 0x41],
                           stdout := "" }
      = .ok (0x41, { pio := resetInjected (headerMatched (gPlatform b)), stdin := [],
                     stdout := "" ++ "OK\n" }) := by
    apply fgetc_of_loop b 2 _ _ (gPlatform_unreadCmd b)
    rw [fgetcLoop, fgetcBody_header b _ _ _ _ hc hr,
      fgetcSwitch_reset b _ _ hc2 h1 h2 h3 h4 h5 h6]
    simp only []
    rw [fgetcLoop, fgetcBody_plain b _ 0x41 [] rfl (by decide) (by decide)]
  have hsecond : _fgetc b { pio := resetInjected (headerMatched (gPlatform b)), stdin := [],
                            stdout := "" ++ "OK\n" }
      = .ok (0xFF, { pio := resetInjected (headerMatched (gPlatform b)), stdin := [],
                     stdout := "" ++ "OK\n" }) := by
    apply fgetc_of_loop b 1 _ _ rfl
    rw [fgetcLoop, fgetcBody_eof b _ rfl]
  refine ⟨{ pio := resetInjected (headerMatched (gPlatform b)), stdin := [],
            stdout := "" ++ "OK\n" }, ?_, ?_, rfl, ?_, rfl, rfl⟩
  · simp only [fgetcN, hfirst, hsecond]
  · rfl
  · have hl : (cstr "reset()\n").length = 8 := by decide
    simp only [resetInjected]
    rw [List.take_append_of_le_length (by rw [hl]), List.take_of_length_le (by rw [hl])]

theorem C7_reset_text_not_returned_witness :
    (8 ≤ sampleBuild.cmdCap ∧ sampleBuild.CMD_RESET < 256) ∧
    ∃ w, fgetcN sampleBuild 2 { pio := gPlatform sampleBuild,
                                stdin := cmdHeader ++ [sampleBuild.CMD_RESET, 0x41],
                                stdout := "" } = .ok ([0x41, 0xFF], w)
      ∧ w.stdout = "OK\n" ∧ w.stdin = []
      ∧ w.pio._cmd.take 8 = cstr "reset()\n" ∧ w.pio._cmdLen = 8
      ∧ w.pio._unreadCmd = false :=
  ⟨by decide, C7_reset_text_not_returned sampleBuild (by decide) (by decide) (by decide)
    (by decide) (by decide) (by decide) (by decide) (by decide)⟩

/-- C8 (dispatch only after a full header), evaluated where it fails.  From
the freshly constructed scanner, with the input holding the magic header,
the Version opcode, and then `0xF4`, `'A'`, the Version opcode and `'B'`,
one call of `_fgetc` returns `'B'` and has written `"0.0.0\n"` twice: the
Version handler ran a second time after the one-byte header prefix `0xF4`
and the mismatching byte `'A'`, because `_readCmd` is still set from the
first command; the bytes `0xF4` and `'A'` are consumed and not returned. -/
theorem C8_dispatch_after_header_prefix (b : Build) (hcap : 8 ≤ b.cmdCap)
    (hv : b.CMD_VERSION < 256) :
    ∃ s, _fgetc b { pio := gPlatform b,
                    stdin := cmdHeader ++ [b.CMD_VERSION, 0xF4, 0x41, b.CMD_VERSION, 0x42],
                    stdout := "" }
      = .ok (0x42, { pio := s, stdin := [], stdout := "0.0.0\n0.0.0\n" }) := by
  have hc : 8 ≤ (gPlatform b)._cmd.length := by rw [gPlatform_cmd_length]; exact hcap
  have hc2 : 1 ≤ (headerMatched (gPlatform b))._cmd.length := by
    simp only [headerMatched, headerStored_length]; omega
  apply Exists.intro
  apply fgetc_of_loop b 3 _ _ (gPlatform_unreadCmd b)
  rw [fgetcLoop, fgetcBody_header b _ _ _ _ hc hv, fgetcSwitch_version]
  simp only []
  rw [fgetcLoop, fgetcBody_stale_readCmd b _ 0x41 _ _ _ hc2 rfl (by decide) (by decide) hv,
    fgetcSwitch_version]
  simp only []
  rw [fgetcLoop, fgetcBody_plain b _ 0x42 [] rfl (by decide) (by decide)]
  rfl

theorem C8_dispatch_after_header_prefix_witness :
    (8 ≤ sampleBuild.cmdCap ∧ sampleBuild.CMD_VERSION < 256) ∧
    ∃ s, _fgetc sampleBuild { pio := gPlatform sampleBuild,
                              stdin := cmdHeader ++ [sampleBuild.CMD_VERSION, 0xF4, 0x41,
                                sampleBuild.CMD_VERSION, 0x42],
                              stdout := "" }
      = .ok (0x42, { pio := s, stdin := [], stdout := "0.0.0\n0.0.0\n" }) :=
  ⟨by decide, C8_dispatch_after_header_prefix sampleBuild (by decide) (by decide)⟩

/-- C9 (bound of the match buffer), evaluated where it fails.  From the
freshly constructed scanner, `n` polls of `checkCommand` on an input of `n`
bytes `'A'` all return `CMD_UNKNOWN` and leave `_cmdLen = n`, for every `n`
up to the declared length of `_cmd` (and up to 127, so that the counter
holds `n` whatever its type): nine such polls give `_cmdLen = 9`, above the
header length 8. -/
theorem C9_cmdLen_grows_past_header (b : Build) (n : Nat) (hn : n ≤ b.cmdCap)
    (_hw : n ≤ 127) :
    ∃ w, checkCommandN b n (freshWorld b (List.replicate n 0x41))
        = .ok (List.replicate n b.CMD_UNKNOWN, w)
      ∧ w.pio._cmdLen = n := by
  obtain ⟨s1, h1, h2⟩ := checkCommandN_plain b n (gPlatform b) [] ""
    (by rw [gPlatform_cmd_length]; simp only [gPlatform, PlatformIO.ctor]; omega)
  refine ⟨{ pio := s1, stdin := [], stdout := "" }, ?_, ?_⟩
  · simpa only [List.append_nil] using h1
  · simpa only [gPlatform, PlatformIO.ctor, Nat.zero_add] using h2

theorem C9_cmdLen_grows_past_header_witness :
    (9 ≤ sampleBuild.cmdCap ∧ 9 ≤ 127) ∧
    ∃ w, checkCommandN sampleBuild 9 (freshWorld sampleBuild (List.replicate 9 0x41))
        = .ok (List.replicate 9 sampleBuild.CMD_UNKNOWN, w)
      ∧ w.pio._cmdLen = 9 :=
  ⟨by decide, C9_cmdLen_grows_past_header sampleBuild 9 (by decide) (by decide)⟩

/-- C10 (unknown opcodes are ignored).  From the freshly constructed
scanner, with the input holding the magic header, an opcode byte that is
none of the nine case labels, a byte `x` other than `0xF4` and then
anything, one call of `_fgetc` returns `x`, leaves exactly what followed `x`
in the input and leaves `stdout` as it was; afterwards `_cmdLen = 0` and
`_unreadCmd` is false, so nothing is injected. -/
theorem C10_unknown_opcode_ignored (b : Build) (op x : Nat) (rest : List Nat) (out : String)
    (hcap : 8 ≤ b.cmdCap) (hop : op < 256) (hx : x < 256) (hne : x ≠ 0xF4)
    (h1 : op ≠ b.CMD_VERSION) (h2 : op ≠ b.CMD_PLATFORM) (h3 : op ≠ b.CMD_BOARD)
    (h4 : op ≠ b.CMD_SERIAL) (h5 : op ≠ b.CMD_ALIAS) (h6 : op ≠ b.CMD_ISEXEC)
    (h7 : op ≠ b.CMD_RESET) (h8 : op ≠ b.CMD_ABORT) (h9 : op ≠ b.CMD_RUNMAIN) :
    _fgetc b { pio := gPlatform b, stdin := cmdHeader ++ op :: x :: rest, stdout := out }
      = .ok (x, { pio := headerMatched (gPlatform b), stdin := rest, stdout := out })
    ∧ (headerMatched (gPlatform b))._cmdLen = 0
    ∧ (headerMatched (gPlatform b))._unreadCmd = false := by
  refine ⟨?_, rfl, rfl⟩
  apply fgetc_of_loop b 2 _ _ (gPlatform_unreadCmd b)
  have hc : 8 ≤ (gPlatform b)._cmd.length := by rw [gPlatform_cmd_length]; exact hcap
  rw [fgetcLoop, fgetcBody_header b _ _ _ _ hc hop,
    fgetcSwitch_unknown b op _ _ h1 h2 h3 h4 h5 h6 h7 h8 h9]
  simp only []
  rw [fgetcLoop, fgetcBody_plain b _ x rest rfl hx hne]

theorem C10_unknown_opcode_ignored_witness :
    (8 ≤ sampleBuild.cmdCap ∧ 0x7E < 256 ∧ 0x41 < 256 ∧ 0x41 ≠ 0xF4) ∧
    _fgetc sampleBuild { pio := gPlatform sampleBuild,
                         stdin := cmdHeader ++ 0x7E :: 0x41 :: [0x42], stdout := "" }
      = .ok (0x41, { pio := headerMatched (gPlatform sampleBuild), stdin := [0x42],
                     stdout := "" })
    ∧ (headerMatched (gPlatform sampleBuild))._cmdLen = 0
    ∧ (headerMatched (gPlatform sampleBuild))._unreadCmd = false :=
  ⟨by decide, C10_unknown_opcode_ignored sampleBuild 0x7E 0x41 [0x42] "" (by decide)
    (by decide) (by decide) (by decide) (by decide) (by decide) (by decide) (by decide)
    (by decide) (by decide) (by decide) (by decide) (by decide)⟩

/-- C11 (pure query handlers).  For each of the opcodes Version, Platform,
Board, Alias and IsExec with its text (`0.0.0`, the platform name, the board
name, `MyPico`, `F`), in a well-formed build and from any scanner whose
`_cmd` has at least eight elements: `_fgetc`, on the magic header, the
opcode and a byte `x` other than `0xF4`, returns `x` having appended exactly
the text and a newline to `stdout`; `checkCommand` (entered with
`_cmdLen = 0`), on the magic header and the opcode, returns `CMD_UNKNOWN`
having appended exactly the same; in both the scanner is left as the header
match left it, with `_cmdLen = 0`. -/
theorem C11_query_handlers (b : Build) (hwf : b.WellFormed) (s : PlatformIO) (op : Nat)
    (txt : String) (x : Nat) (rest : List Nat) (out : String)
    (hq : (op, txt) ∈ queryReplies b) (hcap : 8 ≤ s._cmd.length)
    (hu : s._unreadCmd = false) (hl : s._cmdLen = 0) (hx : x < 256) (hne : x ≠ 0xF4) :
    _fgetc b { pio := s, stdin := cmdHeader ++ op :: x :: rest, stdout := out }
      = .ok (x, { pio := headerMatched s, stdin := rest, stdout := out ++ txt ++ "\n" })
    ∧ checkCommand b { pio := s, stdin := cmdHeader ++ [op], stdout := out }
      = .ok (b.CMD_UNKNOWN,
          { pio := headerMatched s, stdin := [], stdout := out ++ txt ++ "\n" })
    ∧ (headerMatched s)._cmdLen = 0 := by
  have hf := wellFormed_facts b hwf
  have hop : op < 256 := by
    simp only [queryReplies, List.mem_cons, Prod.mk.injEq, List.mem_singleton,
      List.not_mem_nil, or_false] at hq
    rcases hq with ⟨rfl, _⟩ | ⟨rfl, _⟩ | ⟨rfl, _⟩ | ⟨rfl, _⟩ | ⟨rfl, _⟩ <;> simp [hf]
  refine ⟨?_, ?_, rfl⟩
  · apply fgetc_of_loop b 2 _ _ hu
    rw [fgetcLoop, fgetcBody_header b _ _ _ _ hcap hop, fgetcSwitch_query b hwf _ _ op txt hq]
    simp only []
    rw [fgetcLoop, fgetcBody_plain b _ x rest rfl hx hne]
  · apply checkCommand_of_loop b 2
    rw [checkCommandLoop, checkCommandBody_header b _ _ _ _ hcap hl hop,
      checkCommandSwitch_query b hwf _ _ op txt hq]
    simp only []
    simp [checkCommandLoop, checkCommandBody, _getchar_timeout_us]

theorem C11_query_handlers_witness :
    (sampleBuild.WellFormed ∧ (sampleBuild.CMD_BOARD, "none") ∈ queryReplies sampleBuild
      ∧ 8 ≤ (gPlatform sampleBuild)._cmd.length) ∧
    (_fgetc sampleBuild { pio := gPlatform sampleBuild,
                          stdin := cmdHeader ++ sampleBuild.CMD_BOARD :: 0x41 :: [0x42],
                          stdout := "" }
      = .ok (0x41, { pio := headerMatched (gPlatform sampleBuild), stdin := [0x42],
                     stdout := "" ++ "none" ++ "\n" })
    ∧ checkCommand sampleBuild { pio := gPlatform sampleBuild,
                                 stdin := cmdHeader ++ [sampleBuild.CMD_BOARD], stdout := "" }
      = .ok (sampleBuild.CMD_UNKNOWN,
          { pio := headerMatched (gPlatform sampleBuild), stdin := [],
            stdout := "" ++ "none" ++ "\n" })
    ∧ (headerMatched (gPlatform sampleBuild))._cmdLen = 0) :=
  ⟨by decide, C11_query_handlers sampleBuild (by decide) (gPlatform sampleBuild)
    sampleBuild.CMD_BOARD "none" 0x41 [0x42] "" (by decide) (by decide) rfl rfl (by decide)
    (by decide)⟩

/-- C12 (Abort opcode in the blocking scanner).  In a well-formed build,
from the freshly constructed scanner, with the input holding the magic
header, the Abort opcode, a byte `x` other than `0xF4` and then anything,
one call of `_fgetc` appends `"FAIL\n"` to `stdout`, goes on to consume `x`
and returns `x`. -/
theorem C12_abort_opcode_blocking (b : Build) (hwf : b.WellFormed) (x : Nat)
    (rest : List Nat) (out : String) (hcap : 8 ≤ b.cmdCap) (hx : x < 256) (hne : x ≠ 0xF4) :
    _fgetc b { pio := gPlatform b, stdin := cmdHeader ++ b.CMD_ABORT :: x :: rest,
               stdout := out }
      = .ok (x, { pio := headerMatched (gPlatform b), stdin := rest,
                  stdout := out ++ "FAIL\n" }) := by
  have hf := wellFormed_facts b hwf
  have hc : 8 ≤ (gPlatform b)._cmd.length := by rw [gPlatform_cmd_length]; exact hcap
  apply fgetc_of_loop b 2 _ _ (gPlatform_unreadCmd b)
  rw [fgetcLoop, fgetcBody_header b _ _ _ _ hc (by simp [hf]), fgetcSwitch_abort b hwf]
  simp only []
  rw [fgetcLoop, fgetcBody_plain b _ x rest rfl hx hne]

theorem C12_abort_opcode_blocking_witness :
    (sampleBuild.WellFormed ∧ 8 ≤ sampleBuild.cmdCap ∧ 0x41 < 256 ∧ 0x41 ≠ 0xF4) ∧
    _fgetc sampleBuild { pio := gPlatform sampleBuild,
                         stdin := cmdHeader ++ sampleBuild.CMD_ABORT :: 0x41 :: [0x42],
                         stdout := "" }
      = .ok (0x41, { pio := headerMatched (gPlatform sampleBuild), stdin := [0x42],
                     stdout := "" ++ "FAIL\n" }) :=
  ⟨by decide, C12_abort_opcode_blocking sampleBuild (by decide) 0x41 [0x42] "" (by decide)
    (by decide) (by decide)⟩

/-- C13 (the two entry points disagree on the Abort opcode).  In a
well-formed build, from the same freshly constructed scanner and on the
same input (the magic header, the Abort opcode and a byte `x` other than
`0xF4`): `checkCommand` returns `CMD_ABORT`, the code it returns for the raw
byte `0x03`, with nothing written and `x` still in the input; `_fgetc`
writes `"FAIL\n"`, consumes `x` and returns it. -/
theorem C13_entry_points_disagree (b : Build) (hwf : b.WellFormed) (x : Nat)
    (hcap : 8 ≤ b.cmdCap) (hx : x < 256) (hne : x ≠ 0xF4) :
    checkCommand b (freshWorld b (cmdHeader ++ [b.CMD_ABORT, x]))
      = .ok (b.CMD_ABORT, { pio := headerMatched (gPlatform b), stdin := [x], stdout := "" })
    ∧ checkCommand b (freshWorld b [0x03, x])
      = .ok (b.CMD_ABORT, freshWorld b [x])
    ∧ _fgetc b (freshWorld b (cmdHeader ++ [b.CMD_ABORT, x]))
      = .ok (x, { pio := headerMatched (gPlatform b), stdin := [], stdout := "FAIL\n" }) := by
  have hf := wellFormed_facts b hwf
  have hc : 8 ≤ (gPlatform b)._cmd.length := by rw [gPlatform_cmd_length]; exact hcap
  have ha : b.CMD_ABORT < 256 := by simp [hf]
  refine ⟨?_, ?_, ?_⟩
  · apply checkCommand_of_loop b 1
    rw [freshWorld, checkCommandLoop, checkCommandBody_header b _ _ _ _ hc rfl ha,
      checkCommandSwitch_abort b hwf]
  · apply checkCommand_of_loop b 1
    simp [freshWorld, checkCommandLoop, checkCommandBody, _getchar_timeout_us]
  · apply fgetc_of_loop b 2 _ _ (gPlatform_unreadCmd b)
    rw [freshWorld, fgetcLoop, fgetcBody_header b _ _ _ _ hc ha, fgetcSwitch_abort b hwf]
    simp only []
    rw [fgetcLoop, fgetcBody_plain b _ x [] rfl hx hne]
    rfl

theorem C13_entry_points_disagree_witness :
    (sampleBuild.WellFormed ∧ 8 ≤ sampleBuild.cmdCap ∧ 0x41 < 256 ∧ 0x41 ≠ 0xF4) ∧
    (checkCommand sampleBuild (freshWorld sampleBuild (cmdHeader ++ [sampleBuild.CMD_ABORT, 0x41]))
      = .ok (sampleBuild.CMD_ABORT,
          { pio := headerMatched (gPlatform sampleBuild), stdin := [0x41], stdout := "" })
    ∧ checkCommand sampleBuild (freshWorld sampleBuild [0x03, 0x41])
      = .ok (sampleBuild.CMD_ABORT, freshWorld sampleBuild [0x41])
    ∧ _fgetc sampleBuild (freshWorld sampleBuild (cmdHeader ++ [sampleBuild.CMD_ABORT, 0x41]))
      = .ok (0x41,
          { pio := headerMatched (gPlatform sampleBuild), stdin := [], stdout := "FAIL\n" })) :=
  ⟨by decide, C13_entry_points_disagree sampleBuild (by decide) 0x41 (by decide) (by decide)
    (by decide)⟩

/-- C14 as stated fails: from the freshly constructed scanner, with the
input holding `0xF4`, the magic header, the Version opcode and `'A'`, six
calls of `_fgetc` return `0xF4, 0xF5, 0xF4, 0x00`, the opcode byte and `'A'`
and use up the input, and nothing has been written to `stdout`: the Version
handler has not run. -/
theorem C14_header_after_false_start_not_seen :
    ∃ w, fgetcN sampleBuild 6
          (freshWorld sampleBuild (0xF4 :: cmdHeader ++ [sampleBuild.CMD_VERSION, 0x41]))
        = .ok ([0xF4, 0xF5, 0xF4, 0x00, sampleBuild.CMD_VERSION, 0x41], w)
      ∧ w.stdin = [] ∧ w.stdout = "" :=
  ⟨_, rfl, rfl, rfl⟩

/-- C14 (amended).  A header that directly follows a false start is not
recognised.  From the freshly constructed scanner, with the input holding
`0xF4`, the magic header, the Version opcode (a byte other than `0xF4`) and
a byte `x` other than `0xF4`: the first call of `_fgetc` takes the first
byte of the header as the byte that ends the false start, returns `0xF4`
and leaves the other seven header bytes in the input; six calls use up the
input, the last two returning the opcode byte and `x` as data; nothing is
written to `stdout` by them or by any later call, so the Version handler
never runs. -/
theorem C14_header_after_false_start (b : Build) (x : Nat) (hcap : 5 ≤ b.cmdCap)
    (hv : b.CMD_VERSION < 256) (hv4 : b.CMD_VERSION ≠ 0xF4) (hx : x < 256) (hne : x ≠ 0xF4) :
    ∃ s1 w,
      _fgetc b (freshWorld b (0xF4 :: cmdHeader ++ [b.CMD_VERSION, x]))
        = .ok (0xF4, { pio := s1, stdin := cmdHeader.drop 1 ++ [b.CMD_VERSION, x],
                       stdout := "" })
      ∧ fgetcN b 6 (freshWorld b (0xF4 :: cmdHeader ++ [b.CMD_VERSION, x]))
        = .ok ([0xF4, 0xF5, 0xF4, 0x00, b.CMD_VERSION, x], w)
      ∧ w.stdin = [] ∧ w.stdout = ""
      ∧ ∀ n, fgetcN b n w = .ok (List.replicate n 0xFF, w) := by
  have hc : 5 ≤ (gPlatform b)._cmd.length := by rw [gPlatform_cmd_length]; exact hcap
  obtain ⟨s1, h1, hu1, hr1, _, hl1⟩ := fgetc_false_start_state b (gPlatform b) 1 0xF4
    (0xF5 :: 0xF4 :: 0xF5 :: 0xF4 :: 0xF5 :: 0x00 :: 0x00 :: [b.CMD_VERSION, x]) ""
    rfl rfl (by decide) (by decide) (by decide) (by decide) (by omega)
  have h2 := fgetc_plain b s1 0xF5 (0xF4 :: 0xF5 :: 0xF4 :: 0xF5 :: 0x00 :: 0x00
    :: [b.CMD_VERSION, x]) "" hu1 (by decide) (by decide)
  obtain ⟨s3, h3, hu3, _, _, _⟩ := fgetc_false_start_state b s1 4 0x00
    (0x00 :: [b.CMD_VERSION, x]) "" hu1 hr1 (by decide) (by decide) (by decide) (by decide)
    (by omega)
  have h4 := fgetc_plain b s3 0x00 [b.CMD_VERSION, x] "" hu3 (by decide) (by decide)
  have h5 := fgetc_plain b s3 b.CMD_VERSION [x] "" hu3 hv hv4
  have h6 := fgetc_plain b s3 x [] "" hu3 hx hne
  have h1' : _fgetc b (freshWorld b (0xF4 :: cmdHeader ++ [b.CMD_VERSION, x]))
      = .ok (0xF4, { pio := s1, stdin := 0xF5 :: 0xF4 :: 0xF5 :: 0xF4 :: 0xF5 :: 0x00 :: 0x00
                       :: [b.CMD_VERSION, x], stdout := "" }) := h1
  have h3' : _fgetc b { pio := s1, stdin := 0xF4 :: 0xF5 :: 0xF4 :: 0xF5 :: 0x00 :: 0x00
                       :: [b.CMD_VERSION, x], stdout := "" }
      = .ok (0xF4, { pio := s3, stdin := 0x00 :: [b.CMD_VERSION, x], stdout := "" }) := h3
  refine ⟨s1, { pio := s3, stdin := [], stdout := "" }, h1', ?_, rfl, rfl, ?_⟩
  · simp only [fgetcN, h1', h2, h3', h4, h5, h6]
  · intro n
    exact fgetcN_eof b n _ hu3 rfl

theorem C14_header_after_false_start_witness :
    (5 ≤ sampleBuild.cmdCap ∧ sampleBuild.CMD_VERSION < 256 ∧ sampleBuild.CMD_VERSION ≠ 0xF4
      ∧ 0x41 < 256 ∧ 0x41 ≠ 0xF4) ∧
    ∃ s1 w,
      _fgetc sampleBuild (freshWorld sampleBuild (0xF4 :: cmdHeader ++ [sampleBuild.CMD_VERSION, 0x41]))
        = .ok (0xF4, { pio := s1, stdin := cmdHeader.drop 1 ++ [sampleBuild.CMD_VERSION, 0x41],
                       stdout := "" })
      ∧ fgetcN sampleBuild 6
          (freshWorld sampleBuild (0xF4 :: cmdHeader ++ [sampleBuild.CMD_VERSION, 0x41]))
        = .ok ([0xF4, 0xF5, 0xF4, 0x00, sampleBuild.CMD_VERSION, 0x41], w)
      ∧ w.stdin = [] ∧ w.stdout = ""
      ∧ ∀ n, fgetcN sampleBuild n w = .ok (List.replicate n 0xFF, w) :=
  ⟨by decide, C14_header_after_false_start sampleBuild 0x41 (by decide) (by decide)
    (by decide) (by decide) (by decide)⟩

/-- C15 (fast path of `_fgetc`).  In every state of the scanner with
`_unreadCmd` false, if the next byte `x` of the input is not `0xF4` then
`_fgetc` returns `x`, the input is left without exactly that byte, `stdout`
is unchanged and no member of the scanner is changed; and on an input
without any byte `0xF4`, as many calls as there are bytes return the input
in order. -/
theorem C15_fast_path (b : Build) (s : PlatformIO) (x : Nat) (rest input : List Nat)
    (out : String) (hu : s._unreadCmd = false) (hx : x < 256) (hne : x ≠ 0xF4)
    (hin : ∀ y ∈ input, y < 256 ∧ y ≠ 0xF4) :
    _fgetc b { pio := s, stdin := x :: rest, stdout := out }
      = .ok (x, { pio := s, stdin := rest, stdout := out })
    ∧ fgetcN b input.length { pio := s, stdin := input, stdout := out }
      = .ok (input, { pio := s, stdin := [], stdout := out }) := by
  refine ⟨fgetc_plain b s x rest out hu hx hne, ?_⟩
  have h := fgetcN_plain b s input [] out hu hin
  rwa [List.append_nil] at h

theorem C15_fast_path_witness :
    ((gPlatform sampleBuild)._unreadCmd = false ∧ 0x41 < 256 ∧ 0x41 ≠ 0xF4
      ∧ ∀ y ∈ [0x68, 0x69, 0x0A], y < 256 ∧ y ≠ 0xF4) ∧
    (_fgetc sampleBuild { pio := gPlatform sampleBuild, stdin := 0x41 :: [0x42], stdout := "" }
      = .ok (0x41, { pio := gPlatform sampleBuild, stdin := [0x42], stdout := "" })
    ∧ fgetcN sampleBuild [0x68, 0x69, 0x0A].length
        { pio := gPlatform sampleBuild, stdin := [0x68, 0x69, 0x0A], stdout := "" }
      = .ok ([0x68, 0x69, 0x0A], { pio := gPlatform sampleBuild, stdin := [], stdout := "" })) :=
  ⟨by decide, C15_fast_path sampleBuild (gPlatform sampleBuild) 0x41 [0x42] [0x68, 0x69, 0x0A]
    "" rfl (by decide) (by decide) (by decide)⟩

/-- C16 (replay step of `_fgetc`).  In every state of the scanner with
`_unreadCmd` true and `_unreadI < _cmdLen`, the elements up to `_cmdLen`
lying inside the array `_cmd`: for every `m` up to `_cmdLen - _unreadI`, the
first `m` calls of `_fgetc` return `_cmd[_unreadI]`, ...,
`_cmd[_unreadI + m - 1]` in that order and leave the input and `stdout` as
they were; `_unreadCmd` is still true while `m < _cmdLen - _unreadI` and is
false after the last of the `_cmdLen - _unreadI` calls. -/
theorem C16_replay_step (b : Build) (s : PlatformIO) (src : List Nat) (out : String)
    (m : Nat) (hu : s._unreadCmd = true) (hlt : s._unreadI < s._cmdLen)
    (hcap : s._cmdLen ≤ s._cmd.length) (hm : m ≤ s._cmdLen - s._unreadI) :
    fgetcN b m { pio := s, stdin := src, stdout := out }
      = .ok ((s._cmd.drop s._unreadI).take m,
          { pio := { s with _unreadI := s._unreadI + m,
                            _unreadCmd := decide (m < s._cmdLen - s._unreadI) },
            stdin := src, stdout := out }) := by
  have h := fgetcN_replay b m s src out hu (by omega) hcap
  have e : decide (m = 0 ∨ s._unreadI + m ≠ s._cmdLen) = decide (m < s._cmdLen - s._unreadI) := by
    apply decide_eq_decide.mpr
    omega
  rw [h, e]

theorem C16_replay_step_witness :
    (true = true ∧ 1 < 4 ∧ 4 ≤ [0xF4, 0xF5, 0xF4, 0x41].length ∧ 3 ≤ 4 - 1) ∧
    fgetcN sampleBuild 3
        { pio := { _cmd := [0xF4, 0xF5, 0xF4, 0x41], _cmdLen := 4, _cmdMatch := 0,
                   _readCmd := false, _unreadI := 1, _unreadCmd := true },
          stdin := [0x42], stdout := "" }
      = .ok (([0xF4, 0xF5, 0xF4, 0x41].drop 1).take 3,
          { pio := { _cmd := [0xF4, 0xF5, 0xF4, 0x41], _cmdLen := 4, _cmdMatch := 0,
                     _readCmd := false, _unreadI := 1 + 3,
                     _unreadCmd := decide (3 < 4 - 1) },
            stdin := [0x42], stdout := "" }) :=
  ⟨by decide, C16_replay_step sampleBuild
    { _cmd := [0xF4, 0xF5, 0xF4, 0x41], _cmdLen := 4, _cmdMatch := 0,
      _readCmd := false, _unreadI := 1, _unreadCmd := true }
    [0x42] "" 3 rfl (by decide) (by decide) (by decide)⟩

/-- C17 (injected bytes of Reset and RunMain).  In a well-formed build and
from any scanner whose `_cmd` has at least eight elements: after the magic
header and the Reset opcode, both `_fgetc` (which then returns the next byte
`x`, other than `0xF4`) and `checkCommand` (entered with `_cmdLen = 0`, and
returning `CMD_UNKNOWN` at the end of the input) have appended `"OK\n"` to
`stdout` and leave `_cmd` holding `reset()\n` in its first eight elements
with `_cmdLen = 8`; after the RunMain opcode, they have appended `"OK\n"`
and leave `run()\n` in the first six elements with `_cmdLen = 6`. -/
theorem C17_injected_bytes (b : Build) (hwf : b.WellFormed) (s : PlatformIO) (x : Nat)
    (rest : List Nat) (out : String) (hcap : 8 ≤ s._cmd.length)
    (hu : s._unreadCmd = false) (hl : s._cmdLen = 0) (hx : x < 256) (hne : x ≠ 0xF4) :
    (_fgetc b { pio := s, stdin := cmdHeader ++ b.CMD_RESET :: x :: rest, stdout := out }
        = .ok (x, { pio := resetInjected (headerMatched s), stdin := rest,
                    stdout := out ++ "OK\n" })
      ∧ checkCommand b { pio := s, stdin := cmdHeader ++ [b.CMD_RESET], stdout := out }
        = .ok (b.CMD_UNKNOWN, { pio := resetInjected (headerMatched s), stdin := [],
                                stdout := out ++ "OK\n" })
      ∧ (resetInjected (headerMatched s))._cmd.take 8 = cstr "reset()\n"
      ∧ (resetInjected (headerMatched s))._cmdLen = 8)
    ∧ (_fgetc b { pio := s, stdin := cmdHeader ++ b.CMD_RUNMAIN :: x :: rest, stdout := out }
        = .ok (x, { pio := runInjected (headerMatched s), stdin := rest,
                    stdout := out ++ "OK\n" })
      ∧ checkCommand b { pio := s, stdin := cmdHeader ++ [b.CMD_RUNMAIN], stdout := out }
        = .ok (b.CMD_UNKNOWN, { pio := runInjected (headerMatched s), stdin := [],
                                stdout := out ++ "OK\n" })
      ∧ (runInjected (headerMatched s))._cmd.take 6 = cstr "run()\n"
      ∧ (runInjected (headerMatched s))._cmdLen = 6) := by
  have hf := wellFormed_facts b hwf
  have hc2 : 8 ≤ (headerMatched s)._cmd.length := by
    simp only [headerMatched, headerStored_length]; exact hcap
  have hsw := fgetcSwitch_inject b hwf (headerMatched s) out hc2
  have hcw := checkCommandSwitch_inject b hwf (headerMatched s) out hc2
  have hr : b.CMD_RESET < 256 := by simp [hf]
  have hm : b.CMD_RUNMAIN < 256 := by simp [hf]
  refine ⟨⟨?_, ?_, ?_, rfl⟩, ⟨?_, ?_, ?_, rfl⟩⟩
  · apply fgetc_of_loop b 2 _ _ hu
    rw [fgetcLoop, fgetcBody_header b _ _ _ _ hcap hr, hsw.1]
    simp only []
    rw [fgetcLoop, fgetcBody_plain b _ x rest rfl hx hne]
  · apply checkCommand_of_loop b 2
    rw [checkCommandLoop, checkCommandBody_header b _ _ _ _ hcap hl hr, hcw.1]
    simp only []
    simp [checkCommandLoop, checkCommandBody, _getchar_timeout_us]
  · simp only [resetInjected]
    rw [List.take_append_of_le_length (by rw [cstr_reset_length]),
      List.take_of_length_le (by rw [cstr_reset_length])]
  · apply fgetc_of_loop b 2 _ _ hu
    rw [fgetcLoop, fgetcBody_header b _ _ _ _ hcap hm, hsw.2]
    simp only []
    rw [fgetcLoop, fgetcBody_plain b _ x rest rfl hx hne]
  · apply checkCommand_of_loop b 2
    rw [checkCommandLoop, checkCommandBody_header b _ _ _ _ hcap hl hm, hcw.2]
    simp only []
    simp [checkCommandLoop, checkCommandBody, _getchar_timeout_us]
  · simp only [runInjected]
    rw [List.take_append_of_le_length (by rw [cstr_run_length]),
      List.take_of_length_le (by rw [cstr_run_length])]

theorem C17_injected_bytes_witness :
    (sampleBuild.WellFormed ∧ 8 ≤ (gPlatform sampleBuild)._cmd.length ∧ 0x41 < 256
      ∧ 0x41 ≠ 0xF4) ∧
    ((_fgetc sampleBuild { pio := gPlatform sampleBuild,
                           stdin := cmdHeader ++ sampleBuild.CMD_RESET :: 0x41 :: [],
                           stdout := "" }
        = .ok (0x41, { pio := resetInjected (headerMatched (gPlatform sampleBuild)),
                       stdin := [], stdout := "" ++ "OK\n" })
      ∧ checkCommand sampleBuild { pio := gPlatform sampleBuild,
                                   stdin := cmdHeader ++ [sampleBuild.CMD_RESET],
                                   stdout := "" }
        = .ok (sampleBuild.CMD_UNKNOWN,
            { pio := resetInjected (headerMatched (gPlatform sampleBuild)), stdin := [],
              stdout := "" ++ "OK\n" })
      ∧ (resetInjected (headerMatched (gPlatform sampleBuild)))._cmd.take 8 = cstr "reset()\n"
      ∧ (resetInjected (headerMatched (gPlatform sampleBuild)))._cmdLen = 8)
    ∧ (_fgetc sampleBuild { pio := gPlatform sampleBuild,
                            stdin := cmdHeader ++ sampleBuild.CMD_RUNMAIN :: 0x41 :: [],
                            stdout := "" }
        = .ok (0x41, { pio := runInjected (headerMatched (gPlatform sampleBuild)),
                       stdin := [], stdout := "" ++ "OK\n" })
      ∧ checkCommand sampleBuild { pio := gPlatform sampleBuild,
                                   stdin := cmdHeader ++ [sampleBuild.CMD_RUNMAIN],
                                   stdout := "" }
        = .ok (sampleBuild.CMD_UNKNOWN,
            { pio := runInjected (headerMatched (gPlatform sampleBuild)), stdin := [],
              stdout := "" ++ "OK\n" })
      ∧ (runInjected (headerMatched (gPlatform sampleBuild)))._cmd.take 6 = cstr "run()\n"
      ∧ (runInjected (headerMatched (gPlatform sampleBuild)))._cmdLen = 6)) :=
  ⟨by decide, C17_injected_bytes sampleBuild (by decide) (gPlatform sampleBuild) 0x41 [] ""
    (by decide) rfl rfl (by decide) (by decide)⟩

/-- C18 (partial-match state across source exhaustion), evaluated where it
fails.  For `k` = 5, 6 or 7: from the freshly constructed scanner, a poll of
`checkCommand` on the first `k` header bytes returns `CMD_UNKNOWN` with
`_cmdLen = k`; when the input then holds the remaining header bytes and the
Version opcode, each later poll takes one byte by the shortcut of lines
339-344 (none of them is `0xF4`), so `9 - k` polls use up the input with
`_cmdLen = 9`, `_readCmd` false and nothing written to `stdout`, and no
later poll changes that: the Version handler never runs. -/
theorem C18_resume_after_exhaustion_fails (b : Build) (k : Nat) (hk5 : 5 ≤ k) (hk : k < 8)
    (hcap : 9 ≤ b.cmdCap) (hv : b.CMD_VERSION < 256) (hv3 : b.CMD_VERSION ≠ 0x03)
    (hv4 : b.CMD_VERSION ≠ 0xF4) :
    ∃ s1 w,
      checkCommand b (freshWorld b (cmdHeader.take k))
        = .ok (b.CMD_UNKNOWN, { pio := s1, stdin := [], stdout := "" })
      ∧ s1._cmdLen = k
      ∧ checkCommandN b (9 - k)
          { pio := s1, stdin := cmdHeader.drop k ++ [b.CMD_VERSION], stdout := "" }
        = .ok (List.replicate (9 - k) b.CMD_UNKNOWN, w)
      ∧ w.stdin = [] ∧ w.stdout = "" ∧ w.pio._cmdLen = 9 ∧ w.pio._readCmd = false
      ∧ ∀ n, checkCommandN b n w = .ok (List.replicate n b.CMD_UNKNOWN, w) := by
  have hc : 9 ≤ (gPlatform b)._cmd.length := by rw [gPlatform_cmd_length]; exact hcap
  obtain ⟨s1, h1, hl1, hlen1, hr1, _⟩ := checkCommand_partial b (gPlatform b) k "" rfl
    (by omega) hk (by omega)
  have hys : ∀ y ∈ cmdHeader.drop k ++ [b.CMD_VERSION], y < 256 ∧ y ≠ 0x03 ∧ y ≠ 0xF4 := by
    interval_cases k <;>
    · simp only [cmdHeader, List.drop_succ_cons, List.drop_zero, List.cons_append,
        List.nil_append, List.mem_cons, List.mem_singleton, List.not_mem_nil, or_false,
        forall_eq_or_imp, forall_eq]
      omega
  have hlen : (cmdHeader.drop k ++ [b.CMD_VERSION]).length = 9 - k := by
    simp only [List.length_append, List.length_drop, cmdHeader, List.length_cons,
      List.length_nil]
    omega
  obtain ⟨s2, h2, hl2, hr2⟩ := checkCommandN_plain_list b (cmdHeader.drop k ++ [b.CMD_VERSION])
    s1 [] "" hys (by rw [hlen, hl1, hlen1]; omega)
  rw [hlen, List.append_nil] at h2
  refine ⟨s1, { pio := s2, stdin := [], stdout := "" }, h1, hl1, h2, rfl, rfl, ?_, ?_, ?_⟩
  · rw [hl2, hlen, hl1]; omega
  · rw [hr2, hr1]; rfl
  · intro n
    exact checkCommandN_empty b n s2 ""

theorem C18_resume_after_exhaustion_fails_witness :
    (5 ≤ 5 ∧ 5 < 8 ∧ 9 ≤ sampleBuild.cmdCap ∧ sampleBuild.CMD_VERSION < 256
      ∧ sampleBuild.CMD_VERSION ≠ 0x03 ∧ sampleBuild.CMD_VERSION ≠ 0xF4) ∧
    ∃ s1 w,
      checkCommand sampleBuild (freshWorld sampleBuild (cmdHeader.take 5))
        = .ok (sampleBuild.CMD_UNKNOWN, { pio := s1, stdin := [], stdout := "" })
      ∧ s1._cmdLen = 5
      ∧ checkCommandN sampleBuild (9 - 5)
          { pio := s1, stdin := cmdHeader.drop 5 ++ [sampleBuild.CMD_VERSION], stdout := "" }
        = .ok (List.replicate (9 - 5) sampleBuild.CMD_UNKNOWN, w)
      ∧ w.stdin = [] ∧ w.stdout = "" ∧ w.pio._cmdLen = 9 ∧ w.pio._readCmd = false
      ∧ ∀ n, checkCommandN sampleBuild n w
          = .ok (List.replicate n sampleBuild.CMD_UNKNOWN, w) :=
  ⟨by decide, C18_resume_after_exhaustion_fails sampleBuild 5 (by decide) (by decide)
    (by decide) (by decide) (by decide) (by decide)⟩

/-- C19 (the scanner contract is total), evaluated where it fails.  In a
well-formed build, from the freshly constructed scanner, with the input
holding the magic header, the Reset opcode and the byte `0xF4`, the call of
`checkCommand` does not return a code: the Reset handler leaves
`_cmdLen = 8`, and the next turn of the loop evaluates `cmdHeader[8]`,
outside the table of eight bytes.  (Apart from accesses outside an array
the claim holds: see `checkCommand_total`, `checkCommand_empty` and
`fgetc_total`.) -/
theorem C19_checkCommand_reads_outside_header (b : Build) (hwf : b.WellFormed)
    (hcap : 8 ≤ b.cmdCap) :
    checkCommand b (freshWorld b (cmdHeader ++ [b.CMD_RESET, 0xF4])) = .outOfBounds := by
  have hf := wellFormed_facts b hwf
  have hc : 8 ≤ (gPlatform b)._cmd.length := by rw [gPlatform_cmd_length]; exact hcap
  have hc2 : 8 ≤ (headerMatched (gPlatform b))._cmd.length := by
    simp only [headerMatched, headerStored_length]; exact hc
  have hr : b.CMD_RESET < 256 := by simp [hf]
  have hloop : checkCommandLoop b 2 (freshWorld b (cmdHeader ++ [b.CMD_RESET, 0xF4]))
      = .outOfBounds := by
    rw [freshWorld, checkCommandLoop, checkCommandBody_header b _ _ _ _ hc rfl hr,
      (checkCommandSwitch_inject b hwf _ _ hc2).1]
    simp only []
    rw [checkCommandLoop, checkCommandBody_header_read_outOfBounds b _ _ _ (by
      simp only [resetInjected]; omega)]
  rw [checkCommand_eq_loop b 2 _ (by rw [hloop]; simp), hloop]

theorem C19_checkCommand_reads_outside_header_witness :
    (sampleBuild.WellFormed ∧ 8 ≤ sampleBuild.cmdCap) ∧
    checkCommand sampleBuild (freshWorld sampleBuild (cmdHeader ++ [sampleBuild.CMD_RESET, 0xF4]))
      = .outOfBounds :=
  ⟨by decide, C19_checkCommand_reads_outside_header sampleBuild (by decide) (by decide)⟩

/-- C20 as stated fails: it speaks of the scanner after any sequence of
calls, and there are sequences after which the program has no defined
state.  On `sampleBuild`, from the freshly constructed scanner, the call of
`_fgetc` on the header, the Reset opcode and `A` returns `A` and leaves
`_cmdLen = 8`; with `0xF4` then in the input, the call of `checkCommand`
reads `cmdHeader[8]`, outside the table, so it yields no state of which
`_unreadCmd` is false.  On the build with a `_cmd` of eight elements, eight
polls on `A` leave `_cmdLen = 8`, and the ninth writes `_cmd[8]`, outside
the array. -/
theorem C20_calls_leave_the_arrays :
    (_fgetc sampleBuild (freshWorld sampleBuild (cmdHeader ++ [sampleBuild.CMD_RESET, 0x41]))
        = .ok (0x41, afterReset)
      ∧ ReachableInBounds sampleBuild { afterReset with stdin := [0xF4] }
      ∧ checkCommand sampleBuild { afterReset with stdin := [0xF4] } = .outOfBounds)
    ∧ (∃ w, checkCommandN smallBuild 8 (freshWorld smallBuild (List.replicate 8 0x41))
          = .ok (List.replicate 8 smallBuild.CMD_UNKNOWN, w)
        ∧ w.pio._cmdLen = 8
        ∧ checkCommand smallBuild { w with stdin := [0x41] } = .outOfBounds) := by
  have h1 : _fgetc sampleBuild
      (freshWorld sampleBuild (cmdHeader ++ [sampleBuild.CMD_RESET, 0x41]))
        = .ok (0x41, afterReset) := by decide
  refine ⟨⟨h1, ?_, by decide⟩, ⟨_, rfl, rfl, by decide⟩⟩
  exact ReachableInBounds.input afterReset [0xF4]
    (ReachableInBounds.fgetcCall _ afterReset 0x41 (ReachableInBounds.start _ _) h1)

/-- C20 (amended).  In every world at the end of a history of calls of
`_fgetc` and `checkCommand` from the construction of `gPlatform`, on
whatever input, in which no call left an array: `_unreadCmd` is false, so a
call of `_fgetc` does not take the replay branch but runs the reading loop,
whose first act is a `fgetc`, and if the input holds a byte a call that
returns has consumed at least one.  In a build without the rp2040 handler
whose `_cmd` has at least eight elements the call of `_fgetc` does return,
and leaves `_unreadCmd` false. -/
theorem C20_replay_unreachable (b : Build) (w : World) (h : ReachableInBounds b w) :
    w.pio._unreadCmd = false
    ∧ _fgetc b w = fgetcLoop b (w.stdin.length + 1) w
    ∧ (∀ c w1, _fgetc b w = .ok (c, w1) → w.stdin ≠ [] → w1.stdin.length < w.stdin.length)
    ∧ (b.rp2040 = false → 8 ≤ b.cmdCap →
        ∃ c w1, _fgetc b w = .ok (c, w1) ∧ w1.pio._unreadCmd = false
          ∧ (w.stdin ≠ [] → w1.stdin.length < w.stdin.length)) := by
  have hinv : w.pio._unreadCmd = false
      ∧ (b.rp2040 = false → 8 ≤ b.cmdCap → w.pio._cmd.length = b.cmdCap) := by
    induction h with
    | start input out => exact ⟨rfl, fun _ _ => gPlatform_cmd_length b⟩
    | input w more _ ih => exact ih
    | fgetcCall w w1 c _ hcall ih =>
      have hl : _fgetc b w = fgetcLoop b (w.stdin.length + 1) w := by
        unfold _fgetc
        simp only [ih.1, Bool.false_eq_true, if_false]
      rw [hl] at hcall
      refine ⟨by rw [(fgetcLoop_result b _ w w1 c hcall).1, ih.1], fun hrp hcap => ?_⟩
      obtain ⟨c2, w2, e1, e2, _⟩ := fgetcLoop_safe b (w.stdin.length + 1) w hrp
        (by rw [ih.2 hrp hcap]; exact hcap) (Nat.lt_succ_self _)
      rw [e1] at hcall
      simp only [Outcome.ok.injEq, Prod.mk.injEq] at hcall
      rw [← hcall.2, e2.1]
      exact ih.2 hrp hcap
    | checkCommandCall w w1 code _ hcall ih =>
      refine ⟨by rw [(checkCommandLoop_result b _ w w1 code hcall).2.1, ih.1],
        fun hrp hcap => ?_⟩
      rw [checkCommandLoop_cmdSize b _ w w1 code hcall]
      exact ih.2 hrp hcap
  obtain ⟨hu, hlen⟩ := hinv
  have hl : _fgetc b w = fgetcLoop b (w.stdin.length + 1) w := by
    unfold _fgetc
    simp only [hu, Bool.false_eq_true, if_false]
  refine ⟨hu, hl, fun c w1 hcall hne => ?_, fun hrp hcap => ?_⟩
  · rw [hl] at hcall
    exact (fgetcLoop_result b _ w w1 c hcall).2.2 hne
  · obtain ⟨c2, w2, e1, _, _⟩ := fgetcLoop_safe b (w.stdin.length + 1) w hrp
      (by rw [hlen hrp hcap]; exact hcap) (Nat.lt_succ_self _)
    have hr := fgetcLoop_result b _ w w2 c2 e1
    exact ⟨c2, w2, by rw [hl, e1], by rw [hr.1, hu], hr.2.2⟩

theorem C20_replay_unreachable_witness :
    (ReachableInBounds sampleBuild { afterFalseStart with stdin := [0xF4, 0x42] }
      ∧ sampleBuild.rp2040 = false ∧ 8 ≤ sampleBuild.cmdCap) ∧
    (({ afterFalseStart with stdin := [0xF4, 0x42] } : World).pio._unreadCmd = false
    ∧ _fgetc sampleBuild { afterFalseStart with stdin := [0xF4, 0x42] }
        = fgetcLoop sampleBuild
            (({ afterFalseStart with stdin := [0xF4, 0x42] } : World).stdin.length + 1)
            { afterFalseStart with stdin := [0xF4, 0x42] }
    ∧ (∀ c w1, _fgetc sampleBuild { afterFalseStart with stdin := [0xF4, 0x42] } = .ok (c, w1)
        → ({ afterFalseStart with stdin := [0xF4, 0x42] } : World).stdin ≠ []
        → w1.stdin.length
            < ({ afterFalseStart with stdin := [0xF4, 0x42] } : World).stdin.length)
    ∧ (sampleBuild.rp2040 = false → 8 ≤ sampleBuild.cmdCap →
        ∃ c w1, _fgetc sampleBuild { afterFalseStart with stdin := [0xF4, 0x42] } = .ok (c, w1)
          ∧ w1.pio._unreadCmd = false
          ∧ (({ afterFalseStart with stdin := [0xF4, 0x42] } : World).stdin ≠ []
              → w1.stdin.length
                < ({ afterFalseStart with stdin := [0xF4, 0x42] } : World).stdin.length))) :=
  have hreach : ReachableInBounds sampleBuild { afterFalseStart with stdin := [0xF4, 0x42] } :=
    ReachableInBounds.input afterFalseStart [0xF4, 0x42]
      (ReachableInBounds.fgetcCall { afterPoll with stdin := [0xF4, 0x41] } afterFalseStart 0xF4
        (ReachableInBounds.input afterPoll [0xF4, 0x41]
          (ReachableInBounds.checkCommandCall (freshWorld sampleBuild [0x41]) afterPoll
            sampleBuild.CMD_UNKNOWN (ReachableInBounds.start _ _) (by decide)))
        (by decide))
  ⟨⟨hreach, by decide, by decide⟩, C20_replay_unreachable sampleBuild _ hreach⟩

/-- The history behind the state used above, call by call: a poll on `A`,
then `_fgetc` on the false start `F4 A`, then `_fgetc` on `F4 B`, which
reads both bytes and returns `0xF4`. -/
theorem history_sample :
    checkCommand sampleBuild (freshWorld sampleBuild [0x41])
      = .ok (sampleBuild.CMD_UNKNOWN, afterPoll)
    ∧ _fgetc sampleBuild { afterPoll with stdin := [0xF4, 0x41] } = .ok (0xF4, afterFalseStart)
    ∧ ∃ w1, _fgetc sampleBuild { afterFalseStart with stdin := [0xF4, 0x42] } = .ok (0xF4, w1)
        ∧ w1.stdin = [] ∧ w1.pio._unreadCmd = false := by
  refine ⟨by decide, by decide, _, rfl, rfl, rfl⟩

/-- C21 (index safety of the blocking scanner).  In a build without the
rp2040 handler whose `_cmd` has at least eight elements, in every world
reachable from the construction of `gPlatform` by calls of `_fgetc` alone:
a call of `_fgetc` returns a byte, so none of its reads of `cmdHeader` and
none of its reads and writes of `_cmd` is outside the array (with a `_cmd`
of exactly eight elements, every index used is below 8); `_cmdLen` is at
most 8; and the elements of `_cmd` from index 8 on are the zeros they were
at the start, so no write has gone to an index of 8 or more. -/
theorem C21_fgetc_index_safety (b : Build) (w : World) (hrp : b.rp2040 = false)
    (hcap : 8 ≤ b.cmdCap) (h : FgetcReachable b w) :
    (∃ c w1, _fgetc b w = .ok (c, w1))
    ∧ w.pio._cmdLen ≤ 8
    ∧ w.pio._cmd.length = b.cmdCap
    ∧ w.pio._cmd.drop 8 = List.replicate (b.cmdCap - 8) 0 := by
  have hinv : w.pio._unreadCmd = false ∧ w.pio._cmdLen ≤ 8 ∧ w.pio._cmd.length = b.cmdCap
      ∧ w.pio._cmd.drop 8 = List.replicate (b.cmdCap - 8) 0 := by
    induction h with
    | start input out =>
      refine ⟨rfl, Nat.zero_le 8, gPlatform_cmd_length b, ?_⟩
      simp [gPlatform, PlatformIO.ctor, PlatformIO.zeroed]
    | input w more _ ih => exact ih
    | fgetcCall w w1 c _ hcall ih =>
      obtain ⟨hu, hl, hlen, hdrop⟩ := ih
      have hloop : _fgetc b w = fgetcLoop b (w.stdin.length + 1) w := by
        unfold _fgetc
        simp only [hu, Bool.false_eq_true, if_false]
      obtain ⟨c2, w2, e1, e2, e3⟩ := fgetcLoop_safe b (w.stdin.length + 1) w hrp
        (by rw [hlen]; exact hcap) (Nat.lt_succ_self _)
      rw [hloop, e1] at hcall
      simp only [Outcome.ok.injEq, Prod.mk.injEq] at hcall
      rw [← hcall.2]
      refine ⟨by rw [e2.2.2, hu], ?_, by rw [e2.1, hlen], by rw [e2.2.1, hdrop]⟩
      rcases e3 with e3 | e3
      · exact e3
      · rw [e3]; exact hl
  obtain ⟨hu, hl, hlen, hdrop⟩ := hinv
  refine ⟨?_, hl, hlen, hdrop⟩
  have hloop : _fgetc b w = fgetcLoop b (w.stdin.length + 1) w := by
    unfold _fgetc
    simp only [hu, Bool.false_eq_true, if_false]
  obtain ⟨c2, w2, e1, _, _⟩ := fgetcLoop_safe b (w.stdin.length + 1) w hrp
    (by rw [hlen]; exact hcap) (Nat.lt_succ_self _)
  exact ⟨c2, w2, by rw [hloop, e1]⟩

theorem C21_fgetc_index_safety_witness :
    (smallBuild.rp2040 = false ∧ 8 ≤ smallBuild.cmdCap
      ∧ FgetcReachable smallBuild
          { pio := gPlatform smallBuild, stdin := cmdHeader ++ [smallBuild.CMD_RESET, 0xF4],
            stdout := "" }) ∧
    ((∃ c w1, _fgetc smallBuild
          { pio := gPlatform smallBuild, stdin := cmdHeader ++ [smallBuild.CMD_RESET, 0xF4],
            stdout := "" } = .ok (c, w1))
    ∧ (gPlatform smallBuild)._cmdLen ≤ 8
    ∧ (gPlatform smallBuild)._cmd.length = smallBuild.cmdCap
    ∧ (gPlatform smallBuild)._cmd.drop 8 = List.replicate (smallBuild.cmdCap - 8) 0) :=
  ⟨⟨by decide, by decide, FgetcReachable.start _ _⟩,
    C21_fgetc_index_safety smallBuild _ (by decide) (by decide) (FgetcReachable.start _ _)⟩

/-- C22 (line reading by `ReadStdin`, non-embedded build).  For every
input of bytes and whatever the string held before: the string is left
holding exactly the longest prefix of the input without `\n`, `\r` and
`0xFF`; the input is left without that prefix and without the one byte after
it; and what was echoed to `stdout` is the prefix and the byte after it (the
character value `0xFF` of `EOF` when the input ended first), each `\r`
echoed as `\n`. -/
theorem C22_ReadStdin_line (buffer : List Nat) (w : World) (h : ∀ x ∈ w.stdin, x < 256) :
    ReadStdin false buffer w
      = .ok (w.stdin.takeWhile (fun x => !isLineEnd x),
          { w with
            stdin := w.stdin.drop ((w.stdin.takeWhile (fun x => !isLineEnd x)).length + 1),
            stdout := w.stdout ++ bytesToString
              (((w.stdin ++ [0xFF]).take
                ((w.stdin.takeWhile (fun x => !isLineEnd x)).length + 1)).map crToLf) }) := by
  obtain ⟨pio, input, out⟩ := w
  cases input with
  | nil =>
    have hend : (toChar (-1) = toChar (-1) ∨ (toChar (-1) = 0x0A ∨ toChar (-1) = 0x0D)) :=
      Or.inl rfl
    simp only [ReadStdin, StringRef.Resize1D, StringRef.Reserve, Bool.false_eq_true, if_false,
      fgetc_nil, List.length_nil, ReadStdinLoop, hend, if_true, echoChar_eq]
    simp [toChar_eof, crToLf]
  | cons x rest =>
    have hx : x < 256 := h x (List.mem_cons_self x rest)
    have hloop := ReadStdinLoop_spec rest (rest.length + 2) [] x pio
      (out ++ bytesToString [crToLf x]) (fun y hy => h y (List.mem_cons_of_mem x hy))
      (Nat.le_refl _)
    simp only [ReadStdin, StringRef.Resize1D, StringRef.Reserve, Bool.false_eq_true, if_false,
      fgetc_cons, toChar_byte x hx, List.length_cons, echoChar_eq, List.take_zero,
      Nat.zero_sub, List.replicate_zero, List.append_nil, hloop]
    simp [bytesToString_cons]

theorem C22_ReadStdin_line_witness :
    (∀ x ∈ (freshWorld sampleBuild [0x68, 0x69, 0x0D, 0x41]).stdin, x < 256) ∧
    ReadStdin false [0x31, 0x32] (freshWorld sampleBuild [0x68, 0x69, 0x0D, 0x41])
      = .ok ((freshWorld sampleBuild [0x68, 0x69, 0x0D, 0x41]).stdin.takeWhile
              (fun x => !isLineEnd x),
          { freshWorld sampleBuild [0x68, 0x69, 0x0D, 0x41] with
            stdin := (freshWorld sampleBuild [0x68, 0x69, 0x0D, 0x41]).stdin.drop
              (((freshWorld sampleBuild [0x68, 0x69, 0x0D, 0x41]).stdin.takeWhile
                (fun x => !isLineEnd x)).length + 1),
            stdout := (freshWorld sampleBuild [0x68, 0x69, 0x0D, 0x41]).stdout ++ bytesToString
              ((((freshWorld sampleBuild [0x68, 0x69, 0x0D, 0x41]).stdin ++ [0xFF]).take
                (((freshWorld sampleBuild [0x68, 0x69, 0x0D, 0x41]).stdin.takeWhile
                  (fun x => !isLineEnd x)).length + 1)).map crToLf) }) :=
  ⟨by decide, C22_ReadStdin_line [0x31, 0x32] (freshWorld sampleBuild [0x68, 0x69, 0x0D, 0x41])
    (by decide)⟩

/-- On the input `h i \r A`, `ReadStdin` leaves `hi` in the string, `A` in
the input, and has echoed `hi` and a newline. -/
theorem ReadStdin_sample :
    ReadStdin false [0x31, 0x32] (freshWorld sampleBuild [0x68, 0x69, 0x0D, 0x41])
      = .ok ([0x68, 0x69],
          { pio := gPlatform sampleBuild, stdin := [0x41], stdout := "hi\n" }) := by
  decide

/-- C23 (tick conversion round trip).  With ticks of type `Int64`, on a
platform where a tick is one `k`-th of a microsecond (Windows `k = 10`,
Linux `k = 1000`, emscripten and rp2040 `k = 1`): for every microsecond
count `us` whose product `us * k` fits `Int64`, `MicrosecondsToTickCount`
returns `us * k` and `TickCountToMicroseconds` takes that back to `us`; and
for every tick count, `TickCountToMicroseconds` returns the count divided by
`k` and `TickCountToMilliseconds` returns that result divided by 1000, both
divisions truncating toward zero. -/
theorem C23_tick_round_trip (t : TimerBuild) (k us ticks : Int)
    (hk : exactScale t = some k)
    (hus : -(2 ^ 63) ≤ us * k ∧ us * k < 2 ^ 63)
    (ht : -(2 ^ 63) ≤ ticks ∧ ticks < 2 ^ 63) :
    MicrosecondsToTickCount t us = some (us * k)
    ∧ (MicrosecondsToTickCount t us).bind (TickCountToMicroseconds t) = some us
    ∧ TickCountToMicroseconds t ticks = some (Int.tdiv ticks k)
    ∧ TickCountToMilliseconds t ticks
        = (TickCountToMicroseconds t ticks).map (fun u => Int.tdiv u 1000) := by
  have hms : ∀ u : Int, (-(2 ^ 63) ≤ u ∧ u < 2 ^ 63) → div64 u 1000 = some (Int.tdiv u 1000) :=
    fun u hu => div64_some u 1000 (by decide) hu
  unfold exactScale at hk
  split_ifs at hk with h1 h2 h3 h4 h5 h6 h7 h8
  · -- Windows
    simp only [Option.some.injEq] at hk
    subst hk
    have hd := div64_some (us * 10) 10 (by decide) hus
    have hd2 := div64_some ticks 10 (by decide) ht
    rw [Int.mul_tdiv_cancel us (by decide)] at hd
    simp only [MicrosecondsToTickCount, TickCountToMicroseconds, TickCountToMilliseconds, h1,
      if_true, mul64, int64_some _ hus, Option.some_bind, hd, hd2, Option.map_some',
      hms _ (tdiv_range ticks 10 (by decide) ht), and_self]
  · -- Linux
    simp only [Option.some.injEq] at hk
    subst hk
    have hd := div64_some (us * 1000) 1000 (by decide) hus
    have hd2 := div64_some ticks 1000 (by decide) ht
    rw [Int.mul_tdiv_cancel us (by decide)] at hd
    simp only [MicrosecondsToTickCount, TickCountToMicroseconds, TickCountToMilliseconds, h1,
      h2, h3, h4, if_true, if_false, Bool.false_eq_true, mul64, int64_some _ hus,
      Option.some_bind, hd, hd2, Option.map_some',
      hms _ (tdiv_range ticks 1000 (by decide) ht), and_self]
  · -- emscripten
    simp only [Option.some.injEq] at hk
    subst hk
    simp only [MicrosecondsToTickCount, TickCountToMicroseconds, TickCountToMilliseconds, h1,
      h2, h3, h4, h5, if_true, if_false, Bool.false_eq_true, Option.some_bind,
      Option.map_some', hms _ ht, Int.mul_one, Int.tdiv_one, and_self]
  · -- rp2040
    simp only [Option.some.injEq] at hk
    subst hk
    simp only [MicrosecondsToTickCount, TickCountToMicroseconds, TickCountToMilliseconds, h1,
      h2, h3, h4, h5, h6, h7, h8, if_true, if_false, Bool.false_eq_true, Option.some_bind,
      Option.map_some', hms _ ht, Int.mul_one, Int.tdiv_one, and_self]

theorem C23_tick_round_trip_witness :
    (exactScale linuxTimer = some 1000
      ∧ (-(2 ^ 63) ≤ (-7 : Int) * 1000 ∧ (-7 : Int) * 1000 < 2 ^ 63)
      ∧ (-(2 ^ 63) ≤ (-1999999 : Int) ∧ (-1999999 : Int) < 2 ^ 63)) ∧
    (MicrosecondsToTickCount linuxTimer (-7) = some (-7 * 1000)
    ∧ (MicrosecondsToTickCount linuxTimer (-7)).bind (TickCountToMicroseconds linuxTimer)
        = some (-7)
    ∧ TickCountToMicroseconds linuxTimer (-1999999) = some (Int.tdiv (-1999999) 1000)
    ∧ TickCountToMilliseconds linuxTimer (-1999999)
        = (TickCountToMicroseconds linuxTimer (-1999999)).map (fun u => Int.tdiv u 1000)) :=
  ⟨by decide, C23_tick_round_trip linuxTimer 1000 (-7) (-1999999) (by decide) (by decide)
    (by decide)⟩

end Vireo
